import Mathlib

/-!
# Compute Wars engine — shallow embedding

A shallow embedding of `src/compute-wars/engine.js` (with the static tables of
`data.js`) in Lean 4.  JavaScript numbers are modelled as exact rationals `ℚ`
(`Math.round` is `jround`, `Math.floor` is `Int.floor`), JavaScript objects used
as maps are modelled as functions into `Option` (a `delete`d key is `none`),
and the ambient `Math.random()` source is modelled as an explicit stream
`r : ℕ → ℚ` consumed in program order through an index counter.
-/

namespace ComputeWars

/-- JavaScript `Math.round`: round half toward positive infinity. -/
def jround (x : ℚ) : ℤ := ⌊x + 1/2⌋

/-- `clamp(value, min, max)` from the engine utilities. -/
def clamp (value lo hi : ℚ) : ℚ := max lo (min hi value)

/-- `randomChoice(array)`: `array[Math.floor(Math.random() * array.length)]`.
For an in-range draw `0 ≤ x < 1` this is exactly the JS selection; out-of-range
indices fall back to the head. -/
def randomChoice [Inhabited α] (l : List α) (x : ℚ) : α :=
  l.getD (Int.toNat ⌊x * l.length⌋) (l.headD default)

/-- A random source: the stream of values produced by successive calls of
`Math.random()`, each expected in `[0, 1)`. -/
def Rand01 (r : ℕ → ℚ) : Prop := ∀ n, 0 ≤ r n ∧ r n < 1

-- ── Identifiers (the fixed keys of the static data tables) ──────────────────

/-- The six goods of `GOODS`, in data order. -/
inductive Good
  | h100 | h200 | b100 | compute | datasets | talent
  deriving DecidableEq, Repr, Inhabited

/-- `Object.keys(GOODS)` in insertion order. -/
def goodsList : List Good := [.h100, .h200, .b100, .compute, .datasets, .talent]

/-- The four markets of `MARKETS`, in data order. -/
inductive MarketId
  | usWest | euCentral | chinaEast | singapore
  deriving DecidableEq, Repr, Inhabited

/-- `Object.keys(MARKETS)` in insertion order. -/
def marketsList : List MarketId := [.usWest, .euCentral, .chinaEast, .singapore]

inductive SupplyLevel
  | surplus | normal | shortage
  deriving DecidableEq, Repr, Inhabited

inductive UpgradeId
  | cargo1 | cargo2 | cargo3 | reputation1 | reputation2 | insurance | security
  deriving DecidableEq, Repr, Inhabited

inductive MilestoneId
  | seedRound | seriesA | seriesB | unicorn | decacorn
  | firstTrade | globetrotter | bulkTrader | survivor | debtFree
  deriving DecidableEq, Repr, Inhabited

def milestonesList : List MilestoneId :=
  [.seedRound, .seriesA, .seriesB, .unicorn, .decacorn,
   .firstTrade, .globetrotter, .bulkTrader, .survivor, .debtFree]

def upgradesList : List UpgradeId :=
  [.cargo1, .cargo2, .cargo3, .reputation1, .reputation2, .insurance, .security]

-- ── Static data: GOODS / MARKETS / SUPPLY_LEVELS / CONFIG ───────────────────

def goodBaseMin : Good → ℚ
  | .h100 => 25000 | .h200 => 30000 | .b100 => 40000
  | .compute => 500 | .datasets => 10000 | .talent => 50000

def goodBaseMax : Good → ℚ
  | .h100 => 40000 | .h200 => 50000 | .b100 => 80000
  | .compute => 2000 | .datasets => 30000 | .talent => 150000

/-- `MARKETS[m].priceModifiers[g]` (every pair is present in the data). -/
def priceModifier : MarketId → Good → ℚ
  | .usWest, .compute => 0.9
  | .usWest, .talent => 1.1
  | .usWest, _ => 1.0
  | .euCentral, .h100 => 0.95
  | .euCentral, .h200 => 0.95
  | .euCentral, .b100 => 0.95
  | .euCentral, .datasets => 1.4
  | .euCentral, _ => 1.0
  | .chinaEast, .h100 => 1.5
  | .chinaEast, .h200 => 1.6
  | .chinaEast, .b100 => 1.8
  | .chinaEast, .compute => 0.9
  | .chinaEast, .talent => 0.85
  | .chinaEast, _ => 1.0
  | .singapore, .talent => 1.15
  | .singapore, _ => 1.1

def customsRisk : MarketId → ℚ
  | .usWest => 0.05 | .euCentral => 0.08 | .chinaEast => 0.15 | .singapore => 0.03

/-- `MARKETS[m].restrictedGoods[g]?.seizureRisk`. -/
def restrictionRisk : MarketId → Good → Option ℚ
  | .euCentral, .datasets => some 0.25
  | .chinaEast, .h100 => some 0.30
  | .chinaEast, .h200 => some 0.35
  | .chinaEast, .b100 => some 0.45
  | _, _ => none

/-- `Object.entries(MARKETS[m].restrictedGoods)` in data order. -/
def restrictedEntries : MarketId → List (Good × ℚ)
  | .euCentral => [(.datasets, 0.25)]
  | .chinaEast => [(.h100, 0.30), (.h200, 0.35), (.b100, 0.45)]
  | _ => []

def supplyVolatility : SupplyLevel → ℚ
  | .surplus => 0.05 | .normal => 0.10 | .shortage => 0.20

def supplyPriceMultiplier : SupplyLevel → ℚ
  | .surplus => 0.85 | .normal => 1.0 | .shortage => 1.20

/-- The `levels` array of `updatePrices`, with its index arithmetic. -/
def supplyIndex : SupplyLevel → ℤ
  | .surplus => 0 | .normal => 1 | .shortage => 2

def supplyOfIndex : ℤ → SupplyLevel
  | 0 => .surplus | 1 => .normal | _ => .shortage

-- CONFIG
def startingBalance : ℚ := 10000
def startingInventoryCapacity : ℤ := 10
def startingReputation : ℚ := 50
def startingLocation : MarketId := .usWest
def debtBaseInterestRate : ℚ := 0.05
def debtMediumInterestRate : ℚ := 0.08
def debtHighInterestRate : ℚ := 0.12
def debtMediumThreshold : ℚ := 0.5
def debtHighThreshold : ℚ := 1.0
def maxDebtMultiplier : ℚ := 2.0
def bankruptcyMultiplier : ℚ := 3.0
def supplyShiftChance : ℚ := 0.10
def reputationEventModifier : ℚ := 0.01

-- ── Upgrades / milestones static data ───────────────────────────────────────

inductive UpgradeEffect
  | inventory (value : ℤ)
  | reputation (value : ℚ)
  | customsProtection
  | hackProtection
  deriving DecidableEq, Repr

def upgradeCost : UpgradeId → ℚ
  | .cargo1 => 50000 | .cargo2 => 150000 | .cargo3 => 500000
  | .reputation1 => 100000 | .reputation2 => 300000
  | .insurance => 200000 | .security => 150000

def upgradeEffect : UpgradeId → UpgradeEffect
  | .cargo1 => .inventory 5 | .cargo2 => .inventory 10 | .cargo3 => .inventory 20
  | .reputation1 => .reputation 10 | .reputation2 => .reputation 20
  | .insurance => .customsProtection | .security => .hackProtection

def upgradePrerequisite : UpgradeId → Option UpgradeId
  | .cargo2 => some .cargo1 | .cargo3 => some .cargo2
  | .reputation2 => some .reputation1
  | _ => none

def upgradeUnlockedByMilestone : UpgradeId → Option MilestoneId
  | .insurance => some .seriesA | .security => some .survivor
  | _ => none

inductive MilestoneCondition
  | netWorth (value : ℚ)
  | trades (value : ℕ)
  | marketsVisited (value : ℕ)
  | goodsTraded (value : ℤ)
  | turns (value : ℕ)
  | paidOffDebt
  deriving DecidableEq, Repr

inductive MilestoneReward
  | unlockUpgrade (u : UpgradeId)
  | reputation (value : ℚ)
  | achievement
  | tutorial
  deriving DecidableEq, Repr

def milestoneCondition : MilestoneId → MilestoneCondition
  | .seedRound => .netWorth 100000
  | .seriesA => .netWorth 500000
  | .seriesB => .netWorth 1000000
  | .unicorn => .netWorth 10000000
  | .decacorn => .netWorth 100000000
  | .firstTrade => .trades 1
  | .globetrotter => .marketsVisited 4
  | .bulkTrader => .goodsTraded 100
  | .survivor => .turns 50
  | .debtFree => .paidOffDebt

def milestoneReward : MilestoneId → MilestoneReward
  | .seedRound => .unlockUpgrade .cargo1
  | .seriesA => .unlockUpgrade .insurance
  | .seriesB => .unlockUpgrade .reputation2
  | .unicorn => .achievement
  | .decacorn => .achievement
  | .firstTrade => .tutorial
  | .globetrotter => .reputation 5
  | .bulkTrader => .unlockUpgrade .cargo2
  | .survivor => .unlockUpgrade .security
  | .debtFree => .reputation 10

-- ── Events static data ──────────────────────────────────────────────────────

/-- The closed set of `effect` strings dispatched by `applyEvents` (plus the
`intel_tip` entry type that shares the `pendingEvents` queue, and the inert
template effects that fall through the switch). -/
inductive Effect
  | drop | rise | riseAll | computeRise | computeSpike | computeVolatile
  | computeDrop | talentRise | datasetsDrop | restrict | unrestrict | seize
  | moneyLoss | fine | moneyGain | premiumSell | discountBuy
  | fee | smallFee | slow | intelTip
  deriving DecidableEq, Repr, Inhabited

inductive EventCategory
  | marketShift | regulation | customs | hack | audit | opportunity | windfall
  deriving DecidableEq, Repr, Inhabited

/-- One entry of an event's `templates` array (text dropped; only the fields the
engine reads). -/
structure EventTemplate where
  effect : Option Effect := none
  market : Option MarketId := none
  deriving DecidableEq, Repr, Inhabited

structure EventEntry where
  category : EventCategory
  probability : ℚ
  templates : List EventTemplate
  deriving Repr, Inhabited

/-- `Object.entries(EVENTS)` in insertion order. -/
def eventEntries : List EventEntry :=
  [ -- nvidia_announcement
    ⟨.marketShift, 0.08,
      [⟨some .drop, none⟩, ⟨some .rise, none⟩, ⟨some .riseAll, none⟩]⟩,
    -- datacenter_news
    ⟨.marketShift, 0.07,
      [⟨some .computeRise, none⟩, ⟨some .computeSpike, none⟩,
       ⟨some .computeVolatile, none⟩]⟩,
    -- ai_breakthrough
    ⟨.marketShift, 0.05,
      [⟨some .talentRise, none⟩, ⟨some .computeDrop, none⟩,
       ⟨some .datasetsDrop, none⟩]⟩,
    -- export_ban
    ⟨.regulation, 0.05,
      [⟨none, some .chinaEast⟩, ⟨none, some .euCentral⟩,
       ⟨some .unrestrict, none⟩]⟩,
    -- customs_seizure
    ⟨.customs, 0.10, [⟨some .seize, none⟩, ⟨some .fee, none⟩]⟩,
    -- exchange_hack
    ⟨.hack, 0.03, [⟨some .moneyLoss, none⟩, ⟨some .smallFee, none⟩]⟩,
    -- tax_audit
    ⟨.audit, 0.05, [⟨some .fine, none⟩, ⟨some .slow, none⟩]⟩,
    -- bulk_buyer
    ⟨.opportunity, 0.10, [⟨some .premiumSell, none⟩, ⟨some .discountBuy, none⟩]⟩,
    -- windfall
    ⟨.windfall, 0.02,
      [⟨some .moneyGain, none⟩, ⟨some .moneyGain, none⟩, ⟨some .moneyGain, none⟩]⟩ ]

/-- A materialized event object (description text and id dropped; every field
the engine ever reads back is kept, absent fields are `none`/defaults). -/
structure GEvent where
  effect : Effect
  good : Option Good := none
  market : Option MarketId := none
  percent : ℚ := 0
  quantity : ℤ := 0
  amount : ℚ := 0
  turn : Option ℕ := none
  dirRise : Bool := true
  turnsRemaining : ℤ := 0
  deriving DecidableEq, Repr, Inhabited

-- ── Travel choices and oracle static data ───────────────────────────────────

inductive ChoiceType
  | shadyDeal | gambling | intel | smuggler
  deriving DecidableEq, Repr, Inhabited

structure ChoiceTemplate where
  choiceIds : List String
  deriving DecidableEq, Repr, Inhabited

structure TravelChoiceEntry where
  ctype : ChoiceType
  probability : ℚ
  requiresRestrictedGoods : Bool := false
  templates : List ChoiceTemplate
  hasCompanies : Bool := false
  deriving Repr, Inhabited

/-- `Object.entries(TRAVEL_CHOICES)` in insertion order. -/
def travelChoiceEntries : List TravelChoiceEntry :=
  [ ⟨.shadyDeal, 0.12, false, [⟨["accept", "decline"]⟩], false⟩,
    ⟨.gambling, 0.08, false,
      [⟨["gamble", "decline"]⟩, ⟨["enter", "decline"]⟩], false⟩,
    ⟨.intel, 0.10, false, [⟨["buy", "decline"]⟩], true⟩,
    ⟨.smuggler, 0.06, true, [⟨["use_smuggler", "decline"]⟩], false⟩ ]

/-- The randomized parameters generated for a choice event. -/
structure ChoiceParams where
  goodId : Good
  quantity : ℤ
  discount : ℚ
  risk : ℚ
  amount : ℚ
  entryFee : ℚ
  cost : ℚ
  accuracy : ℚ
  success : ℚ
  deriving DecidableEq, Repr, Inhabited

structure ChoiceEvent where
  ctype : ChoiceType
  choiceIds : List String
  params : ChoiceParams
  destination : MarketId
  deriving DecidableEq, Repr, Inhabited

def oracleProbability : ℚ := 0.15
def oracleBaseCost : ℚ := 5000
def oracleAccuracies : List ℚ := [0.70, 0.70, 0.65, 0.60, 0.55]

structure OraclePrediction where
  good : Good
  market : MarketId
  accuracy : ℚ
  cost : ℚ
  isFree : Bool
  deriving DecidableEq, Repr, Inhabited

-- ── Game state ──────────────────────────────────────────────────────────────

structure MarketState where
  prices : Good → ℚ
  supply : Good → SupplyLevel
  priceHistory : Good → List ℚ
  restricted : List Good
  deriving Inhabited

structure Player where
  balance : ℚ
  debt : ℚ
  debtInterestRate : ℚ
  location : MarketId
  inventory : Good → Option ℤ
  costBasis : Good → Option ℚ
  inventoryCapacity : ℤ
  reputation : ℚ
  deriving Inhabited

structure Stats where
  totalTrades : ℕ
  goodsTraded : ℤ
  marketsVisited : List MarketId
  hadDebt : Bool
  peakNetWorth : ℚ
  deriving DecidableEq, Repr, Inhabited

inductive GameOverReason
  | bankruptcy | destitution
  deriving DecidableEq, Repr, Inhabited

structure GameState where
  player : Player
  markets : MarketId → MarketState
  turn : ℕ
  milestoneAchieved : MilestoneId → Bool
  milestoneAchievedOnTurn : MilestoneId → Option ℕ
  unlockedUpgrades : List UpgradeId
  purchasedUpgrades : List UpgradeId
  pendingEvents : List GEvent
  stats : Stats
  pendingChoice : Option ChoiceEvent
  pendingDestination : Option MarketId
  smuggledThisTrip : Bool
  oraclePrediction : Option OraclePrediction
  gameOver : Bool
  gameOverReason : Option GameOverReason
  deriving Inhabited

-- ── State initialization ────────────────────────────────────────────────────

/-- `createInitialState()`. -/
def createInitialState : GameState :=
  { player :=
      { balance := startingBalance
        debt := 0
        debtInterestRate := debtBaseInterestRate
        location := startingLocation
        inventory := fun _ => none
        costBasis := fun _ => none
        inventoryCapacity := startingInventoryCapacity
        reputation := startingReputation }
    markets := fun m =>
      { prices := fun g =>
          ((jround ((goodBaseMin g + goodBaseMax g) / 2 * priceModifier m g) : ℤ) : ℚ)
        supply := fun _ => .normal
        priceHistory := fun g =>
          [((jround ((goodBaseMin g + goodBaseMax g) / 2 * priceModifier m g) : ℤ) : ℚ)]
        restricted := [] }
    turn := 1
    milestoneAchieved := fun _ => false
    milestoneAchievedOnTurn := fun _ => none
    unlockedUpgrades := []
    purchasedUpgrades := []
    pendingEvents := []
    stats :=
      { totalTrades := 0
        goodsTraded := 0
        marketsVisited := [startingLocation]
        hadDebt := false
        peakNetWorth := startingBalance }
    pendingChoice := none
    pendingDestination := none
    smuggledThisTrip := false
    oraclePrediction := none
    gameOver := false
    gameOverReason := none }

-- ── Calculations ────────────────────────────────────────────────────────────

/-- `calculateInventoryUsed(inventory)`: the sum of all present quantities. -/
def calculateInventoryUsed (inventory : Good → Option ℤ) : ℤ :=
  (goodsList.map (fun g => (inventory g).getD 0)).sum

/-- `calculateAverageCost(good, player)`. -/
def calculateAverageCost (good : Good) (player : Player) : ℤ :=
  let quantity := (player.inventory good).getD 0
  let costBasis := (player.costBasis good).getD 0
  if quantity = 0 then 0 else jround (costBasis / quantity)

/-- `calculateInventoryValue(inventory, prices)`. -/
def calculateInventoryValue (inventory : Good → Option ℤ) (prices : Good → ℚ) : ℚ :=
  (goodsList.map (fun g => prices g * ((inventory g).getD 0 : ℚ))).sum

/-- `calculateNetWorth(state)`. -/
def calculateNetWorth (s : GameState) : ℚ :=
  s.player.balance
    + calculateInventoryValue s.player.inventory (s.markets s.player.location).prices
    - s.player.debt

/-- `getDebtInterestRate(state)`. -/
def getDebtInterestRate (s : GameState) : ℚ :=
  let netWorth := calculateNetWorth s
  if netWorth ≤ 0 then debtHighInterestRate
  else
    let debtRatio := s.player.debt / netWorth
    if debtHighThreshold ≤ debtRatio then debtHighInterestRate
    else if debtMediumThreshold ≤ debtRatio then debtMediumInterestRate
    else debtBaseInterestRate

/-- `getMaxBorrowable(state)`. -/
def getMaxBorrowable (s : GameState) : ℚ :=
  let netWorth := max 0 (calculateNetWorth s)
  let maxDebt := netWorth * maxDebtMultiplier
  max 0 (maxDebt - s.player.debt)

-- ── Price updates ───────────────────────────────────────────────────────────

/-- One (market × good) step of `updatePrices`: bounded random walk, mean
reversion, clamp, and the 8-entry price-history ring. `x` is the draw. -/
def updatePricesGood (m : MarketState) (marketId : MarketId) (g : Good) (x : ℚ) :
    MarketState :=
  let supply := m.supply g
  let oldPrice := m.prices g
  let volatility := supplyVolatility supply
  let change := (x - 0.5) * 2 * volatility
  let supplyMult := supplyPriceMultiplier supply
  let modifier := priceModifier marketId g
  let newPrice1 := oldPrice * (1 + change)
  let basePrice := ((goodBaseMin g + goodBaseMax g) / 2) * modifier * supplyMult
  let newPrice2 := newPrice1 * 0.9 + basePrice * 0.1
  let newPrice := clamp ((jround newPrice2 : ℤ) : ℚ)
      ((jround (goodBaseMin g * modifier * 0.7) : ℤ) : ℚ)
      ((jround (goodBaseMax g * modifier * 1.3) : ℤ) : ℚ)
  let hist0 := m.priceHistory g ++ [newPrice]
  let hist := if 8 < hist0.length then hist0.drop 1 else hist0
  { m with prices := fun g2 => if g2 = g then newPrice else m.prices g2,
           priceHistory := fun g2 => if g2 = g then hist else m.priceHistory g2 }

/-- One good of the random supply-level shift loop of `updatePrices`. -/
def supplyShiftGood (m : MarketState) (g : Good) (r : ℕ → ℚ) (k : ℕ) :
    MarketState × ℕ :=
  if r k < supplyShiftChance then
    let direction : ℤ := if r (k+1) < 0.5 then -1 else 1
    let newIndex := max 0 (min 2 (supplyIndex (m.supply g) + direction))
    ({ m with supply := fun g2 => if g2 = g then supplyOfIndex newIndex else m.supply g2 },
     k + 2)
  else (m, k + 1)

/-- `updatePrices` restricted to one market (both inner loops). -/
def updateMarketPrices (marketId : MarketId) (m : MarketState) (r : ℕ → ℚ) (k : ℕ) :
    MarketState × ℕ :=
  let p1 := goodsList.foldl
    (fun (p : MarketState × ℕ) g => (updatePricesGood p.1 marketId g (r p.2), p.2 + 1))
    (m, k)
  goodsList.foldl (fun (p : MarketState × ℕ) g => supplyShiftGood p.1 g r p.2) p1

/-- `updatePrices(state)` (the returned `priceChanges` record is not modelled;
nothing downstream reads it). -/
def updatePrices (s : GameState) (r : ℕ → ℚ) (k : ℕ) : GameState × ℕ :=
  marketsList.foldl
    (fun (p : GameState × ℕ) mid =>
      let mk := updateMarketPrices mid (p.1.markets mid) r p.2
      ({ p.1 with markets := fun m2 => if m2 = mid then mk.1 else p.1.markets m2 },
       mk.2))
    (s, k)

-- ── Event roll ──────────────────────────────────────────────────────────────

/-- `(state.player.reputation - 50) * CONFIG.reputationEventModifier`. -/
def repEventMod (s : GameState) : ℚ :=
  (s.player.reputation - 50) * reputationEventModifier

/-- Present inventory entries with positive quantity, in `GOODS` key order
(`Object.entries(state.player.inventory).filter(([, qty]) => qty > 0)`). -/
def positiveInventoryEntries (s : GameState) : List (Good × ℤ) :=
  goodsList.filterMap (fun g =>
    match s.player.inventory g with
    | some q => if 0 < q then some (g, q) else none
    | none => none)

/-- One entry of the `rollForEvents` loop, consuming draws in program order. -/
def rollEntry (s : GameState) (isTraveling : Bool) (destination : Option MarketId)
    (e : EventEntry) (r : ℕ → ℚ) (k : ℕ) : List GEvent × ℕ :=
  match e.category with
  | .marketShift =>
    let prob := e.probability - repEventMod s * 0.5
    if r k < prob then
      let t := randomChoice e.templates (r (k+1))
      let good := randomChoice goodsList (r (k+2))
      let percent : ℚ := ((⌊r (k+3) * 20⌋ : ℤ) : ℚ) + 10
      ([{ effect := t.effect.getD .restrict, good := some good, percent := percent }],
       k + 4)
    else ([], k + 1)
  | .regulation =>
    if r k < e.probability then
      let t := randomChoice e.templates (r (k+1))
      let good := randomChoice goodsList (r (k+2))
      match t.market with
      | some m =>
        ([{ effect := t.effect.getD .restrict, good := some good, market := some m }],
         k + 3)
      | none =>
        let m := randomChoice marketsList (r (k+3))
        ([{ effect := t.effect.getD .restrict, good := some good, market := some m }],
         k + 4)
    else ([], k + 1)
  | .customs =>
    match isTraveling, destination with
    | true, some dest =>
      let marketRisk := customsRisk dest
      let hasInsurance := s.purchasedUpgrades.contains .insurance
      let pk := if hasInsurance then
          (if r k < 0.5 then (0 : ℚ) else marketRisk - repEventMod s, k + 1)
        else (marketRisk - repEventMod s, k)
      if r pk.2 < pk.1 ∧ 0 < calculateInventoryUsed s.player.inventory then
        let _t := randomChoice e.templates (r (pk.2 + 1))
        let inventoryGoods := positiveInventoryEntries s
        if inventoryGoods.isEmpty then ([], pk.2 + 2)
        else
          let gq := randomChoice inventoryGoods (r (pk.2 + 2))
          let seizeQty := max 1 ⌊(gq.2 : ℚ) * (r (pk.2 + 3) * 0.3 + 0.1)⌋
          ([{ effect := .seize, good := some gq.1, quantity := seizeQty }], pk.2 + 4)
      else ([], pk.2 + 1)
    | _, _ => ([], k)
  | .hack =>
    let hasSecurity := s.purchasedUpgrades.contains .security
    let pk := if hasSecurity then
        (if r k < 0.5 then (0 : ℚ) else e.probability + repEventMod s * 0.5, k + 1)
      else (e.probability + repEventMod s * 0.5, k)
    if r pk.2 < pk.1 then
      let _t := randomChoice e.templates (r (pk.2 + 1))
      let amount : ℚ := ((⌊s.player.balance * (r (pk.2 + 2) * 0.15 + 0.05)⌋ : ℤ) : ℚ)
      ([{ effect := .moneyLoss, amount := amount }], pk.2 + 3)
    else ([], pk.2 + 1)
  | .audit =>
    let netWorth := calculateNetWorth s
    let wealthMod := min 0.05 (netWorth / 10000000)
    let prob := e.probability + wealthMod + repEventMod s * 0.5
    if r k < prob then
      let _t := randomChoice e.templates (r (k+1))
      let amount : ℚ := ((⌊netWorth * (r (k+2) * 0.05 + 0.02)⌋ : ℤ) : ℚ)
      ([{ effect := .fine, amount := amount }], k + 3)
    else ([], k + 1)
  | .opportunity =>
    let prob := e.probability + repEventMod s
    if r k < prob then
      let t := randomChoice e.templates (r (k+1))
      let good := randomChoice goodsList (r (k+2))
      let percent : ℚ := ((⌊r (k+3) * 30⌋ : ℤ) : ℚ) + 20
      ([{ effect := t.effect.getD .restrict, good := some good, percent := percent }],
       k + 4)
    else ([], k + 1)
  | .windfall =>
    let prob := e.probability + repEventMod s
    if r k < prob then
      let _t := randomChoice e.templates (r (k+1))
      let amount : ℚ := ((⌊r (k+2) * 30000⌋ : ℤ) : ℚ) + 10000
      ([{ effect := .moneyGain, amount := amount }], k + 3)
    else ([], k + 1)

def rollEventsGo (s : GameState) (isTraveling : Bool) (destination : Option MarketId)
    (r : ℕ → ℚ) : List EventEntry → ℕ → List GEvent × ℕ
  | [], k => ([], k)
  | e :: rest, k =>
    let p1 := rollEntry s isTraveling destination e r k
    let p2 := rollEventsGo s isTraveling destination r rest p1.2
    (p1.1 ++ p2.1, p2.2)

/-- `rollForEvents(state, isTraveling, destination)`: all categories rolled
against the un-mutated `state`, materialized in entry order. -/
def rollForEvents (s : GameState) (isTraveling : Bool) (destination : Option MarketId)
    (r : ℕ → ℚ) (k : ℕ) : List GEvent × ℕ :=
  rollEventsGo s isTraveling destination r eventEntries k

-- ── Event application ───────────────────────────────────────────────────────

/-- Rescale one good's price (with `Math.round`) in every market. -/
def scaleGoodPrice (s : GameState) (g : Good) (factor : ℚ) : GameState :=
  { s with markets := fun m =>
      let mk := s.markets m
      { mk with prices := fun g2 =>
          if g2 = g then ((jround (mk.prices g * factor) : ℤ) : ℚ) else mk.prices g2 } }

/-- `unrestrict`: pop one restriction from the first market that has any. -/
def popFirstRestriction (s : GameState) : List MarketId → GameState
  | [] => s
  | m :: rest =>
    if (s.markets m).restricted ≠ [] then
      { s with markets := fun m2 =>
          if m2 = m then
            { s.markets m with restricted := (s.markets m).restricted.dropLast }
          else s.markets m2 }
    else popFirstRestriction s rest

/-- One case of the `applyEvents` effect switch. -/
def applyEvent (s : GameState) (event : GEvent) : GameState :=
  match event.effect with
  | .drop =>
    match event.good with
    | some g => scaleGoodPrice s g (1 - event.percent / 100)
    | none => s
  | .rise =>
    match event.good with
    | some g => scaleGoodPrice s g (1 + event.percent / 100)
    | none => s
  | .riseAll =>
    [Good.h100, Good.h200, Good.b100].foldl
      (fun st g => scaleGoodPrice st g (1 + event.percent / 100)) s
  | .computeRise => scaleGoodPrice s .compute 1.3
  | .computeSpike => scaleGoodPrice s .compute 1.3
  | .computeDrop => scaleGoodPrice s .compute 0.75
  | .talentRise => scaleGoodPrice s .talent 1.25
  | .datasetsDrop => scaleGoodPrice s .datasets 0.7
  | .restrict =>
    match event.market, event.good with
    | some m, some g =>
      if (s.markets m).restricted.contains g then s
      else
        { s with markets := fun m2 =>
            if m2 = m then
              { s.markets m with restricted := (s.markets m).restricted ++ [g] }
            else s.markets m2 }
    | _, _ => s
  | .unrestrict => popFirstRestriction s marketsList
  | .seize =>
    match event.good with
    | some g =>
      if event.quantity ≠ 0 then
        let currentQty := (s.player.inventory g).getD 0
        if 0 < currentQty then
          let seizeQty := min event.quantity currentQty
          let currentCostBasis := (s.player.costBasis g).getD 0
          let costBasisReduction := ((seizeQty : ℚ) / (currentQty : ℚ)) * currentCostBasis
          let newQty := currentQty - seizeQty
          if newQty = 0 then
            { s with player := { s.player with
                inventory := fun g2 => if g2 = g then none else s.player.inventory g2,
                costBasis := fun g2 => if g2 = g then none else s.player.costBasis g2 } }
          else
            { s with player := { s.player with
                inventory := fun g2 =>
                  if g2 = g then some newQty else s.player.inventory g2,
                costBasis := fun g2 =>
                  if g2 = g then some (currentCostBasis - costBasisReduction)
                  else s.player.costBasis g2 } }
        else s
      else s
    | none => s
  | .moneyLoss =>
    { s with player := { s.player with balance := max 0 (s.player.balance - event.amount) } }
  | .fine =>
    { s with player := { s.player with balance := max 0 (s.player.balance - event.amount) } }
  | .moneyGain =>
    { s with player := { s.player with balance := s.player.balance + event.amount } }
  | .premiumSell => { s with pendingEvents := s.pendingEvents ++ [event] }
  | .discountBuy => { s with pendingEvents := s.pendingEvents ++ [event] }
  | _ => s

/-- `applyEvents(state, events)`. -/
def applyEvents (s : GameState) (events : List GEvent) : GameState :=
  events.foldl applyEvent s

-- ── Milestones ──────────────────────────────────────────────────────────────

/-- The `switch (condition.type)` of `checkMilestones` (with the net worth
computed once, at entry). -/
def milestoneConditionMet (s : GameState) (netWorth : ℚ) (id : MilestoneId) : Bool :=
  match milestoneCondition id with
  | .netWorth v => decide (v ≤ netWorth)
  | .trades v => decide (v ≤ s.stats.totalTrades)
  | .marketsVisited v => decide (v ≤ s.stats.marketsVisited.length)
  | .goodsTraded v => decide (v ≤ s.stats.goodsTraded)
  | .turns v => decide (v ≤ s.turn)
  | .paidOffDebt => s.stats.hadDebt && decide (s.player.debt = 0)

def checkMilestonesGo (netWorth : ℚ) :
    List MilestoneId → GameState → GameState × List MilestoneId
  | [], s => (s, [])
  | id :: rest, s =>
    if ¬ s.milestoneAchieved id ∧ milestoneConditionMet s netWorth id then
      let s1 := { s with
        milestoneAchieved := fun i => if i = id then true else s.milestoneAchieved i,
        milestoneAchievedOnTurn := fun i =>
          if i = id then some s.turn else s.milestoneAchievedOnTurn i }
      let s2 := match milestoneReward id with
        | .unlockUpgrade u =>
          if s1.unlockedUpgrades.contains u then s1
          else { s1 with unlockedUpgrades := s1.unlockedUpgrades ++ [u] }
        | .reputation v =>
          { s1 with player := { s1.player with reputation := s1.player.reputation + v } }
        | _ => s1
      let p := checkMilestonesGo netWorth rest s2
      (p.1, id :: p.2)
    else checkMilestonesGo netWorth rest s

/-- `checkMilestones(state)`: peak-net-worth update, then first-satisfaction
check of every not-yet-achieved milestone, applying its reward. -/
def checkMilestones (s : GameState) : GameState × List MilestoneId :=
  let netWorth := calculateNetWorth s
  let s1 := if s.stats.peakNetWorth < netWorth then
      { s with stats := { s.stats with peakNetWorth := netWorth } }
    else s
  checkMilestonesGo netWorth milestonesList s1

-- ── Game over ───────────────────────────────────────────────────────────────

/-- `checkGameOver(state)`. -/
def checkGameOver (s : GameState) : GameState :=
  let netWorth := calculateNetWorth s
  if 0 < s.player.debt ∧ (netWorth ≤ 0 ∨ netWorth * bankruptcyMultiplier < s.player.debt)
  then { s with gameOver := true, gameOverReason := some .bankruptcy }
  else if s.player.balance ≤ 0 ∧ calculateInventoryUsed s.player.inventory = 0 ∧
      getMaxBorrowable s ≤ 0
  then { s with gameOver := true, gameOverReason := some .destitution }
  else s

-- ── Travel choice sub-engine ────────────────────────────────────────────────

/-- `generateChoiceEvent(eventData, state, destination)`; the company draw of
the intel template is display-only but still consumes one `Math.random()`. -/
def generateChoiceEvent (e : TravelChoiceEntry) (s : GameState)
    (destination : MarketId) (r : ℕ → ℚ) (k : ℕ) : ChoiceEvent × ℕ :=
  let t := randomChoice e.templates (r k)
  let goodId := randomChoice goodsList (r (k+1))
  let quantity : ℤ := ⌊r (k+2) * 5⌋ + 1
  let discount : ℚ := ((⌊r (k+3) * 30⌋ : ℤ) : ℚ) + 20
  let risk : ℚ := ((⌊r (k+4) * 25⌋ : ℤ) : ℚ) + 15
  let amount : ℚ := ((⌊s.player.balance * (0.1 + r (k+5) * 0.3)⌋ : ℤ) : ℚ)
  let entryFee : ℚ := ((⌊r (k+6) * 15000⌋ : ℤ) : ℚ) + 5000
  let cost : ℚ := ((⌊r (k+7) * 10000⌋ : ℤ) : ℚ) + 5000
  let k2 := if e.hasCompanies then k + 9 else k + 8
  let accuracy : ℚ := ((⌊(50 : ℚ) + s.player.reputation * 0.3⌋ : ℤ) : ℚ)
  let success : ℚ := ((⌊(60 : ℚ) + s.player.reputation * 0.2⌋ : ℤ) : ℚ)
  (⟨e.ctype, t.choiceIds,
    ⟨goodId, quantity, discount, risk, amount, entryFee, cost, accuracy, success⟩,
    destination⟩, k2)

/-- Does the player hold any good restricted at `destination`
(`requiresRestrictedGoods` gate of `rollForTravelChoice`)? -/
def holdsRestrictedFor (s : GameState) (destination : MarketId) : Bool :=
  goodsList.any (fun g =>
    decide (0 < (s.player.inventory g).getD 0) && (restrictionRisk destination g).isSome)

def rollTravelChoiceGo (s : GameState) (destination : MarketId) (r : ℕ → ℚ) :
    List TravelChoiceEntry → ℕ → Option ChoiceEvent × ℕ
  | [], k => (none, k)
  | e :: rest, k =>
    if e.requiresRestrictedGoods && ! holdsRestrictedFor s destination then
      rollTravelChoiceGo s destination r rest k
    else
      let prob := e.probability + repEventMod s * 0.3
      if r k < prob then
        let p := generateChoiceEvent e s destination r (k+1)
        (some p.1, p.2)
      else rollTravelChoiceGo s destination r rest (k+1)

/-- `rollForTravelChoice(state, destination)`: first entry whose roll passes
wins. -/
def rollForTravelChoice (s : GameState) (destination : MarketId) (r : ℕ → ℚ)
    (k : ℕ) : Option ChoiceEvent × ℕ :=
  rollTravelChoiceGo s destination r travelChoiceEntries k

/-- `resolveChoiceEvent(state, choiceId)`: applies the outcome of the pending
choice and clears it; the returned `Bool` is the JS `result.success`. -/
def resolveChoiceEvent (s : GameState) (choiceId : String) (r : ℕ → ℚ) (k : ℕ) :
    (GameState × Bool) × ℕ :=
  match s.pendingChoice with
  | none => ((s, false), k)
  | some choice =>
    match choice.ctype with
    | .shadyDeal =>
      if choiceId = "accept" then
        let roll := r k * 100
        let dealPrice : ℚ :=
          ((jround ((s.markets s.player.location).prices choice.params.goodId *
            (1 - choice.params.discount / 100)) : ℤ) : ℚ) * choice.params.quantity
        if choice.params.risk < roll then
          if dealPrice ≤ s.player.balance then
            (({ s with
                player := { s.player with
                  balance := s.player.balance - dealPrice,
                  inventory := fun g =>
                    if g = choice.params.goodId then
                      some ((s.player.inventory choice.params.goodId).getD 0 +
                        choice.params.quantity)
                    else s.player.inventory g,
                  costBasis := fun g =>
                    if g = choice.params.goodId then
                      some ((s.player.costBasis choice.params.goodId).getD 0 + dealPrice)
                    else s.player.costBasis g },
                pendingChoice := none }, true), k+1)
          else (({ s with pendingChoice := none }, true), k+1)
        else
          if dealPrice ≤ s.player.balance then
            (({ s with
                player := { s.player with balance := s.player.balance - dealPrice },
                pendingChoice := none }, true), k+1)
          else (({ s with pendingChoice := none }, true), k+1)
      else (({ s with pendingChoice := none }, true), k)
    | .gambling =>
      if choiceId = "gamble" then
        let amount := min choice.params.amount s.player.balance
        if r k < 0.5 then
          (({ s with
              player := { s.player with balance := s.player.balance + amount },
              pendingChoice := none }, true), k+1)
        else
          (({ s with
              player := { s.player with balance := s.player.balance - amount },
              pendingChoice := none }, true), k+1)
      else if choiceId = "enter" then
        let fee := min choice.params.entryFee s.player.balance
        let multiplier := if r k < 0.3 then 2 + r (k+1) * 3 else r (k+1) * 0.5
        let prize : ℚ := ((jround (fee * multiplier) : ℤ) : ℚ)
        (({ s with
            player := { s.player with balance := s.player.balance - fee + prize },
            pendingChoice := none }, true), k+2)
      else (({ s with pendingChoice := none }, true), k)
    | .intel =>
      if choiceId = "buy" then
        let cost := min choice.params.cost s.player.balance
        let isAccurate := r k * 100 < choice.params.accuracy
        let dirRise := r (k+1) < 0.5
        if isAccurate then
          (({ s with
              player := { s.player with balance := s.player.balance - cost },
              pendingEvents := s.pendingEvents ++
                [{ effect := .intelTip, good := some choice.params.goodId,
                   dirRise := dirRise, turnsRemaining := ⌊r (k+2) * 2⌋ + 1 }],
              pendingChoice := none }, true), k+3)
        else
          (({ s with
              player := { s.player with balance := s.player.balance - cost },
              pendingChoice := none }, true), k+2)
      else (({ s with pendingChoice := none }, true), k)
    | .smuggler =>
      if choiceId = "use_smuggler" then
        let cost := min choice.params.cost s.player.balance
        if r k * 100 < choice.params.success then
          (({ s with
              player := { s.player with balance := s.player.balance - cost },
              smuggledThisTrip := true,
              pendingChoice := none }, true), k+1)
        else
          (({ s with
              player := { s.player with
                balance := s.player.balance - cost,
                inventory := fun g =>
                  if 0 < (s.player.inventory g).getD 0 ∧
                      (restrictionRisk choice.destination g).isSome
                  then none else s.player.inventory g,
                costBasis := fun g =>
                  if 0 < (s.player.inventory g).getD 0 ∧
                      (restrictionRisk choice.destination g).isSome
                  then none else s.player.costBasis g },
              pendingChoice := none }, true), k+1)
      else (({ s with pendingChoice := none }, true), k)

-- ── Seizure / customs resolver ──────────────────────────────────────────────

/-- One restricted good of the `checkSeizureRisk` loop.  The seized list
records `(good, quantity)`; an insurance save is recorded with quantity 0. -/
def seizeStep (s : GameState) (hasInsurance : Bool) (g : Good) (risk : ℚ)
    (r : ℕ → ℚ) (k : ℕ) : (GameState × List (Good × ℤ)) × ℕ :=
  let qty := (s.player.inventory g).getD 0
  if qty ≤ 0 then ((s, []), k)
  else
    let reputationMod := (s.player.reputation - 50) * 0.002
    let seizureChance := max 0.05 (risk - reputationMod)
    let ik := if hasInsurance then ((r k < 0.5 : Bool), k + 1) else (false, k)
    let insuranceSaves := ik.1
    let k1 := ik.2
    if r k1 < seizureChance ∧ insuranceSaves = false then
      let seizePercent := 0.3 + r (k1+1) * 0.4
      let seizeQty := max 1 ⌊(qty : ℚ) * seizePercent⌋
      let newQty := qty - seizeQty
      let cb := (s.player.costBasis g).getD 0
      (({ s with player := { s.player with
          inventory := fun g2 =>
            if g2 = g then (if newQty ≤ 0 then none else some newQty)
            else s.player.inventory g2,
          costBasis := fun g2 =>
            if g2 = g ∧ cb ≠ 0 then
              some ((jround (cb * (1 - (seizeQty : ℚ) / (qty : ℚ))) : ℤ) : ℚ)
            else s.player.costBasis g2 } },
        [(g, seizeQty)]), k1 + 2)
    else if insuranceSaves then
      if r (k1+1) < seizureChance then ((s, [(g, 0)]), k1 + 2)
      else ((s, []), k1 + 2)
    else ((s, []), k1 + 1)

def checkSeizureRiskGo (hasInsurance : Bool) (r : ℕ → ℚ) :
    List (Good × ℚ) → GameState → ℕ → (GameState × List (Good × ℤ)) × ℕ
  | [], s, k => ((s, []), k)
  | gr :: rest, s, k =>
    let p1 := seizeStep s hasInsurance gr.1 gr.2 r k
    let p2 := checkSeizureRiskGo hasInsurance r rest p1.1.1 p1.2
    ((p2.1.1, p1.1.2 ++ p2.1.2), p2.2)

/-- `checkSeizureRisk(state, destination)`. -/
def checkSeizureRisk (s : GameState) (destination : MarketId) (r : ℕ → ℚ) (k : ℕ) :
    (GameState × List (Good × ℤ)) × ℕ :=
  if s.smuggledThisTrip then (({ s with smuggledThisTrip := false }, []), k)
  else
    checkSeizureRiskGo (s.purchasedUpgrades.contains .insurance) r
      (restrictedEntries destination) s k

/-- `getAtRiskGoods(state, destination)` (projected to the good ids; only
emptiness and membership are read back by the engine). -/
def getAtRiskGoods (s : GameState) (destination : MarketId) : List Good :=
  (restrictedEntries destination).filterMap (fun gr =>
    if 0 < (s.player.inventory gr.1).getD 0 then some gr.1 else none)

-- ── Oracle ──────────────────────────────────────────────────────────────────

/-- `rollForOracle(state)`. -/
def rollForOracle (s : GameState) (r : ℕ → ℚ) (k : ℕ) :
    Option OraclePrediction × ℕ :=
  if r k < oracleProbability then
    let accuracy := randomChoice oracleAccuracies (r (k+1))
    let goodId := randomChoice goodsList (r (k+2))
    let marketId := randomChoice marketsList (r (k+3))
    let adjustedAccuracy := accuracy + (s.player.reputation - 50) * 0.003
    (some ⟨goodId, marketId, adjustedAccuracy, oracleBaseCost, (r (k+4) < 0.3 : Bool)⟩,
     k + 5)
  else (none, k + 1)

-- ── Action dispatcher ───────────────────────────────────────────────────────

inductive Action
  | buy (good : Good) (quantity : ℤ)
  | sell (good : Good) (quantity : ℤ)
  | travel (destination : MarketId) (confirmed : Bool)
  | resolveChoice (choiceId : String)
  | wait
  | borrow (amount : ℚ)
  | payDebt (amount : ℚ)
  | upgrade (upgradeId : UpgradeId)
  deriving DecidableEq, Repr

/-- The error strings the dispatcher can return, as an enumeration. -/
inductive ErrKind
  | gameIsOver | mustResolveChoice | quantityNotPositive | restrictedInMarket
  | insufficientFunds | insufficientCargo | insufficientInventory
  | alreadyAtLocation | confirmRisk | noPendingChoice | amountNotPositive
  | exceedsBorrowLimit | exceedsDebt | alreadyPurchased | missingPrerequisite
  | milestoneLocked
  deriving DecidableEq, Repr, Inhabited

/-- The action response (human-readable text, price-change table and
diagnostic lists dropped; all state-bearing fields kept). -/
structure Response where
  success : Bool
  error : Option ErrKind
  state : GameState
  choiceEvent : Option ChoiceEvent
  turnAdvanced : Bool
  deriving Inhabited

def errResponse (s : GameState) (e : ErrKind) : Response :=
  { success := false, error := some e, state := s, choiceEvent := none,
    turnAdvanced := false }

def Action.isResolve : Action → Bool
  | .resolveChoice _ => true
  | _ => false

/-- `['travel', 'wait'].includes(action.action)`. -/
def Action.isTravelOrWait : Action → Bool
  | .travel _ _ => true
  | .wait => true
  | _ => false

/-- The first-match predicate of the buy-discount lookup. -/
def isDiscountFor (good : Good) (e : GEvent) : Bool :=
  decide (e.effect = .discountBuy ∧ e.good = some good)

/-- The first-match predicate of the sell-premium lookup. -/
def isPremiumFor (good : Good) (e : GEvent) : Bool :=
  decide (e.effect = .premiumSell ∧ e.good = some good)

/-- Outcome of the per-action `switch` of `processAction`: either an early
`return response` or fall-through to the shared turn logic. -/
inductive SwitchRes
  | early (resp : Response)
  | cont (s : GameState) (completedTravel : Bool) (k : ℕ)

/-- Complete a journey to `destination`: set the location and record the
market as visited (shared by the `travel` and `resolveChoice` cases). -/
def arriveAt (s : GameState) (destination : MarketId) : GameState :=
  { s with
    player := { s.player with location := destination },
    stats := if s.stats.marketsVisited.contains destination then s.stats
      else { s.stats with marketsVisited := s.stats.marketsVisited ++ [destination] } }

/-- The `case 'buy'` of the action switch.  The discount lookup consumes the
matching pending event before the funds and capacity checks, as in the source. -/
def doBuy (s : GameState) (good : Good) (quantity : ℤ) (k : ℕ) : SwitchRes :=
  let market := s.markets s.player.location
  if quantity ≤ 0 then .early (errResponse s .quantityNotPositive)
  else if market.restricted.contains good then
    .early (errResponse s .restrictedInMarket)
  else
    let price := market.prices good
    let de := s.pendingEvents.find? (isDiscountFor good)
    let finalPrice : ℚ := match de with
      | some ev => ((jround (price * (1 - ev.percent / 100)) : ℤ) : ℚ)
      | none => price
    let s1 := match de with
      | some _ => { s with pendingEvents := s.pendingEvents.eraseP (isDiscountFor good) }
      | none => s
    let totalCost := finalPrice * quantity
    if s1.player.balance < totalCost then .early (errResponse s1 .insufficientFunds)
    else
      let inventoryUsed := calculateInventoryUsed s1.player.inventory
      if s1.player.inventoryCapacity < inventoryUsed + quantity then
        .early (errResponse s1 .insufficientCargo)
      else
        .cont { s1 with
          player := { s1.player with
            balance := s1.player.balance - totalCost,
            inventory := fun g =>
              if g = good then some ((s1.player.inventory good).getD 0 + quantity)
              else s1.player.inventory g,
            costBasis := fun g =>
              if g = good then some ((s1.player.costBasis good).getD 0 + totalCost)
              else s1.player.costBasis g },
          stats := { s1.stats with
            totalTrades := s1.stats.totalTrades + 1,
            goodsTraded := s1.stats.goodsTraded + quantity } } false k

/-- The `case 'sell'` of the action switch. -/
def doSell (s : GameState) (good : Good) (quantity : ℤ) (k : ℕ) : SwitchRes :=
  let market := s.markets s.player.location
  if quantity ≤ 0 then .early (errResponse s .quantityNotPositive)
  else if market.restricted.contains good then
    .early (errResponse s .restrictedInMarket)
  else
    let owned := (s.player.inventory good).getD 0
    if owned < quantity then .early (errResponse s .insufficientInventory)
    else
      let pe := s.pendingEvents.find? (isPremiumFor good)
      let price : ℚ := match pe with
        | some ev => ((jround (market.prices good * (1 + ev.percent / 100)) : ℤ) : ℚ)
        | none => market.prices good
      let s1 := match pe with
        | some _ => { s with pendingEvents := s.pendingEvents.eraseP (isPremiumFor good) }
        | none => s
      let totalRevenue := price * quantity
      let currentCostBasis := (s1.player.costBasis good).getD 0
      let costBasisReduction := ((quantity : ℚ) / (owned : ℚ)) * currentCostBasis
      let newQty := owned - quantity
      .cont { s1 with
        player := { s1.player with
          balance := s1.player.balance + totalRevenue,
          inventory := fun g =>
            if g = good then (if newQty = 0 then none else some newQty)
            else s1.player.inventory g,
          costBasis := fun g =>
            if g = good then
              (if newQty = 0 then none
               else some (currentCostBasis - costBasisReduction))
            else s1.player.costBasis g },
        stats := { s1.stats with
          totalTrades := s1.stats.totalTrades + 1,
          goodsTraded := s1.stats.goodsTraded + quantity } } false k

/-- The seizure check, travel events and arrival shared by the `travel` case
and the deferred-travel completion of `resolveChoice`. -/
def completeTravel (s : GameState) (destination : MarketId)
    (completedTravel : Bool) (r : ℕ → ℚ) (k : ℕ) : SwitchRes :=
  let p1 := checkSeizureRisk s destination r k
  let p2 := rollForEvents p1.1.1 true (some destination) r p1.2
  let s2 := applyEvents p1.1.1 p2.1
  .cont (arriveAt s2 destination) completedTravel p2.2

/-- The `case 'travel'` of the action switch. -/
def doTravel (s : GameState) (destination : MarketId) (confirmed : Bool)
    (r : ℕ → ℚ) (k : ℕ) : SwitchRes :=
  if destination = s.player.location then .early (errResponse s .alreadyAtLocation)
  else
    let atRiskGoods := getAtRiskGoods s destination
    if atRiskGoods ≠ [] ∧ confirmed = false then .early (errResponse s .confirmRisk)
    else
      match rollForTravelChoice s destination r k with
      | (some ev, _) =>
        let sc := { s with pendingChoice := some ev,
                           pendingDestination := some destination }
        .early { success := true, error := none, state := sc,
                 choiceEvent := some ev, turnAdvanced := false }
      | (none, k1) => completeTravel s destination false r k1

/-- The `case 'resolveChoice'` of the action switch. -/
def doResolveChoice (s : GameState) (choiceId : String) (r : ℕ → ℚ) (k : ℕ) :
    SwitchRes :=
  if s.pendingChoice.isNone then .early (errResponse s .noPendingChoice)
  else
    let p0 := resolveChoiceEvent s choiceId r k
    let s1 := p0.1.1
    match s1.pendingDestination with
    | some destination =>
      completeTravel { s1 with pendingDestination := none } destination true r p0.2
    | none => .cont s1 false p0.2

/-- The `case 'borrow'` of the action switch. -/
def doBorrow (s : GameState) (amount : ℚ) (k : ℕ) : SwitchRes :=
  if amount ≤ 0 then .early (errResponse s .amountNotPositive)
  else if getMaxBorrowable s < amount then .early (errResponse s .exceedsBorrowLimit)
  else
    .cont { s with
      player := { s.player with
        balance := s.player.balance + amount, debt := s.player.debt + amount },
      stats := { s.stats with hadDebt := true } } false k

/-- The `case 'payDebt'` of the action switch. -/
def doPayDebt (s : GameState) (amount : ℚ) (k : ℕ) : SwitchRes :=
  if amount ≤ 0 then .early (errResponse s .amountNotPositive)
  else if s.player.balance < amount then .early (errResponse s .insufficientFunds)
  else if s.player.debt < amount then .early (errResponse s .exceedsDebt)
  else
    .cont { s with
      player := { s.player with
        balance := s.player.balance - amount,
        debt := s.player.debt - amount } } false k

/-- The `case 'upgrade'` of the action switch. -/
def doUpgrade (s : GameState) (upgradeId : UpgradeId) (k : ℕ) : SwitchRes :=
  if s.purchasedUpgrades.contains upgradeId then
    .early (errResponse s .alreadyPurchased)
  else if (upgradePrerequisite upgradeId).any
      (fun p => ! s.purchasedUpgrades.contains p) then
    .early (errResponse s .missingPrerequisite)
  else if (upgradeUnlockedByMilestone upgradeId).any
      (fun mid => ! s.milestoneAchieved mid) then
    .early (errResponse s .milestoneLocked)
  else if s.player.balance < upgradeCost upgradeId then
    .early (errResponse s .insufficientFunds)
  else
    let s1 := { s with
      player := { s.player with balance := s.player.balance - upgradeCost upgradeId },
      purchasedUpgrades := s.purchasedUpgrades ++ [upgradeId] }
    let s2 := match upgradeEffect upgradeId with
      | .inventory v =>
        { s1 with player := { s1.player with
            inventoryCapacity := s1.player.inventoryCapacity + v } }
      | .reputation v =>
        { s1 with player := { s1.player with
            reputation := s1.player.reputation + v } }
      | _ => s1
    .cont s2 false k

/-- The `switch (action.action)` of `processAction` (validation plus effect
execution; invalid identifiers are unrepresentable in the embedded types). -/
def actionSwitch (s : GameState) (a : Action) (r : ℕ → ℚ) (k : ℕ) : SwitchRes :=
  match a with
  | .buy good quantity => doBuy s good quantity k
  | .sell good quantity => doSell s good quantity k
  | .travel destination confirmed => doTravel s destination confirmed r k
  | .resolveChoice choiceId => doResolveChoice s choiceId r k
  | .wait => .cont s false k
  | .borrow amount => doBorrow s amount k
  | .payDebt amount => doPayDebt s amount k
  | .upgrade upgradeId => doUpgrade s upgradeId k

/-- The `state.turn - (e.turn || state.turn) < 3` keep-predicate of the
end-of-turn `pendingEvents` pruning (JS truthiness on the stamp). -/
def pruneKeep (curTurn : ℕ) (e : GEvent) : Bool :=
  let eturn : ℕ := match e.turn with
    | some t => if t = 0 then curTurn else t
    | none => curTurn
  decide ((curTurn : ℤ) - (eturn : ℤ) < 3)

/-- The debt-interest accrual at the top of the turn-advancing block. -/
def applyInterest (s : GameState) : GameState :=
  if 0 < s.player.debt then
    let interestRate := getDebtInterestRate s
    let interest := jround (s.player.debt * interestRate)
    { s with player := { s.player with
        debt := s.player.debt + interest, debtInterestRate := interestRate } }
  else s

/-- Store a rolled oracle prediction, when one appeared. -/
def applyOracle (s : GameState) (o : Option OraclePrediction) : GameState :=
  match o with
  | some oracle => { s with oraclePrediction := some oracle }
  | none => s

/-- The `if (shouldAdvanceTurn)` block of `processAction`: interest, events,
prices, oracle, game over, turn increment, pruning. -/
def advanceTurn (s : GameState) (r : ℕ → ℚ) (k : ℕ) : GameState × ℕ :=
  let s1 := applyInterest s
  let p1 := rollForEvents s1 false none r k
  let s2 := applyEvents s1 p1.1
  let p2 := updatePrices s2 r p1.2
  let p3 := rollForOracle p2.1 r p2.2
  let s4 := applyOracle p2.1 p3.1
  let s5 := checkGameOver s4
  let s6 := { s5 with turn := s5.turn + 1 }
  ({ s6 with pendingEvents := s6.pendingEvents.filter (pruneKeep s6.turn) }, p3.2)

/-- `processAction(state, action)` (= the exported `submitAction`). -/
def processAction (s : GameState) (a : Action) (r : ℕ → ℚ) (k : ℕ) : Response :=
  if s.gameOver then errResponse s .gameIsOver
  else if s.pendingChoice.isSome && ! a.isResolve then
    { errResponse s .mustResolveChoice with choiceEvent := s.pendingChoice }
  else
    match actionSwitch s a r k with
    | .early resp => resp
    | .cont s1 completedTravel k1 =>
      let shouldAdvanceTurn := a.isTravelOrWait || completedTravel
      let s2 := (checkMilestones s1).1
      if shouldAdvanceTurn then
        { success := true, error := none, state := (advanceTurn s2 r k1).1,
          choiceEvent := none, turnAdvanced := true }
      else
        { success := true, error := none, state := s2,
          choiceEvent := none, turnAdvanced := false }

/-- `submitAction(state, action)`. -/
def submitAction (s : GameState) (a : Action) (r : ℕ → ℚ) (k : ℕ) : Response :=
  processAction s a r k

-- ── Concrete scenario states ────────────────────────────────────────────────

/-- The fresh state with an empty wallet and one pending buy-discount offer on
H100 GPUs: a buy of that good then consumes the offer and fails the funds
check. -/
def discountPendingState : GameState :=
  { createInitialState with
    player := { createInitialState.player with balance := 0 },
    pendingEvents := [{ effect := .discountBuy, good := some .h100, percent := 20 }] }

/-- The fresh state altered to `debt = 50000`, `balance = 1000`: the
bankruptcy scenario of the specification. -/
def c8State : GameState :=
  { createInitialState with
    player := { createInitialState.player with balance := 1000, debt := 50000 } }

/-- Four compute units with a recorded cost basis of 5000, used to exercise a
partial sell. -/
def partialSellState : GameState :=
  { createInitialState with
    player := { createInitialState.player with
      inventory := fun g => if g = .compute then some 4 else none,
      costBasis := fun g => if g = .compute then some 5000 else none } }

/-- One H100 GPU with a recorded cost basis of 30000, used to exhibit what a
total customs seizure leaves behind. -/
def seizureState : GameState :=
  { createInitialState with
    player := { createInitialState.player with
      inventory := fun g => if g = .h100 then some 1 else none,
      costBasis := fun g => if g = .h100 then some 30000 else none } }

/-- A random stream under which the journey of `seizureState` to China East
draws no travel choice, seizes the whole H100 holding, and rolls no event. -/
def seizureRand : ℕ → ℚ := fun n => if n = 4 then 1/10 else if n = 5 then 0 else 1/2

/-- A random stream under which a `wait` on the fresh state rolls exactly one
event: a bulk-buyer discount offer on H100 GPUs. -/
def eventRand : ℕ → ℚ := fun n => if n = 6 then 1/20 else if n = 8 ∨ n = 9 then 0 else 1/2

/-- The states after one event-rolling `wait` and three further quiet waits
(each call draws from its own stream, as each engine call draws fresh
`Math.random()` values). -/
def c6State1 : GameState := (processAction createInitialState .wait eventRand 0).state

def c6State2 : GameState := (processAction c6State1 .wait (fun _ => 1/2) 0).state

def c6State3 : GameState := (processAction c6State2 .wait (fun _ => 1/2) 0).state

def c6State4 : GameState := (processAction c6State3 .wait (fun _ => 1/2) 0).state

/-- A full cargo hold (10 compute units, capacity 10) with a pending shady-deal
offer of 5 more compute units and a deferred journey to Singapore: accepting
the deal adds the goods with no capacity check. -/
def overfullChoiceState : GameState :=
  { createInitialState with
    player := { createInitialState.player with
      balance := 100000,
      inventory := fun g => if g = .compute then some 10 else none,
      costBasis := fun g => if g = .compute then some 11250 else none },
    pendingChoice := some
      { ctype := .shadyDeal,
        choiceIds := ["accept", "decline"],
        params := ⟨.compute, 5, 20, 15, 1000, 5000, 5000, 65, 70⟩,
        destination := .singapore },
    pendingDestination := some .singapore }

-- ═══════════════════════════════════════════════════════════════════════════
-- Lemma layer
-- ═══════════════════════════════════════════════════════════════════════════

/-- Inventory entries, when present, are strictly positive. -/
def InvPos (inventory : Good → Option ℤ) : Prop :=
  ∀ g n, inventory g = some n → 0 < n

/-- Well-formedness of a state as produced by the engine: nonnegative market
prices at the current location, nonnegative discount/premium percentages, and
sane pending-choice parameters. -/
def WFState (s : GameState) : Prop :=
  (∀ g, 0 ≤ (s.markets s.player.location).prices g) ∧
  (∀ e ∈ s.pendingEvents, 0 ≤ e.percent) ∧
  (∀ c, s.pendingChoice = some c →
    0 < c.params.quantity ∧ 0 ≤ c.params.amount ∧ 0 ≤ c.params.entryFee)

theorem jround_nonneg (x : ℚ) (h : 0 ≤ x) : 0 ≤ jround x := by
  unfold jround
  exact Int.le_floor.mpr (by push_cast; linarith)

-- ── Sum helpers for the six-good inventory map ──────────────────────────────

theorem invUsed_update (inv : Good → Option ℤ) (g0 : Good) (v : Option ℤ) :
    calculateInventoryUsed (fun g => if g = g0 then v else inv g) =
    calculateInventoryUsed inv - (inv g0).getD 0 + v.getD 0 := by
  cases g0 <;> simp [calculateInventoryUsed, goodsList] <;> ring

theorem invUsed_mono (inv inv' : Good → Option ℤ)
    (h : ∀ g, (inv' g).getD 0 ≤ (inv g).getD 0) :
    calculateInventoryUsed inv' ≤ calculateInventoryUsed inv := by
  have h1 := h .h100
  have h2 := h .h200
  have h3 := h .b100
  have h4 := h .compute
  have h5 := h .datasets
  have h6 := h .talent
  simp only [calculateInventoryUsed, goodsList, List.map_cons, List.map_nil,
    List.sum_cons, List.sum_nil]
  linarith

theorem invUsed_empty (inv : Good → Option ℤ) (h : ∀ g, inv g = none) :
    calculateInventoryUsed inv = 0 := by
  simp [calculateInventoryUsed, goodsList, h]

theorem invValue_empty (inv : Good → Option ℤ) (prices : Good → ℚ)
    (h : ∀ g, inv g = none) : calculateInventoryValue inv prices = 0 := by
  simp [calculateInventoryValue, goodsList, h]

-- ── applyEvents frame and arithmetic lemmas ─────────────────────────────────

theorem popFirstRestriction_shape (s : GameState) (l : List MarketId) :
    ∃ mkts, popFirstRestriction s l = { s with markets := mkts } := by
  induction l with
  | nil => exact ⟨s.markets, rfl⟩
  | cons m rest ih =>
    unfold popFirstRestriction
    split
    · exact ⟨_, rfl⟩
    · exact ih

/-- `applyEvents` only ever touches the balance, the inventory, the cost
basis, the market tables and the pending-events queue. -/
theorem applyEvent_shape (s : GameState) (e : GEvent) :
    ∃ b inv cb mkts pend, applyEvent s e =
      { s with
        player := { s.player with balance := b, inventory := inv, costBasis := cb },
        markets := mkts, pendingEvents := pend } := by
  have base : ∃ b inv cb mkts pend, s =
      { s with
        player := { s.player with balance := b, inventory := inv, costBasis := cb },
        markets := mkts, pendingEvents := pend } :=
    ⟨s.player.balance, s.player.inventory, s.player.costBasis, s.markets,
     s.pendingEvents, rfl⟩
  unfold applyEvent
  split <;> try exact base
  case _ =>
    split
    · exact ⟨_, _, _, _, _, rfl⟩
    · exact base
  case _ =>
    split
    · exact ⟨_, _, _, _, _, rfl⟩
    · exact base
  case _ => exact ⟨_, _, _, _, _, rfl⟩
  case _ => exact ⟨_, _, _, _, _, rfl⟩
  case _ => exact ⟨_, _, _, _, _, rfl⟩
  case _ => exact ⟨_, _, _, _, _, rfl⟩
  case _ => exact ⟨_, _, _, _, _, rfl⟩
  case _ => exact ⟨_, _, _, _, _, rfl⟩
  case _ =>
    split
    · split
      · exact base
      · exact ⟨_, _, _, _, _, rfl⟩
    · exact base
  case _ =>
    obtain ⟨mk, hmk⟩ := popFirstRestriction_shape s marketsList
    exact ⟨_, _, _, _, _, by rw [hmk]⟩
  case _ =>
    split
    · dsimp only
      split_ifs <;> first | exact base | exact ⟨_, _, _, _, _, rfl⟩
    · exact base
  case _ => exact ⟨_, _, _, _, _, rfl⟩
  case _ => exact ⟨_, _, _, _, _, rfl⟩
  case _ => exact ⟨_, _, _, _, _, rfl⟩
  case _ => exact ⟨_, _, _, _, _, rfl⟩
  case _ => exact ⟨_, _, _, _, _, rfl⟩

theorem applyEvents_shape (s : GameState) (es : List GEvent) :
    ∃ b inv cb mkts pend, applyEvents s es =
      { s with
        player := { s.player with balance := b, inventory := inv, costBasis := cb },
        markets := mkts, pendingEvents := pend } := by
  induction es generalizing s with
  | nil => exact ⟨s.player.balance, s.player.inventory, s.player.costBasis,
      s.markets, s.pendingEvents, rfl⟩
  | cons e rest ih =>
    obtain ⟨b1, i1, c1, m1, p1, h1⟩ := applyEvent_shape s e
    obtain ⟨b2, i2, c2, m2, p2, h2⟩ := ih (applyEvent s e)
    refine ⟨b2, i2, c2, m2, p2, ?_⟩
    show applyEvents (applyEvent s e) rest = _
    rw [h2, h1]

theorem applyEvents_debt (s : GameState) (es : List GEvent) :
    (applyEvents s es).player.debt = s.player.debt := by
  obtain ⟨b, i, c, m, p, h⟩ := applyEvents_shape s es
  rw [h]

theorem applyEvents_turn (s : GameState) (es : List GEvent) :
    (applyEvents s es).turn = s.turn := by
  obtain ⟨b, i, c, m, p, h⟩ := applyEvents_shape s es
  rw [h]

/-- Possible balance increase from applying one event. -/
def posContrib (e : GEvent) : ℚ :=
  match e.effect with
  | .moneyGain => max 0 e.amount
  | .moneyLoss => max 0 (-e.amount)
  | .fine => max 0 (-e.amount)
  | _ => 0

def sumPosContrib (es : List GEvent) : ℚ := (es.map posContrib).sum

theorem posContrib_nonneg (e : GEvent) : 0 ≤ posContrib e := by
  unfold posContrib
  split <;> simp

theorem applyEvent_balance_cases (s : GameState) (e : GEvent) :
    (applyEvent s e).player.balance = s.player.balance ∨
    ((e.effect = .moneyLoss ∨ e.effect = .fine) ∧
      (applyEvent s e).player.balance = max 0 (s.player.balance - e.amount)) ∨
    (e.effect = .moneyGain ∧
      (applyEvent s e).player.balance = s.player.balance + e.amount) := by
  unfold applyEvent
  split <;> try (left; rfl)
  case _ => split <;> (left; rfl)
  case _ => split <;> (left; rfl)
  case _ =>
    split
    · split <;> (left; rfl)
    · left; rfl
  case _ =>
    obtain ⟨mk, hmk⟩ := popFirstRestriction_shape s marketsList
    left; rw [hmk]
  case _ =>
    split
    · dsimp only
      split_ifs <;> (left; rfl)
    · left; rfl
  case _ h =>
    right; left; exact ⟨Or.inl h, rfl⟩
  case _ h =>
    right; left; exact ⟨Or.inr h, rfl⟩
  case _ h =>
    right; right; exact ⟨h, rfl⟩

theorem applyEvent_balance_nonneg (s : GameState) (e : GEvent)
    (hb : 0 ≤ s.player.balance) (hok : e.effect = .moneyGain → 0 ≤ e.amount) :
    0 ≤ (applyEvent s e).player.balance := by
  rcases applyEvent_balance_cases s e with h | ⟨_, h⟩ | ⟨heff, h⟩
  · rw [h]; exact hb
  · rw [h]; exact le_max_left _ _
  · rw [h]; have := hok heff; linarith

theorem applyEvent_balance_le (s : GameState) (e : GEvent)
    (hb : 0 ≤ s.player.balance) :
    (applyEvent s e).player.balance ≤ s.player.balance + posContrib e := by
  have hpc := posContrib_nonneg e
  rcases applyEvent_balance_cases s e with h | ⟨heff, h⟩ | ⟨heff, h⟩
  · rw [h]; linarith
  · rw [h]
    have hpc2 : posContrib e = max 0 (-e.amount) := by
      rcases heff with h1 | h1 <;> simp [posContrib, h1]
    rw [hpc2]
    refine max_le ?_ ?_
    · have : 0 ≤ max 0 (-e.amount) := le_max_left _ _
      linarith
    · have : -e.amount ≤ max 0 (-e.amount) := le_max_right _ _
      linarith
  · rw [h]
    have hpc2 : posContrib e = max 0 e.amount := by simp [posContrib, heff]
    have : e.amount ≤ max 0 e.amount := le_max_right _ _
    rw [hpc2]; linarith

theorem applyEvents_balance (s : GameState) (es : List GEvent)
    (hb : 0 ≤ s.player.balance)
    (hok : ∀ e ∈ es, e.effect = .moneyGain → 0 ≤ e.amount) :
    0 ≤ (applyEvents s es).player.balance ∧
    (applyEvents s es).player.balance ≤ s.player.balance + sumPosContrib es := by
  induction es generalizing s with
  | nil => exact ⟨hb, by simp [applyEvents, sumPosContrib]⟩
  | cons e rest ih =>
    have h1 : 0 ≤ (applyEvent s e).player.balance :=
      applyEvent_balance_nonneg s e hb (hok e (by simp))
    have h2 := applyEvent_balance_le s e hb
    have hok2 : ∀ e2 ∈ rest, e2.effect = .moneyGain → 0 ≤ e2.amount :=
      fun e2 he2 => hok e2 (by simp [he2])
    obtain ⟨ih1, ih2⟩ := ih (applyEvent s e) h1 hok2
    have hstep : applyEvents s (e :: rest) = applyEvents (applyEvent s e) rest := rfl
    rw [hstep]
    refine ⟨ih1, ?_⟩
    have hsum : sumPosContrib (e :: rest) = posContrib e + sumPosContrib rest := by
      simp [sumPosContrib]
    rw [hsum]
    linarith

theorem applyEvent_inv_le (s : GameState) (e : GEvent)
    (hq : e.effect = .seize → e.quantity = 0 ∨ 1 ≤ e.quantity) (g : Good) :
    ((applyEvent s e).player.inventory g).getD 0 ≤ (s.player.inventory g).getD 0 := by
  unfold applyEvent
  split <;> try exact le_refl _
  case _ => split <;> exact le_refl _
  case _ => split <;> exact le_refl _
  case _ =>
    split
    · split <;> exact le_refl _
    · exact le_refl _
  case _ =>
    obtain ⟨mk, hmk⟩ := popFirstRestriction_shape s marketsList
    rw [hmk]
  case _ heff =>
    split
    · rename_i g0 hgood
      dsimp only
      split_ifs with h1 h2 h3
      · -- full seizure: the entry is deleted
        dsimp only
        by_cases hg : g = g0
        · subst hg; rw [if_pos rfl]; simp only [Option.getD_none]; linarith
        · simp [hg]
      · -- partial seizure
        dsimp only
        by_cases hg : g = g0
        · subst hg
          have hq2 : 1 ≤ e.quantity := by
            rcases hq heff with h | h
            · exact absurd h h1
            · exact h
          have hmin : 0 ≤ min e.quantity ((s.player.inventory g).getD 0) :=
            le_min (by linarith) (le_of_lt h2)
          rw [if_pos rfl]
          simp only [Option.getD_some]
          linarith
        · simp [hg]
      · exact le_refl _
      · exact le_refl _
    · exact le_refl _

theorem applyEvents_inv_le (s : GameState) (es : List GEvent)
    (hq : ∀ e ∈ es, e.effect = .seize → e.quantity = 0 ∨ 1 ≤ e.quantity) (g : Good) :
    ((applyEvents s es).player.inventory g).getD 0 ≤ (s.player.inventory g).getD 0 := by
  induction es generalizing s with
  | nil => exact le_refl _
  | cons e rest ih =>
    have h1 := applyEvent_inv_le s e (hq e (by simp))
    have h2 := ih (applyEvent s e) (fun e2 he2 => hq e2 (by simp [he2]))
    exact le_trans h2 (h1 g)

theorem applyEvent_invpos (s : GameState) (e : GEvent)
    (h : InvPos s.player.inventory) : InvPos (applyEvent s e).player.inventory := by
  unfold applyEvent
  split <;> try exact h
  case _ => split <;> exact h
  case _ => split <;> exact h
  case _ =>
    split
    · split <;> exact h
    · exact h
  case _ =>
    obtain ⟨mk, hmk⟩ := popFirstRestriction_shape s marketsList
    rw [hmk]; exact h
  case _ =>
    split
    · rename_i g0 hgood
      dsimp only
      split_ifs with h1 h2 h3
      · intro g n
        dsimp only
        split_ifs with hg
        · intro hc; exact absurd hc (by simp)
        · exact h g n
      · intro g n
        dsimp only
        split_ifs with hg
        · intro hc
          have hle : min e.quantity ((s.player.inventory g0).getD 0) ≤
              (s.player.inventory g0).getD 0 := min_le_right _ _
          have : n = (s.player.inventory g0).getD 0 -
              min e.quantity ((s.player.inventory g0).getD 0) := by
            injection hc with hc2; omega
          omega
        · exact h g n
      · exact h
      · exact h
    · exact h

theorem applyEvents_invpos (s : GameState) (es : List GEvent)
    (h : InvPos s.player.inventory) :
    InvPos (applyEvents s es).player.inventory := by
  induction es generalizing s with
  | nil => exact h
  | cons e rest ih => exact ih (applyEvent s e) (applyEvent_invpos s e h)

theorem applyEvent_inv_empty (s : GameState) (e : GEvent)
    (h : ∀ g, s.player.inventory g = none) (g : Good) :
    (applyEvent s e).player.inventory g = none := by
  unfold applyEvent
  split <;> try exact h g
  case _ => split <;> exact h g
  case _ => split <;> exact h g
  case _ =>
    split
    · split <;> exact h g
    · exact h g
  case _ =>
    obtain ⟨mk, hmk⟩ := popFirstRestriction_shape s marketsList
    rw [hmk]; exact h g
  case _ =>
    split
    · rename_i g0 hgood
      dsimp only
      split_ifs with h1 h2 h3
      · exact absurd h2 (by simp [h g0])
      · exact absurd h2 (by simp [h g0])
      · exact h g
      · exact h g
    · exact h g

theorem applyEvents_inv_empty (s : GameState) (es : List GEvent)
    (h : ∀ g, s.player.inventory g = none) (g : Good) :
    (applyEvents s es).player.inventory g = none := by
  induction es generalizing s with
  | nil => exact h g
  | cons e rest ih => exact ih (applyEvent s e) (applyEvent_inv_empty s e h)

-- ── Properties of rolled events ─────────────────────────────────────────────

/-- The shape facts every event materialized by `rollForEvents` satisfies. -/
def RolledOK (e : GEvent) : Prop :=
  (e.effect = .moneyGain → 0 ≤ e.amount) ∧
  (e.effect = .seize → e.quantity = 0 ∨ 1 ≤ e.quantity)

theorem windfallAmount_nonneg (x : ℚ) (hx : 0 ≤ x) :
    (0 : ℚ) ≤ ((⌊x * 30000⌋ : ℤ) : ℚ) + 10000 := by
  have hf : (0 : ℤ) ≤ ⌊x * 30000⌋ := Int.le_floor.mpr (by push_cast; positivity)
  have hc : (0 : ℚ) ≤ ((⌊x * 30000⌋ : ℤ) : ℚ) := by exact_mod_cast hf
  linarith

theorem rollEntry_ok (s : GameState) (trav : Bool) (dest : Option MarketId)
    (entry : EventEntry) (r : ℕ → ℚ) (k : ℕ) (hr : Rand01 r) :
    ∀ e ∈ (rollEntry s trav dest entry r k).1, RolledOK e := by
  intro e he
  unfold rollEntry at he
  split at he <;> try dsimp only at he
  all_goals repeat' (first | (split at he) | (dsimp only at he))
  all_goals try (simp only [List.mem_nil_iff] at he)
  all_goals
    (simp only [List.mem_singleton] at he
     subst he
     refine ⟨fun hh => ?_, fun hh => ?_⟩ <;> (try dsimp only at hh ⊢) <;>
       first
         | exact Effect.noConfusion hh
         | exact Or.inl rfl
         | exact Or.inr (le_max_left 1 _)
         | exact le_refl 0
         | (show (0 : ℚ) ≤ ((⌊r (k + 2) * 30000⌋ : ℤ) : ℚ) + 10000
            exact windfallAmount_nonneg (r (k + 2)) ((hr (k + 2)).1)))

theorem rollEventsGo_ok (s : GameState) (trav : Bool) (dest : Option MarketId)
    (r : ℕ → ℚ) (hr : Rand01 r) (l : List EventEntry) (k : ℕ) :
    ∀ e ∈ (rollEventsGo s trav dest r l k).1, RolledOK e := by
  induction l generalizing k with
  | nil => intro e he; simp [rollEventsGo] at he
  | cons entry rest ih =>
    intro e he
    simp only [rollEventsGo, List.mem_append] at he
    rcases he with he | he
    · exact rollEntry_ok s trav dest entry r k hr e he
    · exact ih _ e he

theorem rollForEvents_ok (s : GameState) (trav : Bool) (dest : Option MarketId)
    (r : ℕ → ℚ) (k : ℕ) (hr : Rand01 r) :
    ∀ e ∈ (rollForEvents s trav dest r k).1, RolledOK e :=
  rollEventsGo_ok s trav dest r hr eventEntries k

theorem randomChoice_mem {α : Type} [Inhabited α] (l : List α) (x : ℚ)
    (h : l ≠ []) : randomChoice l x ∈ l := by
  unfold randomChoice
  rcases hl : l with _ | ⟨a, rest⟩
  · exact absurd hl h
  · rw [List.getD_eq_getElem?_getD]
    rcases h2 : (a :: rest)[Int.toNat ⌊x * (a :: rest).length⌋]? with _ | b
    · simp [List.headD]
    · simp only [Option.getD_some]
      exact List.getElem?_mem h2

theorem sumPosContrib_append (a b : List GEvent) :
    sumPosContrib (a ++ b) = sumPosContrib a + sumPosContrib b := by
  simp [sumPosContrib]

/-- Per-entry bound on the positive balance contribution of a non-travel event
roll: only the audit (through a negative fine on a negative net worth) and the
windfall can raise the balance, by less than `1 - netWorth * 0.07` and
`39999` respectively. -/
theorem rollEntry_posContrib_bound (s : GameState) (dest : Option MarketId)
    (entry : EventEntry) (r : ℕ → ℚ) (k : ℕ) (hr : Rand01 r)
    (hb : 0 ≤ s.player.balance) (hmem : entry ∈ eventEntries) :
    sumPosContrib (rollEntry s false dest entry r k).1
      ≤ (match entry.category with
         | .audit => max 0 (1 - calculateNetWorth s * 0.07)
         | .windfall => 39999
         | _ => 0) := by
  have hackContrib : ∀ j : ℕ,
      max 0 (-((⌊s.player.balance * (r j * 0.15 + 0.05)⌋ : ℤ) : ℚ)) ≤ 0 := by
    intro j
    have hrn := (hr j).1
    have hf : (0 : ℤ) ≤ ⌊s.player.balance * (r j * 0.15 + 0.05)⌋ := by
      refine Int.le_floor.mpr ?_
      push_cast
      have h05 : (0:ℚ) ≤ r j * 0.15 + 0.05 := by linarith
      positivity
    have hfq : (0:ℚ) ≤ ((⌊s.player.balance * (r j * 0.15 + 0.05)⌋ : ℤ) : ℚ) := by
      exact_mod_cast hf
    exact max_le (le_refl 0) (by linarith)
  have auditContrib : ∀ j : ℕ,
      max 0 (-((⌊calculateNetWorth s * (r j * 0.05 + 0.02)⌋ : ℤ) : ℚ))
        ≤ max 0 (1 - calculateNetWorth s * 0.07) := by
    intro j
    have hrn0 := (hr j).1
    have hrn1 := (hr j).2
    have hle : (0 : ℚ) ≤ max 0 (1 - calculateNetWorth s * 0.07) := le_max_left _ _
    rcases le_or_lt 0 (calculateNetWorth s) with hnw | hnw
    · have hf : (0 : ℤ) ≤ ⌊calculateNetWorth s * (r j * 0.05 + 0.02)⌋ := by
        refine Int.le_floor.mpr ?_
        push_cast
        have h02 : (0:ℚ) ≤ r j * 0.05 + 0.02 := by linarith
        positivity
      have hfq : (0:ℚ) ≤ ((⌊calculateNetWorth s * (r j * 0.05 + 0.02)⌋ : ℤ) : ℚ) := by
        exact_mod_cast hf
      exact max_le hle (by linarith)
    · have hx : calculateNetWorth s * 0.07
          ≤ calculateNetWorth s * (r j * 0.05 + 0.02) := by
        have hcf : r j * 0.05 + 0.02 ≤ 0.07 := by linarith
        nlinarith
      have hfl := Int.sub_one_lt_floor (calculateNetWorth s * (r j * 0.05 + 0.02))
      have hq : (calculateNetWorth s * (r j * 0.05 + 0.02)) - 1
          < ((⌊calculateNetWorth s * (r j * 0.05 + 0.02)⌋ : ℤ) : ℚ) := by
        exact_mod_cast hfl
      refine max_le hle (le_trans ?_ (le_max_right 0 _))
      linarith
  have windContrib : ∀ j : ℕ,
      max 0 (((⌊r j * 30000⌋ : ℤ) : ℚ) + 10000) ≤ (39999 : ℚ) := by
    intro j
    have hrn1 := (hr j).2
    have hf : ⌊r j * 30000⌋ < 30000 := by
      refine Int.floor_lt.mpr ?_
      push_cast
      linarith
    have hc : ((⌊r j * 30000⌋ : ℤ) : ℚ) ≤ 29999 := by
      have h29 : ⌊r j * 30000⌋ ≤ 29999 := by omega
      exact_mod_cast h29
    refine max_le (by norm_num) (by linarith)
  fin_cases hmem
  -- nvidia_announcement (marketShift)
  · unfold rollEntry
    dsimp only
    split_ifs
    · have ht := randomChoice_mem
        [(⟨some .drop, none⟩ : EventTemplate), ⟨some .rise, none⟩, ⟨some .riseAll, none⟩]
        (r (k+1)) (by simp)
      simp only [List.mem_cons, List.not_mem_nil, or_false] at ht
      rcases ht with h | h | h <;> rw [h] <;> simp [sumPosContrib, posContrib]
    · simp [sumPosContrib]
  -- datacenter_news (marketShift)
  · unfold rollEntry
    dsimp only
    split_ifs
    · have ht := randomChoice_mem
        [(⟨some .computeRise, none⟩ : EventTemplate), ⟨some .computeSpike, none⟩,
          ⟨some .computeVolatile, none⟩] (r (k+1)) (by simp)
      simp only [List.mem_cons, List.not_mem_nil, or_false] at ht
      rcases ht with h | h | h <;> rw [h] <;> simp [sumPosContrib, posContrib]
    · simp [sumPosContrib]
  -- ai_breakthrough (marketShift)
  · unfold rollEntry
    dsimp only
    split_ifs
    · have ht := randomChoice_mem
        [(⟨some .talentRise, none⟩ : EventTemplate), ⟨some .computeDrop, none⟩,
          ⟨some .datasetsDrop, none⟩] (r (k+1)) (by simp)
      simp only [List.mem_cons, List.not_mem_nil, or_false] at ht
      rcases ht with h | h | h <;> rw [h] <;> simp [sumPosContrib, posContrib]
    · simp [sumPosContrib]
  -- export_ban (regulation)
  · unfold rollEntry
    dsimp only
    split_ifs
    · have ht := randomChoice_mem
        [(⟨none, some .chinaEast⟩ : EventTemplate), ⟨none, some .euCentral⟩,
          ⟨some .unrestrict, none⟩] (r (k+1)) (by simp)
      simp only [List.mem_cons, List.not_mem_nil, or_false] at ht
      rcases ht with h | h | h <;> rw [h] <;> simp [sumPosContrib, posContrib]
    · simp [sumPosContrib]
  -- customs_seizure (customs, not traveling)
  · unfold rollEntry
    dsimp only
    simp [sumPosContrib]
  -- exchange_hack (hack)
  · unfold rollEntry
    dsimp only
    split_ifs
    all_goals
      first
        | (simp only [sumPosContrib, List.map_nil, List.sum_nil]; exact le_refl 0)
        | (simp only [sumPosContrib, List.map_cons, List.map_nil,
             List.sum_cons, List.sum_nil, add_zero]
           unfold posContrib
           dsimp only
           exact hackContrib _)
  -- tax_audit (audit)
  · unfold rollEntry
    dsimp only
    split_ifs
    all_goals
      first
        | (simp only [sumPosContrib, List.map_nil, List.sum_nil]
           exact le_max_left _ _)
        | (simp only [sumPosContrib, List.map_cons, List.map_nil,
             List.sum_cons, List.sum_nil, add_zero]
           unfold posContrib
           dsimp only
           exact auditContrib _)
  -- bulk_buyer (opportunity)
  · unfold rollEntry
    dsimp only
    split_ifs
    · have ht := randomChoice_mem
        [(⟨some .premiumSell, none⟩ : EventTemplate), ⟨some .discountBuy, none⟩]
        (r (k+1)) (by simp)
      simp only [List.mem_cons, List.not_mem_nil, or_false] at ht
      rcases ht with h | h <;> rw [h] <;> simp [sumPosContrib, posContrib]
    · simp [sumPosContrib]
  -- windfall
  · unfold rollEntry
    dsimp only
    split_ifs
    · simp only [sumPosContrib, List.map_cons, List.map_nil,
        List.sum_cons, List.sum_nil, add_zero]
      unfold posContrib
      dsimp only
      exact windContrib _
    · simp only [sumPosContrib, List.map_nil, List.sum_nil]
      norm_num

/-- Summed bound over a list of entries, threading the draw counter. -/
theorem rollEventsGo_posContrib_le (s : GameState) (trav : Bool)
    (dest : Option MarketId) (r : ℕ → ℚ) (B : EventEntry → ℚ)
    (l : List EventEntry)
    (h : ∀ entry ∈ l, ∀ k2, sumPosContrib (rollEntry s trav dest entry r k2).1
      ≤ B entry) :
    ∀ k, sumPosContrib (rollEventsGo s trav dest r l k).1 ≤ (l.map B).sum := by
  induction l with
  | nil => intro k; simp [rollEventsGo, sumPosContrib]
  | cons e rest ih =>
    intro k
    have h1 := h e (by simp) k
    have h2 := ih (fun entry he k2 => h entry (by simp [he]) k2)
      ((rollEntry s trav dest e r k).2)
    simp only [rollEventsGo, List.map_cons, List.sum_cons]
    rw [sumPosContrib_append]
    linarith

/-- No category of `rollForEvents` ever sets the `turn` field of the events it
materializes. -/
theorem rollEntry_turn_none (s : GameState) (trav : Bool) (dest : Option MarketId)
    (entry : EventEntry) (r : ℕ → ℚ) (k : ℕ) :
    ∀ e ∈ (rollEntry s trav dest entry r k).1, e.turn = none := by
  intro e he
  unfold rollEntry at he
  split at he <;> try dsimp only at he
  all_goals repeat' (first | (split at he) | (dsimp only at he))
  all_goals try (simp only [List.mem_nil_iff] at he)
  all_goals
    (simp only [List.mem_singleton] at he
     subst he
     rfl)

theorem rollEventsGo_turn_none (s : GameState) (trav : Bool) (dest : Option MarketId)
    (r : ℕ → ℚ) (l : List EventEntry) (k : ℕ) :
    ∀ e ∈ (rollEventsGo s trav dest r l k).1, e.turn = none := by
  induction l generalizing k with
  | nil => intro e he; simp [rollEventsGo] at he
  | cons entry rest ih =>
    intro e he
    simp only [rollEventsGo, List.mem_append] at he
    rcases he with he | he
    · exact rollEntry_turn_none s trav dest entry r k e he
    · exact ih _ e he

-- ── Frame lemmas for the turn pipeline ──────────────────────────────────────

theorem updatePrices_frame (s : GameState) (r : ℕ → ℚ) (k : ℕ) :
    (updatePrices s r k).1.player = s.player ∧
    (updatePrices s r k).1.turn = s.turn ∧
    (updatePrices s r k).1.pendingEvents = s.pendingEvents ∧
    (updatePrices s r k).1.pendingChoice = s.pendingChoice ∧
    (updatePrices s r k).1.pendingDestination = s.pendingDestination ∧
    (updatePrices s r k).1.gameOver = s.gameOver ∧
    (updatePrices s r k).1.gameOverReason = s.gameOverReason ∧
    (updatePrices s r k).1.stats = s.stats ∧
    (updatePrices s r k).1.smuggledThisTrip = s.smuggledThisTrip :=
  ⟨rfl, rfl, rfl, rfl, rfl, rfl, rfl, rfl, rfl⟩

theorem checkGameOver_shape (s : GameState) :
    ∃ go gor, checkGameOver s =
      { s with gameOver := go, gameOverReason := gor } := by
  simp only [checkGameOver]
  split_ifs <;> exact ⟨_, _, rfl⟩

theorem checkMilestonesGo_shape (nw : ℚ) (l : List MilestoneId) (s : GameState) :
    ∃ ma mt uu rep, (checkMilestonesGo nw l s).1 =
      { s with milestoneAchieved := ma, milestoneAchievedOnTurn := mt,
               unlockedUpgrades := uu,
               player := { s.player with reputation := rep } } := by
  induction l generalizing s with
  | nil =>
    exact ⟨s.milestoneAchieved, s.milestoneAchievedOnTurn, s.unlockedUpgrades,
      s.player.reputation, rfl⟩
  | cons id rest ih =>
    unfold checkMilestonesGo
    split
    · dsimp only
      repeat' split
      all_goals (obtain ⟨ma, mt, uu, rep, h⟩ := ih _; rw [h]; exact ⟨_, _, _, _, rfl⟩)
    · exact ih s

theorem checkMilestones_shape (s : GameState) :
    ∃ ma mt uu rep pk, (checkMilestones s).1 =
      { s with milestoneAchieved := ma, milestoneAchievedOnTurn := mt,
               unlockedUpgrades := uu,
               player := { s.player with reputation := rep },
               stats := { s.stats with peakNetWorth := pk } } := by
  unfold checkMilestones
  dsimp only
  split_ifs with h
  · obtain ⟨ma, mt, uu, rep, hh⟩ := checkMilestonesGo_shape
      (calculateNetWorth s) milestonesList
      { s with stats := { s.stats with peakNetWorth := calculateNetWorth s } }
    rw [hh]; exact ⟨_, _, _, _, _, rfl⟩
  · obtain ⟨ma, mt, uu, rep, hh⟩ :=
      checkMilestonesGo_shape (calculateNetWorth s) milestonesList s
    rw [hh]; exact ⟨ma, mt, uu, rep, s.stats.peakNetWorth, rfl⟩

theorem seizeStep_shape (s : GameState) (ins : Bool) (g : Good) (risk : ℚ)
    (r : ℕ → ℚ) (k : ℕ) :
    ∃ inv cb, (seizeStep s ins g risk r k).1.1 =
      { s with player := { s.player with inventory := inv, costBasis := cb } } := by
  unfold seizeStep
  dsimp only
  split_ifs <;> exact ⟨_, _, rfl⟩

theorem checkSeizureRiskGo_shape (ins : Bool) (r : ℕ → ℚ) (l : List (Good × ℚ))
    (s : GameState) (k : ℕ) :
    ∃ inv cb, (checkSeizureRiskGo ins r l s k).1.1 =
      { s with player := { s.player with inventory := inv, costBasis := cb } } := by
  induction l generalizing s k with
  | nil => exact ⟨s.player.inventory, s.player.costBasis, rfl⟩
  | cons gr rest ih =>
    unfold checkSeizureRiskGo
    obtain ⟨i1, c1, h1⟩ := seizeStep_shape s ins gr.1 gr.2 r k
    obtain ⟨i2, c2, h2⟩ := ih (seizeStep s ins gr.1 gr.2 r k).1.1
      (seizeStep s ins gr.1 gr.2 r k).2
    dsimp only
    rw [h2, h1]
    exact ⟨_, _, rfl⟩

theorem checkSeizureRisk_shape (s : GameState) (destination : MarketId)
    (r : ℕ → ℚ) (k : ℕ) :
    ∃ inv cb sm, (checkSeizureRisk s destination r k).1.1 =
      { s with player := { s.player with inventory := inv, costBasis := cb },
               smuggledThisTrip := sm } := by
  unfold checkSeizureRisk
  split_ifs
  · exact ⟨s.player.inventory, s.player.costBasis, false, rfl⟩
  · obtain ⟨inv, cb, h⟩ := checkSeizureRiskGo_shape
      (s.purchasedUpgrades.contains .insurance) r (restrictedEntries destination) s k
    rw [h]
    exact ⟨inv, cb, s.smuggledThisTrip, rfl⟩

theorem seizeStep_inv_le (s : GameState) (ins : Bool) (g : Good) (risk : ℚ)
    (r : ℕ → ℚ) (k : ℕ) (g2 : Good) :
    (((seizeStep s ins g risk r k).1.1).player.inventory g2).getD 0 ≤
      (s.player.inventory g2).getD 0 := by
  unfold seizeStep
  dsimp only
  split_ifs <;> (try dsimp only at *) <;> try exact le_refl _
  all_goals (
    try dsimp only
    by_cases hg : g2 = g
    · subst hg
      rw [if_pos rfl]
      first
        | (simp only [Option.getD_none]; omega)
        | (simp only [Option.getD_some]; omega)
    · rw [if_neg hg])

theorem checkSeizureRiskGo_inv_le (ins : Bool) (r : ℕ → ℚ) (l : List (Good × ℚ))
    (s : GameState) (k : ℕ) (g2 : Good) :
    (((checkSeizureRiskGo ins r l s k).1.1).player.inventory g2).getD 0 ≤
      (s.player.inventory g2).getD 0 := by
  induction l generalizing s k with
  | nil => exact le_refl _
  | cons gr rest ih =>
    unfold checkSeizureRiskGo
    dsimp only
    exact le_trans (ih _ _) (seizeStep_inv_le s ins gr.1 gr.2 r k g2)

theorem checkSeizureRisk_inv_le (s : GameState) (destination : MarketId)
    (r : ℕ → ℚ) (k : ℕ) (g2 : Good) :
    (((checkSeizureRisk s destination r k).1.1).player.inventory g2).getD 0 ≤
      (s.player.inventory g2).getD 0 := by
  unfold checkSeizureRisk
  split_ifs
  · exact le_refl _
  · exact checkSeizureRiskGo_inv_le _ r _ s k g2

theorem seizeStep_invpos (s : GameState) (ins : Bool) (g : Good) (risk : ℚ)
    (r : ℕ → ℚ) (k : ℕ) (h : InvPos s.player.inventory) :
    InvPos ((seizeStep s ins g risk r k).1.1).player.inventory := by
  unfold seizeStep
  dsimp only
  split_ifs <;> (try dsimp only at *) <;> try exact h
  all_goals (
    intro g2 n
    try dsimp only
    by_cases hg : g2 = g
    · subst hg
      rw [if_pos rfl]
      first
        | (intro hc; exact Option.noConfusion hc)
        | (intro hc; injection hc with hc2; omega)
    · rw [if_neg hg]; exact h g2 n)

theorem checkSeizureRiskGo_invpos (ins : Bool) (r : ℕ → ℚ) (l : List (Good × ℚ))
    (s : GameState) (k : ℕ) (h : InvPos s.player.inventory) :
    InvPos ((checkSeizureRiskGo ins r l s k).1.1).player.inventory := by
  induction l generalizing s k with
  | nil => exact h
  | cons gr rest ih =>
    unfold checkSeizureRiskGo
    dsimp only
    exact ih _ _ (seizeStep_invpos s ins gr.1 gr.2 r k h)

theorem checkSeizureRisk_invpos (s : GameState) (destination : MarketId)
    (r : ℕ → ℚ) (k : ℕ) (h : InvPos s.player.inventory) :
    InvPos ((checkSeizureRisk s destination r k).1.1).player.inventory := by
  unfold checkSeizureRisk
  split_ifs
  · exact h
  · exact checkSeizureRiskGo_invpos _ r _ s k h

-- ── applyInterest / applyOracle / advanceTurn ───────────────────────────────

theorem updatePrices_player (s : GameState) (r : ℕ → ℚ) (k : ℕ) :
    (updatePrices s r k).1.player = s.player := rfl

theorem updatePrices_turn (s : GameState) (r : ℕ → ℚ) (k : ℕ) :
    (updatePrices s r k).1.turn = s.turn := rfl

theorem checkGameOver_player (s : GameState) : (checkGameOver s).player = s.player := by
  obtain ⟨go, gor, h⟩ := checkGameOver_shape s
  rw [h]

theorem checkGameOver_turn (s : GameState) : (checkGameOver s).turn = s.turn := by
  obtain ⟨go, gor, h⟩ := checkGameOver_shape s
  rw [h]

theorem applyOracle_player (s : GameState) (o : Option OraclePrediction) :
    (applyOracle s o).player = s.player := by
  unfold applyOracle
  split <;> rfl

theorem applyOracle_turn (s : GameState) (o : Option OraclePrediction) :
    (applyOracle s o).turn = s.turn := by
  unfold applyOracle
  split <;> rfl

theorem applyInterest_shape (s : GameState) :
    ∃ d rate, applyInterest s =
      { s with player := { s.player with debt := d, debtInterestRate := rate } } := by
  unfold applyInterest
  split_ifs
  · exact ⟨_, _, rfl⟩
  · exact ⟨s.player.debt, s.player.debtInterestRate, rfl⟩

theorem applyInterest_balance (s : GameState) :
    (applyInterest s).player.balance = s.player.balance := by
  obtain ⟨d, rate, h⟩ := applyInterest_shape s
  rw [h]

theorem getDebtInterestRate_pos (s : GameState) : 0 < getDebtInterestRate s := by
  unfold getDebtInterestRate
  dsimp only
  split_ifs <;> norm_num [debtHighInterestRate, debtMediumInterestRate,
    debtBaseInterestRate]

theorem applyInterest_debt_nonneg (s : GameState) (h : 0 ≤ s.player.debt) :
    0 ≤ (applyInterest s).player.debt := by
  unfold applyInterest
  split_ifs with hd
  · dsimp only
    have hrate := getDebtInterestRate_pos s
    have hj : (0 : ℤ) ≤ jround (s.player.debt * getDebtInterestRate s) :=
      jround_nonneg _ (by positivity)
    have hj2 : (0 : ℚ) ≤ ((jround (s.player.debt * getDebtInterestRate s) : ℤ) : ℚ) := by
      exact_mod_cast hj
    linarith
  · exact h

theorem advanceTurn_turn (s : GameState) (r : ℕ → ℚ) (k : ℕ) :
    (advanceTurn s r k).1.turn = s.turn + 1 := by
  unfold advanceTurn
  dsimp only
  rw [checkGameOver_turn, applyOracle_turn, updatePrices_turn, applyEvents_turn]
  obtain ⟨d, rate, h⟩ := applyInterest_shape s
  rw [h]

theorem applyEvents_player_shape (s : GameState) (es : List GEvent) :
    ∃ b inv cb, (applyEvents s es).player =
      { s.player with balance := b, inventory := inv, costBasis := cb } := by
  obtain ⟨b, i, c, m, p, h⟩ := applyEvents_shape s es
  exact ⟨b, i, c, by rw [h]⟩

theorem applyOracle_shape (s : GameState) (o : Option OraclePrediction) :
    ∃ op, applyOracle s o = { s with oraclePrediction := op } := by
  unfold applyOracle
  split
  · exact ⟨_, rfl⟩
  · exact ⟨s.oraclePrediction, rfl⟩

theorem applyOracle_pendingChoice (s : GameState) (o : Option OraclePrediction) :
    (applyOracle s o).pendingChoice = s.pendingChoice := by
  obtain ⟨op, h⟩ := applyOracle_shape s o; rw [h]

theorem applyOracle_pendingDestination (s : GameState) (o : Option OraclePrediction) :
    (applyOracle s o).pendingDestination = s.pendingDestination := by
  obtain ⟨op, h⟩ := applyOracle_shape s o; rw [h]

theorem applyOracle_pendingEvents (s : GameState) (o : Option OraclePrediction) :
    (applyOracle s o).pendingEvents = s.pendingEvents := by
  obtain ⟨op, h⟩ := applyOracle_shape s o; rw [h]

theorem checkGameOver_pendingChoice (s : GameState) :
    (checkGameOver s).pendingChoice = s.pendingChoice := by
  obtain ⟨go, gor, h⟩ := checkGameOver_shape s; rw [h]

theorem checkGameOver_pendingDestination (s : GameState) :
    (checkGameOver s).pendingDestination = s.pendingDestination := by
  obtain ⟨go, gor, h⟩ := checkGameOver_shape s; rw [h]

theorem checkGameOver_pendingEvents (s : GameState) :
    (checkGameOver s).pendingEvents = s.pendingEvents := by
  obtain ⟨go, gor, h⟩ := checkGameOver_shape s; rw [h]

theorem updatePrices_pendingChoice (s : GameState) (r : ℕ → ℚ) (k : ℕ) :
    (updatePrices s r k).1.pendingChoice = s.pendingChoice := rfl

theorem updatePrices_pendingDestination (s : GameState) (r : ℕ → ℚ) (k : ℕ) :
    (updatePrices s r k).1.pendingDestination = s.pendingDestination := rfl

theorem updatePrices_pendingEvents (s : GameState) (r : ℕ → ℚ) (k : ℕ) :
    (updatePrices s r k).1.pendingEvents = s.pendingEvents := rfl

theorem applyEvents_location (s : GameState) (es : List GEvent) :
    (applyEvents s es).player.location = s.player.location := by
  obtain ⟨b, i, c, m, p, h⟩ := applyEvents_shape s es; rw [h]

theorem applyEvents_capacity (s : GameState) (es : List GEvent) :
    (applyEvents s es).player.inventoryCapacity = s.player.inventoryCapacity := by
  obtain ⟨b, i, c, m, p, h⟩ := applyEvents_shape s es; rw [h]

theorem applyEvents_reputation (s : GameState) (es : List GEvent) :
    (applyEvents s es).player.reputation = s.player.reputation := by
  obtain ⟨b, i, c, m, p, h⟩ := applyEvents_shape s es; rw [h]

theorem applyEvents_pendingChoice (s : GameState) (es : List GEvent) :
    (applyEvents s es).pendingChoice = s.pendingChoice := by
  obtain ⟨b, i, c, m, p, h⟩ := applyEvents_shape s es; rw [h]

theorem applyEvents_pendingDestination (s : GameState) (es : List GEvent) :
    (applyEvents s es).pendingDestination = s.pendingDestination := by
  obtain ⟨b, i, c, m, p, h⟩ := applyEvents_shape s es; rw [h]

theorem applyEvents_gameOver (s : GameState) (es : List GEvent) :
    (applyEvents s es).gameOver = s.gameOver := by
  obtain ⟨b, i, c, m, p, h⟩ := applyEvents_shape s es; rw [h]

theorem applyInterest_location (s : GameState) :
    (applyInterest s).player.location = s.player.location := by
  obtain ⟨d, rate, h⟩ := applyInterest_shape s; rw [h]

theorem applyInterest_capacity (s : GameState) :
    (applyInterest s).player.inventoryCapacity = s.player.inventoryCapacity := by
  obtain ⟨d, rate, h⟩ := applyInterest_shape s; rw [h]

theorem applyInterest_reputation (s : GameState) :
    (applyInterest s).player.reputation = s.player.reputation := by
  obtain ⟨d, rate, h⟩ := applyInterest_shape s; rw [h]

theorem applyInterest_inventory (s : GameState) :
    (applyInterest s).player.inventory = s.player.inventory := by
  obtain ⟨d, rate, h⟩ := applyInterest_shape s; rw [h]

theorem applyInterest_costBasis (s : GameState) :
    (applyInterest s).player.costBasis = s.player.costBasis := by
  obtain ⟨d, rate, h⟩ := applyInterest_shape s; rw [h]

theorem applyInterest_pendingChoice (s : GameState) :
    (applyInterest s).pendingChoice = s.pendingChoice := by
  obtain ⟨d, rate, h⟩ := applyInterest_shape s; rw [h]

theorem applyInterest_pendingDestination (s : GameState) :
    (applyInterest s).pendingDestination = s.pendingDestination := by
  obtain ⟨d, rate, h⟩ := applyInterest_shape s; rw [h]

theorem applyInterest_pendingEvents (s : GameState) :
    (applyInterest s).pendingEvents = s.pendingEvents := by
  obtain ⟨d, rate, h⟩ := applyInterest_shape s; rw [h]

/-- The turn-advancing block leaves the location, the capacity, the
reputation and the choice bookkeeping untouched. -/
theorem advanceTurn_frame (s : GameState) (r : ℕ → ℚ) (k : ℕ) :
    (advanceTurn s r k).1.player.location = s.player.location ∧
    (advanceTurn s r k).1.player.inventoryCapacity = s.player.inventoryCapacity ∧
    (advanceTurn s r k).1.player.reputation = s.player.reputation ∧
    (advanceTurn s r k).1.pendingChoice = s.pendingChoice ∧
    (advanceTurn s r k).1.pendingDestination = s.pendingDestination := by
  unfold advanceTurn
  dsimp only
  refine ⟨?_, ?_, ?_, ?_, ?_⟩ <;>
    simp only [checkGameOver_player, checkGameOver_pendingChoice,
      checkGameOver_pendingDestination, applyOracle_player,
      applyOracle_pendingChoice, applyOracle_pendingDestination,
      updatePrices_player, updatePrices_pendingChoice,
      updatePrices_pendingDestination, applyEvents_location,
      applyEvents_capacity, applyEvents_reputation, applyEvents_pendingChoice,
      applyEvents_pendingDestination, applyInterest_location,
      applyInterest_capacity, applyInterest_reputation,
      applyInterest_pendingChoice, applyInterest_pendingDestination]

theorem advanceTurn_balance_nonneg (s : GameState) (r : ℕ → ℚ) (k : ℕ)
    (hr : Rand01 r) (hb : 0 ≤ s.player.balance) :
    0 ≤ (advanceTurn s r k).1.player.balance := by
  unfold advanceTurn
  dsimp only
  simp only [checkGameOver_player, applyOracle_player, updatePrices_player]
  refine (applyEvents_balance _ _ ?_ ?_).1
  · rw [applyInterest_balance]; exact hb
  · intro e he heff
    exact ((rollForEvents_ok _ false none r k hr e he).1 heff)

theorem advanceTurn_debt_nonneg (s : GameState) (r : ℕ → ℚ) (k : ℕ)
    (hd : 0 ≤ s.player.debt) :
    0 ≤ (advanceTurn s r k).1.player.debt := by
  unfold advanceTurn
  dsimp only
  simp only [checkGameOver_player, applyOracle_player, updatePrices_player,
    applyEvents_debt]
  exact applyInterest_debt_nonneg s hd

theorem advanceTurn_inv_le (s : GameState) (r : ℕ → ℚ) (k : ℕ) (hr : Rand01 r)
    (g : Good) :
    ((advanceTurn s r k).1.player.inventory g).getD 0 ≤
      (s.player.inventory g).getD 0 := by
  unfold advanceTurn
  dsimp only
  simp only [checkGameOver_player, applyOracle_player, updatePrices_player]
  have h1 := applyEvents_inv_le (applyInterest s)
    (rollForEvents (applyInterest s) false none r k).1
    (fun e he => (rollForEvents_ok _ false none r k hr e he).2) g
  rw [applyInterest_inventory] at h1
  exact h1

theorem advanceTurn_invpos (s : GameState) (r : ℕ → ℚ) (k : ℕ)
    (h : InvPos s.player.inventory) :
    InvPos (advanceTurn s r k).1.player.inventory := by
  unfold advanceTurn
  dsimp only
  simp only [checkGameOver_player, applyOracle_player, updatePrices_player]
  refine applyEvents_invpos _ _ ?_
  rw [applyInterest_inventory]
  exact h

-- ── resolveChoiceEvent lemmas ───────────────────────────────────────────────

theorem InvPos.getD_nonneg (inv : Good → Option ℤ) (h : InvPos inv) (g : Good) :
    0 ≤ (inv g).getD 0 := by
  cases hg : inv g with
  | none => simp
  | some n => simpa using le_of_lt (h g n hg)

theorem resolveChoiceEvent_shape (s : GameState) (cid : String) (r : ℕ → ℚ) (k : ℕ)
    (c : ChoiceEvent) (hpc : s.pendingChoice = some c) :
    ∃ b inv cb pend sm, (resolveChoiceEvent s cid r k).1.1 =
      { s with
        player := { s.player with balance := b, inventory := inv, costBasis := cb },
        pendingEvents := pend, pendingChoice := none, smuggledThisTrip := sm } := by
  unfold resolveChoiceEvent
  rw [hpc]
  dsimp only
  split <;> (repeat' split) <;> exact ⟨_, _, _, _, _, rfl⟩

theorem resolveChoiceEvent_success (s : GameState) (cid : String) (r : ℕ → ℚ)
    (k : ℕ) (c : ChoiceEvent) (hpc : s.pendingChoice = some c) :
    (resolveChoiceEvent s cid r k).1.2 = true := by
  unfold resolveChoiceEvent
  rw [hpc]
  dsimp only
  split <;> (repeat' split) <;> rfl

theorem resolveChoiceEvent_pendingChoice (s : GameState) (cid : String)
    (r : ℕ → ℚ) (k : ℕ) (c : ChoiceEvent) (hpc : s.pendingChoice = some c) :
    ((resolveChoiceEvent s cid r k).1.1).pendingChoice = none := by
  obtain ⟨b, i, cb, p, sm, h⟩ := resolveChoiceEvent_shape s cid r k c hpc
  rw [h]

theorem resolveChoiceEvent_pendingDestination (s : GameState) (cid : String)
    (r : ℕ → ℚ) (k : ℕ) (c : ChoiceEvent) (hpc : s.pendingChoice = some c) :
    ((resolveChoiceEvent s cid r k).1.1).pendingDestination =
      s.pendingDestination := by
  obtain ⟨b, i, cb, p, sm, h⟩ := resolveChoiceEvent_shape s cid r k c hpc
  rw [h]

theorem resolveChoiceEvent_turn (s : GameState) (cid : String) (r : ℕ → ℚ)
    (k : ℕ) (c : ChoiceEvent) (hpc : s.pendingChoice = some c) :
    ((resolveChoiceEvent s cid r k).1.1).turn = s.turn := by
  obtain ⟨b, i, cb, p, sm, h⟩ := resolveChoiceEvent_shape s cid r k c hpc
  rw [h]

theorem resolveChoiceEvent_debt (s : GameState) (cid : String) (r : ℕ → ℚ)
    (k : ℕ) (c : ChoiceEvent) (hpc : s.pendingChoice = some c) :
    ((resolveChoiceEvent s cid r k).1.1).player.debt = s.player.debt := by
  obtain ⟨b, i, cb, p, sm, h⟩ := resolveChoiceEvent_shape s cid r k c hpc
  rw [h]

theorem resolveChoiceEvent_capacity (s : GameState) (cid : String) (r : ℕ → ℚ)
    (k : ℕ) (c : ChoiceEvent) (hpc : s.pendingChoice = some c) :
    ((resolveChoiceEvent s cid r k).1.1).player.inventoryCapacity =
      s.player.inventoryCapacity := by
  obtain ⟨b, i, cb, p, sm, h⟩ := resolveChoiceEvent_shape s cid r k c hpc
  rw [h]

theorem resolveChoiceEvent_balance_nonneg (s : GameState) (cid : String)
    (r : ℕ → ℚ) (k : ℕ) (c : ChoiceEvent) (hpc : s.pendingChoice = some c)
    (hr : Rand01 r) (hb : 0 ≤ s.player.balance) (ham : 0 ≤ c.params.amount)
    (hef : 0 ≤ c.params.entryFee) :
    0 ≤ ((resolveChoiceEvent s cid r k).1.1).player.balance := by
  have hmin1 : (0 : ℚ) ≤ min c.params.entryFee s.player.balance := le_min hef hb
  have hm2 : (0 : ℚ) ≤ 2 + r (k+1) * 3 := by
    have := (hr (k+1)).1; linarith
  have hm3 : (0 : ℚ) ≤ r (k+1) * 0.5 := by
    have := (hr (k+1)).1; linarith
  have hj1 : (0 : ℚ) ≤
      ((jround (min c.params.entryFee s.player.balance * (2 + r (k+1) * 3)) : ℤ) : ℚ) := by
    exact_mod_cast jround_nonneg _ (mul_nonneg hmin1 hm2)
  have hj2 : (0 : ℚ) ≤
      ((jround (min c.params.entryFee s.player.balance * (r (k+1) * 0.5)) : ℤ) : ℚ) := by
    exact_mod_cast jround_nonneg _ (mul_nonneg hmin1 hm3)
  have hminA : min c.params.amount s.player.balance ≤ s.player.balance :=
    min_le_right _ _
  have hminA0 : (0 : ℚ) ≤ min c.params.amount s.player.balance := le_min ham hb
  have hminC : min c.params.cost s.player.balance ≤ s.player.balance :=
    min_le_right _ _
  have hminE : min c.params.entryFee s.player.balance ≤ s.player.balance :=
    min_le_right _ _
  unfold resolveChoiceEvent
  rw [hpc]
  dsimp only
  split <;> split_ifs <;> (try dsimp only) <;> linarith

theorem resolveChoiceEvent_inv_le (s : GameState) (cid : String) (r : ℕ → ℚ)
    (k : ℕ) (c : ChoiceEvent) (hpc : s.pendingChoice = some c)
    (hne : ¬(c.ctype = .shadyDeal ∧ cid = "accept")) (g : Good) :
    (((resolveChoiceEvent s cid r k).1.1).player.inventory g).getD 0 ≤
      (s.player.inventory g).getD 0 := by
  unfold resolveChoiceEvent
  rw [hpc]
  dsimp only
  split
  case _ hty =>
    have hcid : ¬(cid = "accept") := fun h => hne ⟨hty, h⟩
    rw [if_neg hcid]
  case _ hty => split_ifs <;> exact le_refl _
  case _ hty => split_ifs <;> exact le_refl _
  case _ hty =>
    split_ifs <;> try exact le_refl _
    all_goals (
      dsimp only
      split_ifs with hcc
      · simp only [Option.getD_none]
        linarith [hcc.1]
      · exact le_refl _)

theorem resolveChoiceEvent_invpos (s : GameState) (cid : String) (r : ℕ → ℚ)
    (k : ℕ) (c : ChoiceEvent) (hpc : s.pendingChoice = some c)
    (hq : 0 < c.params.quantity) (h : InvPos s.player.inventory) :
    InvPos ((resolveChoiceEvent s cid r k).1.1).player.inventory := by
  have hg0 := InvPos.getD_nonneg s.player.inventory h c.params.goodId
  unfold resolveChoiceEvent
  rw [hpc]
  dsimp only
  split <;> split_ifs <;> (try dsimp only) <;> try exact h
  all_goals intro g n
  all_goals (
    dsimp only
    split_ifs with hcc
    · intro hc
      first
        | exact hc.elim
        | exact Option.noConfusion hc
        | (injection hc with hc2; omega)
    · exact h g n)

-- ── checkMilestones projection lemmas ───────────────────────────────────────

theorem checkMilestones_balance (s : GameState) :
    (checkMilestones s).1.player.balance = s.player.balance := by
  obtain ⟨ma, mt, uu, rep, pk, h⟩ := checkMilestones_shape s; rw [h]

theorem checkMilestones_debt (s : GameState) :
    (checkMilestones s).1.player.debt = s.player.debt := by
  obtain ⟨ma, mt, uu, rep, pk, h⟩ := checkMilestones_shape s; rw [h]

theorem checkMilestones_turn (s : GameState) :
    (checkMilestones s).1.turn = s.turn := by
  obtain ⟨ma, mt, uu, rep, pk, h⟩ := checkMilestones_shape s; rw [h]

theorem checkMilestones_inventory (s : GameState) :
    (checkMilestones s).1.player.inventory = s.player.inventory := by
  obtain ⟨ma, mt, uu, rep, pk, h⟩ := checkMilestones_shape s; rw [h]

theorem checkMilestones_costBasis (s : GameState) :
    (checkMilestones s).1.player.costBasis = s.player.costBasis := by
  obtain ⟨ma, mt, uu, rep, pk, h⟩ := checkMilestones_shape s; rw [h]

theorem checkMilestones_location (s : GameState) :
    (checkMilestones s).1.player.location = s.player.location := by
  obtain ⟨ma, mt, uu, rep, pk, h⟩ := checkMilestones_shape s; rw [h]

theorem checkMilestones_capacity (s : GameState) :
    (checkMilestones s).1.player.inventoryCapacity = s.player.inventoryCapacity := by
  obtain ⟨ma, mt, uu, rep, pk, h⟩ := checkMilestones_shape s; rw [h]

theorem checkMilestones_pendingChoice (s : GameState) :
    (checkMilestones s).1.pendingChoice = s.pendingChoice := by
  obtain ⟨ma, mt, uu, rep, pk, h⟩ := checkMilestones_shape s; rw [h]

theorem checkMilestones_pendingDestination (s : GameState) :
    (checkMilestones s).1.pendingDestination = s.pendingDestination := by
  obtain ⟨ma, mt, uu, rep, pk, h⟩ := checkMilestones_shape s; rw [h]

theorem checkMilestones_pendingEvents (s : GameState) :
    (checkMilestones s).1.pendingEvents = s.pendingEvents := by
  obtain ⟨ma, mt, uu, rep, pk, h⟩ := checkMilestones_shape s; rw [h]

theorem checkMilestones_gameOver (s : GameState) :
    (checkMilestones s).1.gameOver = s.gameOver := by
  obtain ⟨ma, mt, uu, rep, pk, h⟩ := checkMilestones_shape s; rw [h]

theorem checkMilestones_gameOverReason (s : GameState) :
    (checkMilestones s).1.gameOverReason = s.gameOverReason := by
  obtain ⟨ma, mt, uu, rep, pk, h⟩ := checkMilestones_shape s; rw [h]

theorem checkMilestones_markets (s : GameState) :
    (checkMilestones s).1.markets = s.markets := by
  obtain ⟨ma, mt, uu, rep, pk, h⟩ := checkMilestones_shape s; rw [h]

-- ── checkSeizureRisk projection lemmas ──────────────────────────────────────

theorem checkSeizureRisk_turn (s : GameState) (d : MarketId) (r : ℕ → ℚ) (k : ℕ) :
    ((checkSeizureRisk s d r k).1.1).turn = s.turn := by
  obtain ⟨i, cb, sm, h⟩ := checkSeizureRisk_shape s d r k; rw [h]

theorem checkSeizureRisk_balance (s : GameState) (d : MarketId) (r : ℕ → ℚ) (k : ℕ) :
    ((checkSeizureRisk s d r k).1.1).player.balance = s.player.balance := by
  obtain ⟨i, cb, sm, h⟩ := checkSeizureRisk_shape s d r k; rw [h]

theorem checkSeizureRisk_debt (s : GameState) (d : MarketId) (r : ℕ → ℚ) (k : ℕ) :
    ((checkSeizureRisk s d r k).1.1).player.debt = s.player.debt := by
  obtain ⟨i, cb, sm, h⟩ := checkSeizureRisk_shape s d r k; rw [h]

theorem checkSeizureRisk_capacity (s : GameState) (d : MarketId) (r : ℕ → ℚ) (k : ℕ) :
    ((checkSeizureRisk s d r k).1.1).player.inventoryCapacity =
      s.player.inventoryCapacity := by
  obtain ⟨i, cb, sm, h⟩ := checkSeizureRisk_shape s d r k; rw [h]

theorem checkSeizureRisk_pendingChoice (s : GameState) (d : MarketId)
    (r : ℕ → ℚ) (k : ℕ) :
    ((checkSeizureRisk s d r k).1.1).pendingChoice = s.pendingChoice := by
  obtain ⟨i, cb, sm, h⟩ := checkSeizureRisk_shape s d r k; rw [h]

theorem checkSeizureRisk_pendingDestination (s : GameState) (d : MarketId)
    (r : ℕ → ℚ) (k : ℕ) :
    ((checkSeizureRisk s d r k).1.1).pendingDestination = s.pendingDestination := by
  obtain ⟨i, cb, sm, h⟩ := checkSeizureRisk_shape s d r k; rw [h]

-- ── arriveAt / completeTravel lemmas ────────────────────────────────────────

theorem arriveAt_location (s : GameState) (d : MarketId) :
    (arriveAt s d).player.location = d := rfl

theorem arriveAt_turn (s : GameState) (d : MarketId) :
    (arriveAt s d).turn = s.turn := rfl

/-- Everything `completeTravel` guarantees about the state it hands to the
shared turn logic. -/
theorem completeTravel_cont (s : GameState) (d : MarketId) (ct : Bool)
    (r : ℕ → ℚ) (k : ℕ) :
    ∃ s2 k2, completeTravel s d ct r k = .cont s2 ct k2 ∧
      s2.turn = s.turn ∧
      s2.player.location = d ∧
      s2.player.debt = s.player.debt ∧
      s2.player.inventoryCapacity = s.player.inventoryCapacity ∧
      s2.pendingChoice = s.pendingChoice ∧
      s2.pendingDestination = s.pendingDestination ∧
      (Rand01 r → 0 ≤ s.player.balance → 0 ≤ s2.player.balance) ∧
      (Rand01 r → ∀ g, (s2.player.inventory g).getD 0 ≤
        (s.player.inventory g).getD 0) ∧
      (InvPos s.player.inventory → InvPos s2.player.inventory) := by
  unfold completeTravel
  dsimp only
  refine ⟨_, _, rfl, ?_, rfl, ?_, ?_, ?_, ?_, ?_, ?_, ?_⟩
  · show (applyEvents _ _).turn = s.turn
    rw [applyEvents_turn, checkSeizureRisk_turn]
  · show (applyEvents _ _).player.debt = s.player.debt
    rw [applyEvents_debt, checkSeizureRisk_debt]
  · show (applyEvents _ _).player.inventoryCapacity = s.player.inventoryCapacity
    rw [applyEvents_capacity, checkSeizureRisk_capacity]
  · show (applyEvents _ _).pendingChoice = s.pendingChoice
    rw [applyEvents_pendingChoice, checkSeizureRisk_pendingChoice]
  · show (applyEvents _ _).pendingDestination = s.pendingDestination
    rw [applyEvents_pendingDestination, checkSeizureRisk_pendingDestination]
  · intro hr hb
    show 0 ≤ (applyEvents _ _).player.balance
    refine (applyEvents_balance _ _ ?_ ?_).1
    · rw [checkSeizureRisk_balance]; exact hb
    · intro e he heff
      exact ((rollForEvents_ok _ true (some d) r _ hr e he).1 heff)
  · intro hr g
    refine le_trans (applyEvents_inv_le _ _ ?_ g) (checkSeizureRisk_inv_le s d r k g)
    intro e he
    exact (rollForEvents_ok _ true (some d) r _ hr e he).2
  · intro hpos
    exact applyEvents_invpos _ _ (checkSeizureRisk_invpos s d r k hpos)

-- ── processAction backbone ──────────────────────────────────────────────────

theorem processAction_early (s : GameState) (a : Action) (r : ℕ → ℚ) (k : ℕ)
    (resp : Response) (hgo : s.gameOver = false)
    (hguard : s.pendingChoice = none ∨ a.isResolve = true)
    (hsw : actionSwitch s a r k = .early resp) :
    processAction s a r k = resp := by
  unfold processAction
  rw [hgo]
  have hg2 : (s.pendingChoice.isSome && ! a.isResolve) = false := by
    rcases hguard with h | h
    · simp [h]
    · simp [h]
  simp only [Bool.false_eq_true, if_false, hg2, hsw]

theorem processAction_cont (s : GameState) (a : Action) (r : ℕ → ℚ) (k : ℕ)
    (s1 : GameState) (ct : Bool) (k1 : ℕ) (hgo : s.gameOver = false)
    (hguard : s.pendingChoice = none ∨ a.isResolve = true)
    (hsw : actionSwitch s a r k = .cont s1 ct k1) :
    (processAction s a r k).success = true ∧
    (processAction s a r k).turnAdvanced = (a.isTravelOrWait || ct) ∧
    (processAction s a r k).state =
      (if (a.isTravelOrWait || ct) = true
       then (advanceTurn (checkMilestones s1).1 r k1).1
       else (checkMilestones s1).1) := by
  unfold processAction
  rw [hgo]
  have hg2 : (s.pendingChoice.isSome && ! a.isResolve) = false := by
    rcases hguard with h | h
    · simp [h]
    · simp [h]
  simp only [Bool.false_eq_true, if_false, hg2, hsw]
  rcases hb : (a.isTravelOrWait || ct) with _ | _ <;> simp [hb]

theorem processAction_gameOver_fail (s : GameState) (a : Action) (r : ℕ → ℚ)
    (k : ℕ) (hgo : s.gameOver = true) :
    processAction s a r k = errResponse s .gameIsOver := by
  unfold processAction
  rw [hgo]
  rfl

theorem processAction_guard_fail (s : GameState) (a : Action) (r : ℕ → ℚ)
    (k : ℕ) (hgo : s.gameOver = false)
    (hguard : s.pendingChoice.isSome = true) (hres : a.isResolve = false) :
    processAction s a r k =
      { errResponse s .mustResolveChoice with choiceEvent := s.pendingChoice } := by
  unfold processAction
  rw [hgo]
  simp only [hguard, hres, Bool.not_false, Bool.and_true, Bool.false_eq_true,
    if_false, if_true]

-- ── Per-action case analyses of the switch ──────────────────────────────────

/-- Complete case analysis of the `buy` case: it either fails early — with the
input state, except that a matching discount offer is consumed before the
funds and capacity checks — or succeeds with the listed facts. -/
theorem doBuy_cases (s : GameState) (good : Good) (q : ℤ) (k : ℕ) :
    (∃ e st, doBuy s good q k = .early (errResponse st e) ∧
       (st = s ∨
        st = { s with pendingEvents := s.pendingEvents.eraseP (isDiscountFor good) })) ∨
    (∃ s1, doBuy s good q k = .cont s1 false k ∧
       1 ≤ q ∧
       s1.turn = s.turn ∧
       s1.player.debt = s.player.debt ∧
       0 ≤ s1.player.balance ∧
       s1.player.inventoryCapacity = s.player.inventoryCapacity ∧
       s1.player.location = s.player.location ∧
       calculateInventoryUsed s1.player.inventory ≤ s1.player.inventoryCapacity ∧
       (InvPos s.player.inventory → InvPos s1.player.inventory) ∧
       s1.pendingChoice = s.pendingChoice ∧
       s1.pendingDestination = s.pendingDestination ∧
       s1.gameOver = s.gameOver) := by
  have hposstep : ∀ (s1 : GameState), InvPos s1.player.inventory → 1 ≤ q →
      InvPos (fun g => if g = good then
        some ((s1.player.inventory good).getD 0 + q) else s1.player.inventory g) := by
    intro s1 hpos hq g n
    dsimp only
    split_ifs with hg
    · intro hc
      injection hc with hc2
      have := InvPos.getD_nonneg s1.player.inventory hpos good
      omega
    · exact hpos g n
  unfold doBuy
  dsimp only
  rcases hde : s.pendingEvents.find? (isDiscountFor good) with _ | ev <;>
    simp only [hde] <;> split_ifs with h1 h2 h3 h4
  · exact Or.inl ⟨_, _, rfl, Or.inl rfl⟩
  · exact Or.inl ⟨_, _, rfl, Or.inl rfl⟩
  · exact Or.inl ⟨_, _, rfl, Or.inl rfl⟩
  · exact Or.inl ⟨_, _, rfl, Or.inl rfl⟩
  · -- success, no discount
    right
    have hq : 1 ≤ q := by omega
    refine ⟨_, rfl, hq, rfl, rfl, ?_, rfl, rfl, ?_, ?_, rfl, rfl, rfl⟩
    · dsimp only; linarith [not_lt.mp h3]
    · dsimp only
      rw [invUsed_update]
      have := not_lt.mp h4
      simp only [Option.getD_some]
      omega
    · intro hpos
      exact hposstep s hpos hq
  · exact Or.inl ⟨_, _, rfl, Or.inl rfl⟩
  · exact Or.inl ⟨_, _, rfl, Or.inl rfl⟩
  · exact Or.inl ⟨_, _, rfl, Or.inr rfl⟩
  · exact Or.inl ⟨_, _, rfl, Or.inr rfl⟩
  · -- success, discount consumed
    right
    have hq : 1 ≤ q := by omega
    refine ⟨_, rfl, hq, rfl, rfl, ?_, rfl, rfl, ?_, ?_, rfl, rfl, rfl⟩
    · dsimp only; linarith [not_lt.mp h3]
    · dsimp only
      rw [invUsed_update]
      have := not_lt.mp h4
      simp only [Option.getD_some]
      omega
    · intro hpos
      exact hposstep _ hpos hq

/-- Complete case analysis of the `sell` case: every failure leaves the state
untouched; success satisfies the listed facts. -/
theorem doSell_cases (s : GameState) (good : Good) (q : ℤ) (k : ℕ) :
    (∃ e, doSell s good q k = .early (errResponse s e)) ∨
    (∃ s1, doSell s good q k = .cont s1 false k ∧
       1 ≤ q ∧
       s1.turn = s.turn ∧
       s1.player.debt = s.player.debt ∧
       (0 ≤ s.player.balance → (∀ g, 0 ≤ (s.markets s.player.location).prices g) →
         (∀ e ∈ s.pendingEvents, 0 ≤ e.percent) → 0 ≤ s1.player.balance) ∧
       s1.player.inventoryCapacity = s.player.inventoryCapacity ∧
       s1.player.location = s.player.location ∧
       (∀ g, (s1.player.inventory g).getD 0 ≤ (s.player.inventory g).getD 0) ∧
       (InvPos s.player.inventory → InvPos s1.player.inventory) ∧
       s1.pendingChoice = s.pendingChoice ∧
       s1.pendingDestination = s.pendingDestination ∧
       s1.gameOver = s.gameOver) := by
  unfold doSell
  dsimp only
  rcases hde : s.pendingEvents.find? (isPremiumFor good) with _ | ev <;>
    simp only [hde] <;> split_ifs with h1 h2 h3 h4
  · exact Or.inl ⟨_, rfl⟩
  · exact Or.inl ⟨_, rfl⟩
  · exact Or.inl ⟨_, rfl⟩
  · right
    have hq : 1 ≤ q := by omega
    have howned : q ≤ (s.player.inventory good).getD 0 := not_lt.mp h3
    have hqq : (0 : ℚ) ≤ (q : ℚ) := by exact_mod_cast le_trans zero_le_one hq
    refine ⟨_, rfl, hq, rfl, rfl, ?_, rfl, rfl, ?_, ?_, rfl, rfl, rfl⟩
    · intro hb hpr hpe
      dsimp only
      have := mul_nonneg (hpr good) hqq
      linarith
    · intro g
      dsimp only
      by_cases hg : g = good
      · subst hg
        rw [if_pos rfl]
        simp only [Option.getD_none]
        omega
      · rw [if_neg hg]
    · intro hpos g n
      dsimp only
      by_cases hg : g = good
      · subst hg
        rw [if_pos rfl]
        intro hc
        exact Option.noConfusion hc
      · rw [if_neg hg]
        exact hpos g n
  · right
    have hq : 1 ≤ q := by omega
    have howned : q ≤ (s.player.inventory good).getD 0 := not_lt.mp h3
    have hqq : (0 : ℚ) ≤ (q : ℚ) := by exact_mod_cast le_trans zero_le_one hq
    refine ⟨_, rfl, hq, rfl, rfl, ?_, rfl, rfl, ?_, ?_, rfl, rfl, rfl⟩
    · intro hb hpr hpe
      dsimp only
      have := mul_nonneg (hpr good) hqq
      linarith
    · intro g
      dsimp only
      by_cases hg : g = good
      · subst hg
        rw [if_pos rfl]
        simp only [Option.getD_some]
        omega
      · rw [if_neg hg]
    · intro hpos g n
      dsimp only
      by_cases hg : g = good
      · subst hg
        rw [if_pos rfl]
        intro hc
        injection hc with hc2
        omega
      · rw [if_neg hg]
        exact hpos g n
  · exact Or.inl ⟨_, rfl⟩
  · exact Or.inl ⟨_, rfl⟩
  · exact Or.inl ⟨_, rfl⟩
  · right
    have hq : 1 ≤ q := by omega
    have howned : q ≤ (s.player.inventory good).getD 0 := not_lt.mp h3
    have hqq : (0 : ℚ) ≤ (q : ℚ) := by exact_mod_cast le_trans zero_le_one hq
    refine ⟨_, rfl, hq, rfl, rfl, ?_, rfl, rfl, ?_, ?_, rfl, rfl, rfl⟩
    · intro hb hpr hpe
      dsimp only
      have hev : ev ∈ s.pendingEvents := List.mem_of_find?_eq_some hde
      have hpct : 0 ≤ ev.percent := hpe ev hev
      have hrev : (0 : ℚ) ≤
          ((jround ((s.markets s.player.location).prices good *
            (1 + ev.percent / 100)) : ℤ) : ℚ) := by
        have hx : (0 : ℚ) ≤ (s.markets s.player.location).prices good *
            (1 + ev.percent / 100) := by
          have := hpr good
          have h100 : (0 : ℚ) ≤ 1 + ev.percent / 100 := by linarith
          positivity
        exact_mod_cast jround_nonneg _ hx
      have := mul_nonneg hrev hqq
      linarith
    · intro g
      dsimp only
      by_cases hg : g = good
      · subst hg
        rw [if_pos rfl]
        simp only [Option.getD_none]
        omega
      · rw [if_neg hg]
    · intro hpos g n
      dsimp only
      by_cases hg : g = good
      · subst hg
        rw [if_pos rfl]
        intro hc
        exact Option.noConfusion hc
      · rw [if_neg hg]
        exact hpos g n
  · right
    have hq : 1 ≤ q := by omega
    have howned : q ≤ (s.player.inventory good).getD 0 := not_lt.mp h3
    have hqq : (0 : ℚ) ≤ (q : ℚ) := by exact_mod_cast le_trans zero_le_one hq
    refine ⟨_, rfl, hq, rfl, rfl, ?_, rfl, rfl, ?_, ?_, rfl, rfl, rfl⟩
    · intro hb hpr hpe
      dsimp only
      have hev : ev ∈ s.pendingEvents := List.mem_of_find?_eq_some hde
      have hpct : 0 ≤ ev.percent := hpe ev hev
      have hrev : (0 : ℚ) ≤
          ((jround ((s.markets s.player.location).prices good *
            (1 + ev.percent / 100)) : ℤ) : ℚ) := by
        have hx : (0 : ℚ) ≤ (s.markets s.player.location).prices good *
            (1 + ev.percent / 100) := by
          have := hpr good
          have h100 : (0 : ℚ) ≤ 1 + ev.percent / 100 := by linarith
          positivity
        exact_mod_cast jround_nonneg _ hx
      have := mul_nonneg hrev hqq
      linarith
    · intro g
      dsimp only
      by_cases hg : g = good
      · subst hg
        rw [if_pos rfl]
        simp only [Option.getD_some]
        omega
      · rw [if_neg hg]
    · intro hpos g n
      dsimp only
      by_cases hg : g = good
      · subst hg
        rw [if_pos rfl]
        intro hc
        injection hc with hc2
        omega
      · rw [if_neg hg]
        exact hpos g n

/-- `Math.round` lands within one half of its argument. -/
theorem jround_near (x : ℚ) : |((jround x : ℤ) : ℚ) - x| ≤ 1/2 := by
  unfold jround
  have h1 := Int.floor_le (x + 1/2)
  have h2 := Int.lt_floor_add_one (x + 1/2)
  rw [abs_le]
  constructor <;> push_cast at * <;> linarith

/-- The inventory and cost-basis updates of a successful sell, as written in
the source (the premium lookup touches neither). -/
theorem doSell_cb_facts (s : GameState) (g : Good) (q : ℤ) (k : ℕ)
    (s1 : GameState) (ct : Bool) (k1 : ℕ)
    (hsw : doSell s g q k = .cont s1 ct k1) :
    q ≤ (s.player.inventory g).getD 0 ∧ 1 ≤ q ∧
    s1.player.inventory g
      = (if (s.player.inventory g).getD 0 - q = 0 then none
         else some ((s.player.inventory g).getD 0 - q)) ∧
    s1.player.costBasis g
      = (if (s.player.inventory g).getD 0 - q = 0 then none
         else some ((s.player.costBasis g).getD 0 -
           (q : ℚ) / (((s.player.inventory g).getD 0 : ℤ) : ℚ) *
             (s.player.costBasis g).getD 0)) := by
  unfold doSell at hsw
  dsimp only at hsw
  rcases hde : s.pendingEvents.find? (isPremiumFor g) with _ | ev <;>
    rw [hde] at hsw <;> dsimp only at hsw <;> split_ifs at hsw
  all_goals first
    | exact SwitchRes.noConfusion hsw
    | (injection hsw with e1 e2 e3
       subst e1
       refine ⟨by omega, by omega, ?_, ?_⟩ <;>
         (dsimp only
          rw [if_pos rfl]
          split_ifs <;> first | rfl | omega))

/-- When no discount offer matches, a successful buy pays exactly the market
price and touches neither the markets nor the pending events. -/
theorem doBuy_succ_facts (s : GameState) (g : Good) (q : ℤ) (k : ℕ)
    (s1 : GameState) (ct : Bool) (k1 : ℕ)
    (hd : s.pendingEvents.find? (isDiscountFor g) = none)
    (hsw : doBuy s g q k = .cont s1 ct k1) :
    s1.player.balance
      = s.player.balance - (s.markets s.player.location).prices g * q ∧
    s1.markets = s.markets ∧
    s1.pendingEvents = s.pendingEvents ∧
    s1.player.location = s.player.location := by
  unfold doBuy at hsw
  rw [hd] at hsw
  dsimp only at hsw
  split_ifs at hsw
  all_goals first
    | exact SwitchRes.noConfusion hsw
    | (injection hsw with e1 e2 e3
       subst e1
       exact ⟨rfl, rfl, rfl, rfl⟩)

/-- When no premium offer matches, a successful sell earns exactly the market
price and touches neither the markets nor the pending events. -/
theorem doSell_succ_facts (s : GameState) (g : Good) (q : ℤ) (k : ℕ)
    (s1 : GameState) (ct : Bool) (k1 : ℕ)
    (hp : s.pendingEvents.find? (isPremiumFor g) = none)
    (hsw : doSell s g q k = .cont s1 ct k1) :
    s1.player.balance
      = s.player.balance + (s.markets s.player.location).prices g * q ∧
    s1.markets = s.markets := by
  unfold doSell at hsw
  rw [hp] at hsw
  dsimp only at hsw
  split_ifs at hsw
  all_goals first
    | exact SwitchRes.noConfusion hsw
    | (injection hsw with e1 e2 e3
       subst e1
       exact ⟨rfl, rfl⟩)

theorem doBorrow_cases (s : GameState) (amount : ℚ) (k : ℕ) :
    (∃ e, doBorrow s amount k = .early (errResponse s e)) ∨
    (∃ s1, doBorrow s amount k = .cont s1 false k ∧
       0 < amount ∧
       s1.player.balance = s.player.balance + amount ∧
       s1.player.debt = s.player.debt + amount ∧
       s1.turn = s.turn ∧
       s1.player.inventory = s.player.inventory ∧
       s1.player.inventoryCapacity = s.player.inventoryCapacity ∧
       s1.player.location = s.player.location ∧
       s1.pendingChoice = s.pendingChoice ∧
       s1.pendingDestination = s.pendingDestination ∧
       s1.gameOver = s.gameOver) := by
  unfold doBorrow
  split_ifs with h1 h2
  · exact Or.inl ⟨_, rfl⟩
  · exact Or.inl ⟨_, rfl⟩
  · exact Or.inr ⟨_, rfl, by linarith [not_le.mp h1], rfl, rfl, rfl, rfl, rfl,
      rfl, rfl, rfl, rfl⟩

theorem doPayDebt_cases (s : GameState) (amount : ℚ) (k : ℕ) :
    (∃ e, doPayDebt s amount k = .early (errResponse s e)) ∨
    (∃ s1, doPayDebt s amount k = .cont s1 false k ∧
       0 < amount ∧ amount ≤ s.player.balance ∧ amount ≤ s.player.debt ∧
       s1.player.balance = s.player.balance - amount ∧
       s1.player.debt = s.player.debt - amount ∧
       s1.turn = s.turn ∧
       s1.player.inventory = s.player.inventory ∧
       s1.player.inventoryCapacity = s.player.inventoryCapacity ∧
       s1.pendingChoice = s.pendingChoice ∧
       s1.pendingDestination = s.pendingDestination ∧
       s1.gameOver = s.gameOver) := by
  unfold doPayDebt
  split_ifs with h1 h2 h3
  · exact Or.inl ⟨_, rfl⟩
  · exact Or.inl ⟨_, rfl⟩
  · exact Or.inl ⟨_, rfl⟩
  · exact Or.inr ⟨_, rfl, by linarith [not_le.mp h1], not_lt.mp h2, not_lt.mp h3,
      rfl, rfl, rfl, rfl, rfl, rfl, rfl, rfl⟩

theorem doUpgrade_cases (s : GameState) (u : UpgradeId) (k : ℕ) :
    (∃ e, doUpgrade s u k = .early (errResponse s e)) ∨
    (∃ s1, doUpgrade s u k = .cont s1 false k ∧
       upgradeCost u ≤ s.player.balance ∧
       s1.player.balance = s.player.balance - upgradeCost u ∧
       s1.player.debt = s.player.debt ∧
       s1.turn = s.turn ∧
       s1.player.inventory = s.player.inventory ∧
       s.player.inventoryCapacity ≤ s1.player.inventoryCapacity ∧
       s1.player.location = s.player.location ∧
       s1.pendingChoice = s.pendingChoice ∧
       s1.pendingDestination = s.pendingDestination ∧
       s1.gameOver = s.gameOver) := by
  unfold doUpgrade
  split_ifs with h1 h2 h3 h4
  · exact Or.inl ⟨_, rfl⟩
  · exact Or.inl ⟨_, rfl⟩
  · exact Or.inl ⟨_, rfl⟩
  · exact Or.inl ⟨_, rfl⟩
  · right
    dsimp only
    rcases heff : upgradeEffect u with v | v | _ | _ <;> simp only [heff]
    · have hv : 0 ≤ v := by
        cases u <;> simp [upgradeEffect] at heff <;> omega
      exact ⟨_, rfl, not_lt.mp h4, rfl, rfl, rfl, rfl, by dsimp only; omega,
        rfl, rfl, rfl, rfl⟩
    · exact ⟨_, rfl, not_lt.mp h4, rfl, rfl, rfl, rfl, le_refl _,
        rfl, rfl, rfl, rfl⟩
    · exact ⟨_, rfl, not_lt.mp h4, rfl, rfl, rfl, rfl, le_refl _,
        rfl, rfl, rfl, rfl⟩
    · exact ⟨_, rfl, not_lt.mp h4, rfl, rfl, rfl, rfl, le_refl _,
        rfl, rfl, rfl, rfl⟩

theorem doTravel_cases (s : GameState) (d : MarketId) (conf : Bool) (r : ℕ → ℚ)
    (k : ℕ) :
    (∃ e, doTravel s d conf r k = .early (errResponse s e)) ∨
    (∃ ev resp, doTravel s d conf r k = .early resp ∧
       resp.success = true ∧ resp.turnAdvanced = false ∧
       resp.state = { s with pendingChoice := some ev,
                             pendingDestination := some d }) ∨
    (∃ s2 k2, doTravel s d conf r k = .cont s2 false k2 ∧
       s2.turn = s.turn ∧ s2.player.location = d ∧
       s2.player.debt = s.player.debt ∧
       s2.player.inventoryCapacity = s.player.inventoryCapacity ∧
       s2.pendingChoice = s.pendingChoice ∧
       s2.pendingDestination = s.pendingDestination ∧
       (Rand01 r → 0 ≤ s.player.balance → 0 ≤ s2.player.balance) ∧
       (Rand01 r → ∀ g, (s2.player.inventory g).getD 0 ≤
         (s.player.inventory g).getD 0) ∧
       (InvPos s.player.inventory → InvPos s2.player.inventory)) := by
  unfold doTravel
  dsimp only
  split_ifs with h1 h2
  · exact Or.inl ⟨_, rfl⟩
  · exact Or.inl ⟨_, rfl⟩
  · rcases hrc : rollForTravelChoice s d r k with ⟨oev, k1⟩
    rcases oev with _ | ev
    · simp only [hrc]
      obtain ⟨s2, k2, heq, hprops⟩ := completeTravel_cont s d false r k1
      right; right
      exact ⟨s2, k2, heq, hprops⟩
    · simp only [hrc]
      right; left
      exact ⟨ev, _, rfl, rfl, rfl, rfl⟩

theorem doResolveChoice_cases (s : GameState) (cid : String) (r : ℕ → ℚ) (k : ℕ) :
    (s.pendingChoice = none ∧
      doResolveChoice s cid r k = .early (errResponse s .noPendingChoice)) ∨
    (∃ c, s.pendingChoice = some c ∧ s.pendingDestination = none ∧
      doResolveChoice s cid r k =
        .cont (resolveChoiceEvent s cid r k).1.1 false (resolveChoiceEvent s cid r k).2) ∨
    (∃ c d, s.pendingChoice = some c ∧ s.pendingDestination = some d ∧
      ∃ s2 k2, doResolveChoice s cid r k = .cont s2 true k2 ∧
        s2.turn = s.turn ∧
        s2.player.location = d ∧
        s2.player.debt = s.player.debt ∧
        s2.pendingChoice = none ∧
        s2.pendingDestination = none ∧
        s2.player.inventoryCapacity = s.player.inventoryCapacity ∧
        (Rand01 r → 0 ≤ s.player.balance → 0 ≤ c.params.amount →
          0 ≤ c.params.entryFee → 0 ≤ s2.player.balance) ∧
        (Rand01 r → ¬(c.ctype = .shadyDeal ∧ cid = "accept") →
          ∀ g, (s2.player.inventory g).getD 0 ≤ (s.player.inventory g).getD 0) ∧
        (0 < c.params.quantity → InvPos s.player.inventory →
          InvPos s2.player.inventory)) := by
  rcases hpc : s.pendingChoice with _ | c
  · left
    refine ⟨rfl, ?_⟩
    unfold doResolveChoice
    rw [hpc]
    rfl
  · right
    have hpd' := resolveChoiceEvent_pendingDestination s cid r k c hpc
    rcases hpd : s.pendingDestination with _ | d
    · left
      refine ⟨c, rfl, rfl, ?_⟩
      have hnone : ((resolveChoiceEvent s cid r k).1.1).pendingDestination = none := by
        rw [hpd', hpd]
      unfold doResolveChoice
      rw [hpc]
      dsimp only [Option.isNone]
      rw [if_neg (by simp)]
      try dsimp only
      split
      · rename_i dd heqd
        rw [hnone] at heqd
        exact Option.noConfusion heqd
      · rfl
    · right
      refine ⟨c, d, rfl, rfl, ?_⟩
      set s1 := (resolveChoiceEvent s cid r k).1.1 with hs1
      obtain ⟨s2, k2, heq, ht, hloc, hdebt, hcap, hpcs, hpds, hbal, hinvle, hinvpos⟩ :=
        completeTravel_cont { s1 with pendingDestination := none } d true r
          (resolveChoiceEvent s cid r k).2
      refine ⟨s2, k2, ?_, ?_, hloc, ?_, ?_, ?_, ?_, ?_, ?_, ?_⟩
      · unfold doResolveChoice
        rw [hpc]
        dsimp only [Option.isNone]
        rw [if_neg (by simp)]
        try dsimp only
        rw [← hs1]
        split
        · rename_i dd heqd
          rw [hpd', hpd] at heqd
          injection heqd with heqd2
          subst heqd2
          exact heq
        · rename_i heqd
          rw [hpd', hpd] at heqd
          exact Option.noConfusion heqd
      · rw [ht]
        show s1.turn = s.turn
        exact resolveChoiceEvent_turn s cid r k c hpc
      · rw [hdebt]
        show s1.player.debt = s.player.debt
        exact resolveChoiceEvent_debt s cid r k c hpc
      · rw [hpcs]
        show s1.pendingChoice = none
        exact resolveChoiceEvent_pendingChoice s cid r k c hpc
      · exact hpds
      · rw [hcap]
        show s1.player.inventoryCapacity = s.player.inventoryCapacity
        exact resolveChoiceEvent_capacity s cid r k c hpc
      · intro hr hb ham hef
        refine hbal hr ?_
        show 0 ≤ s1.player.balance
        exact resolveChoiceEvent_balance_nonneg s cid r k c hpc hr hb ham hef
      · intro hr hne g
        refine le_trans (hinvle hr g) ?_
        show (s1.player.inventory g).getD 0 ≤ (s.player.inventory g).getD 0
        exact resolveChoiceEvent_inv_le s cid r k c hpc hne g
      · intro hq hpos
        refine hinvpos ?_
        show InvPos s1.player.inventory
        exact resolveChoiceEvent_invpos s cid r k c hpc hq hpos

theorem success_gameOver_false (s : GameState) (a : Action) (r : ℕ → ℚ) (k : ℕ)
    (h : (processAction s a r k).success = true) : s.gameOver = false := by
  by_contra hgo
  have hgo2 : s.gameOver = true := by
    rcases hb : s.gameOver
    · exact absurd hb hgo
    · rfl
  rw [processAction_gameOver_fail s a r k hgo2] at h
  simp [errResponse] at h

theorem success_guard (s : GameState) (a : Action) (r : ℕ → ℚ) (k : ℕ)
    (h : (processAction s a r k).success = true) :
    s.pendingChoice = none ∨ a.isResolve = true := by
  by_contra hng
  push_neg at hng
  obtain ⟨h1, h2⟩ := hng
  have hpcs : s.pendingChoice.isSome = true := Option.ne_none_iff_isSome.mp h1
  have hres : a.isResolve = false := by
    rcases hb : a.isResolve
    · rfl
    · exact absurd hb h2
  rw [processAction_guard_fail s a r k (success_gameOver_false s a r k h) hpcs hres] at h
  simp [errResponse] at h

/-- **C3** (corrected).  For every state and random outcome: successful `buy`,
`sell`, `borrow`, `payDebt` and `upgrade` actions leave `state.turn`
unchanged; a successful `wait`, a successful `travel` that does not trigger a
choice event, and a `resolveChoice` that completes a deferred travel each
increase it by exactly one; a successful `travel` that does trigger a choice
event leaves the turn unchanged — the increment happens only when the
choice-completing `resolveChoice` runs. -/
theorem c3_turn_advancement (s : GameState) (a : Action) (r : ℕ → ℚ) (k : ℕ) :
    (((∃ g q, a = .buy g q) ∨ (∃ g q, a = .sell g q) ∨ (∃ x, a = .borrow x) ∨
       (∃ x, a = .payDebt x) ∨ (∃ u, a = .upgrade u)) →
      (processAction s a r k).success = true →
      (processAction s a r k).state.turn = s.turn) ∧
    (a = .wait → (processAction s a r k).success = true →
      (processAction s a r k).state.turn = s.turn + 1) ∧
    (∀ d conf, a = .travel d conf → (processAction s a r k).success = true →
      (((processAction s a r k).state.pendingChoice = none →
         (processAction s a r k).state.turn = s.turn + 1) ∧
       ((processAction s a r k).state.pendingChoice ≠ none →
         (processAction s a r k).state.turn = s.turn))) ∧
    (∀ cid d, a = .resolveChoice cid → s.pendingDestination = some d →
      (processAction s a r k).success = true →
      (processAction s a r k).state.turn = s.turn + 1) := by
  refine ⟨?_, ?_, ?_, ?_⟩
  · -- buy / sell / borrow / payDebt / upgrade
    intro hkind hsucc
    have hgo := success_gameOver_false s a r k hsucc
    have hgd := success_guard s a r k hsucc
    have main : ∀ s1 k1, actionSwitch s a r k = .cont s1 false k1 →
        a.isTravelOrWait = false → s1.turn = s.turn →
        (processAction s a r k).state.turn = s.turn := by
      intro s1 k1 hsw htw ht
      obtain ⟨h1, h2, h3⟩ := processAction_cont s a r k s1 false k1 hgo hgd hsw
      rw [h3]
      simp only [htw, Bool.or_self, Bool.false_eq_true, if_false]
      rw [checkMilestones_turn, ht]
    have early : ∀ st e, actionSwitch s a r k = .early (errResponse st e) → False := by
      intro st e hsw
      rw [processAction_early s a r k _ hgo hgd hsw] at hsucc
      simp [errResponse] at hsucc
    rcases hkind with ⟨g, q, ha⟩ | ⟨g, q, ha⟩ | ⟨x, ha⟩ | ⟨x, ha⟩ | ⟨u, ha⟩ <;> subst ha
    · rcases doBuy_cases s g q k with ⟨e, st, hsw, _⟩ |
        ⟨s1, hsw, _, ht, _⟩
      · exact absurd (early st e hsw) id
      · exact main s1 k hsw rfl ht
    · rcases doSell_cases s g q k with ⟨e, hsw⟩ | ⟨s1, hsw, _, ht, _⟩
      · exact absurd (early s e hsw) id
      · exact main s1 k hsw rfl ht
    · rcases doBorrow_cases s x k with ⟨e, hsw⟩ | ⟨s1, hsw, _, _, _, ht, _⟩
      · exact absurd (early s e hsw) id
      · exact main s1 k hsw rfl ht
    · rcases doPayDebt_cases s x k with ⟨e, hsw⟩ |
        ⟨s1, hsw, _, _, _, _, _, ht, _⟩
      · exact absurd (early s e hsw) id
      · exact main s1 k hsw rfl ht
    · rcases doUpgrade_cases s u k with ⟨e, hsw⟩ |
        ⟨s1, hsw, _, _, _, ht, _⟩
      · exact absurd (early s e hsw) id
      · exact main s1 k hsw rfl ht
  · -- wait
    intro ha hsucc
    subst ha
    have hgo := success_gameOver_false s .wait r k hsucc
    have hgd := success_guard s .wait r k hsucc
    obtain ⟨h1, h2, h3⟩ := processAction_cont s .wait r k s false k hgo hgd rfl
    rw [h3]
    simp only [Action.isTravelOrWait, Bool.true_or, if_true]
    rw [advanceTurn_turn, checkMilestones_turn]
  · -- travel
    intro d conf ha hsucc
    subst ha
    have hgo := success_gameOver_false s (.travel d conf) r k hsucc
    have hgd := success_guard s (.travel d conf) r k hsucc
    have hpcn : s.pendingChoice = none := by
      rcases hgd with h | h
      · exact h
      · simp [Action.isResolve] at h
    rcases doTravel_cases s d conf r k with ⟨e, hsw⟩ |
      ⟨ev, resp, hsw, hrs, hrt, hrst⟩ | ⟨s2, k2, hsw, ht, _⟩
    · rw [processAction_early s _ r k _ hgo hgd hsw] at hsucc
      simp [errResponse] at hsucc
    · have hpa := processAction_early s _ r k _ hgo hgd hsw
      rw [hpa, hrst]
      constructor
      · intro hnone
        exact absurd hnone (by simp)
      · intro _
        rfl
    · obtain ⟨h1, h2, h3⟩ := processAction_cont s _ r k s2 false k2 hgo hgd hsw
      rw [h3]
      simp only [Action.isTravelOrWait, Bool.true_or, if_true]
      constructor
      · intro _
        rw [advanceTurn_turn, checkMilestones_turn, ht]
      · intro hne
        exfalso
        apply hne
        rw [(advanceTurn_frame _ r k2).2.2.2.1, checkMilestones_pendingChoice]
        rcases doTravel_cases s d conf r k with ⟨e, hsw2⟩ |
          ⟨ev, resp, hsw2, _⟩ | ⟨s2b, k2b, hsw2, _, _, _, _, hpc2, _⟩
        · rw [hsw2] at hsw
          exact absurd hsw (by simp)
        · rw [hsw2] at hsw
          exact absurd hsw (by simp)
        · rw [hsw2] at hsw
          injection hsw with e1 e2 e3
          subst e1
          rw [hpc2, hpcn]
  · -- resolveChoice completing a deferred travel
    intro cid d ha hpd hsucc
    subst ha
    have hgo := success_gameOver_false s (.resolveChoice cid) r k hsucc
    have hgd := success_guard s (.resolveChoice cid) r k hsucc
    rcases doResolveChoice_cases s cid r k with ⟨hpcn, hsw⟩ |
      ⟨c, hpc, hpdn, hsw⟩ | ⟨c, d2, hpc, hpd2, s2, k2, hsw, ht, _⟩
    · rw [processAction_early s _ r k _ hgo hgd hsw] at hsucc
      simp [errResponse] at hsucc
    · rw [hpdn] at hpd
      exact Option.noConfusion hpd
    · obtain ⟨h1, h2, h3⟩ := processAction_cont s _ r k s2 true k2 hgo hgd hsw
      rw [h3]
      simp only [Action.isTravelOrWait, Bool.or_true, if_true]
      rw [advanceTurn_turn, checkMilestones_turn, ht]

/-- **C1** (corrected).  A failing action returns either the input state
unchanged, or — only for `buy` — the input state with the matching pending
buy-discount offer consumed: the discount lookup erases the offer before the
funds and capacity checks run. -/
theorem c1_failure_state_preservation (s : GameState) (a : Action) (r : ℕ → ℚ)
    (k : ℕ) (h : (processAction s a r k).success = false) :
    (processAction s a r k).state = s ∨
    ∃ g q, a = .buy g q ∧
      (processAction s a r k).state
        = { s with pendingEvents := s.pendingEvents.eraseP (isDiscountFor g) } := by
  by_cases hgo : s.gameOver = true
  · rw [processAction_gameOver_fail s a r k hgo]
    exact Or.inl rfl
  · have hgo' : s.gameOver = false := by
      rcases hb : s.gameOver
      · rfl
      · exact absurd hb hgo
    by_cases hguard : s.pendingChoice.isSome = true ∧ a.isResolve = false
    · rw [processAction_guard_fail s a r k hgo' hguard.1 hguard.2]
      exact Or.inl rfl
    · have hg2 : s.pendingChoice = none ∨ a.isResolve = true := by
        by_cases hp : s.pendingChoice = none
        · exact Or.inl hp
        · right
          rcases hb : a.isResolve
          · exact absurd ⟨Option.ne_none_iff_isSome.mp hp, hb⟩ hguard
          · rfl
      cases a with
      | buy g q =>
        rcases doBuy_cases s g q k with ⟨e, st, hsw, hst⟩ | ⟨s1, hsw, _⟩
        · rw [processAction_early s _ r k _ hgo' hg2 hsw]
          rcases hst with h1 | h1
          · exact Or.inl (by rw [h1]; rfl)
          · exact Or.inr ⟨g, q, rfl, by rw [h1]; rfl⟩
        · obtain ⟨hs1, _, _⟩ := processAction_cont s _ r k s1 false k hgo' hg2 hsw
          rw [hs1] at h
          exact absurd h (by simp)
      | sell g q =>
        rcases doSell_cases s g q k with ⟨e, hsw⟩ | ⟨s1, hsw, _⟩
        · rw [processAction_early s _ r k _ hgo' hg2 hsw]
          exact Or.inl rfl
        · obtain ⟨hs1, _, _⟩ := processAction_cont s _ r k s1 false k hgo' hg2 hsw
          rw [hs1] at h
          exact absurd h (by simp)
      | travel d conf =>
        rcases doTravel_cases s d conf r k with ⟨e, hsw⟩ |
          ⟨ev, resp, hsw, hrs, _, _⟩ | ⟨s2, k2, hsw, _⟩
        · rw [processAction_early s _ r k _ hgo' hg2 hsw]
          exact Or.inl rfl
        · rw [processAction_early s _ r k _ hgo' hg2 hsw] at h
          rw [hrs] at h
          exact absurd h (by simp)
        · obtain ⟨hs1, _, _⟩ := processAction_cont s _ r k s2 false k2 hgo' hg2 hsw
          rw [hs1] at h
          exact absurd h (by simp)
      | resolveChoice cid =>
        rcases doResolveChoice_cases s cid r k with ⟨hpcn, hsw⟩ |
          ⟨c, hpc, hpdn, hsw⟩ | ⟨c, d, hpc, hpd, s2, k2, hsw, _⟩
        · rw [processAction_early s _ r k _ hgo' hg2 hsw]
          exact Or.inl rfl
        · obtain ⟨hs1, _, _⟩ := processAction_cont s _ r k _ false _ hgo' hg2 hsw
          rw [hs1] at h
          exact absurd h (by simp)
        · obtain ⟨hs1, _, _⟩ := processAction_cont s _ r k s2 true k2 hgo' hg2 hsw
          rw [hs1] at h
          exact absurd h (by simp)
      | wait =>
        obtain ⟨hs1, _, _⟩ := processAction_cont s .wait r k s false k hgo' hg2 rfl
        rw [hs1] at h
        exact absurd h (by simp)
      | borrow x =>
        rcases doBorrow_cases s x k with ⟨e, hsw⟩ | ⟨s1, hsw, _⟩
        · rw [processAction_early s _ r k _ hgo' hg2 hsw]
          exact Or.inl rfl
        · obtain ⟨hs1, _, _⟩ := processAction_cont s _ r k s1 false k hgo' hg2 hsw
          rw [hs1] at h
          exact absurd h (by simp)
      | payDebt x =>
        rcases doPayDebt_cases s x k with ⟨e, hsw⟩ | ⟨s1, hsw, _⟩
        · rw [processAction_early s _ r k _ hgo' hg2 hsw]
          exact Or.inl rfl
        · obtain ⟨hs1, _, _⟩ := processAction_cont s _ r k s1 false k hgo' hg2 hsw
          rw [hs1] at h
          exact absurd h (by simp)
      | upgrade u =>
        rcases doUpgrade_cases s u k with ⟨e, hsw⟩ | ⟨s1, hsw, _⟩
        · rw [processAction_early s _ r k _ hgo' hg2 hsw]
          exact Or.inl rfl
        · obtain ⟨hs1, _, _⟩ := processAction_cont s _ r k s1 false k hgo' hg2 hsw
          rw [hs1] at h
          exact absurd h (by simp)

/-- Witness for C1: buying a non-positive quantity on the fresh state fails,
and the returned state satisfies the preservation disjunction. -/
theorem c1_failure_state_preservation_witness :
    (processAction createInitialState (.buy .h100 0) (fun _ => 0) 0).success = false ∧
    ((processAction createInitialState (.buy .h100 0) (fun _ => 0) 0).state
        = createInitialState ∨
     ∃ g q, (Action.buy .h100 0 : Action) = .buy g q ∧
       (processAction createInitialState (.buy .h100 0) (fun _ => 0) 0).state
         = { createInitialState with
             pendingEvents :=
               createInitialState.pendingEvents.eraseP (isDiscountFor g) }) := by
  have hf : (processAction createInitialState (.buy .h100 0) (fun _ => 0) 0).success
      = false := by
    with_unfolding_all decide
  exact ⟨hf, c1_failure_state_preservation createInitialState (.buy .h100 0)
    (fun _ => 0) 0 hf⟩

/-- Counterexample to C1 as stated: on a state with an empty wallet and a
pending H100 buy-discount offer, a buy of one H100 fails the funds check, yet
the returned state has lost the pending offer — a failing action does mutate
the visible state. -/
theorem c1_discount_consumed_counterexample :
    (processAction discountPendingState (.buy .h100 1) (fun _ => 0) 0).success
      = false ∧
    discountPendingState.pendingEvents.length = 1 ∧
    (processAction discountPendingState (.buy .h100 1)
      (fun _ => 0) 0).state.pendingEvents = [] := by
  refine ⟨?_, ?_, ?_⟩ <;> with_unfolding_all decide

/-- **C2** (corrected).  The cargo-capacity invariant is preserved by every
successful action other than `resolveChoice`: if the inventory fits before the
action, it fits after it (`buy` enforces the bound through its explicit
capacity check).  The shady-deal accept path of `resolveChoice` adds goods
without any capacity check and can break the bound. -/
theorem c2_capacity_invariant (s : GameState) (a : Action) (r : ℕ → ℚ) (k : ℕ)
    (hr : Rand01 r) (hres : a.isResolve = false)
    (hinv : calculateInventoryUsed s.player.inventory ≤ s.player.inventoryCapacity)
    (h : (processAction s a r k).success = true) :
    calculateInventoryUsed (processAction s a r k).state.player.inventory
      ≤ (processAction s a r k).state.player.inventoryCapacity := by
  have hgo := success_gameOver_false s a r k h
  have hgd := success_guard s a r k h
  have final : ∀ s1 ct k1, actionSwitch s a r k = .cont s1 ct k1 →
      calculateInventoryUsed s1.player.inventory ≤ s1.player.inventoryCapacity →
      calculateInventoryUsed (processAction s a r k).state.player.inventory
        ≤ (processAction s a r k).state.player.inventoryCapacity := by
    intro s1 ct k1 hsw hok
    obtain ⟨h1, h2, h3⟩ := processAction_cont s a r k s1 ct k1 hgo hgd hsw
    rw [h3]
    rcases hb : (a.isTravelOrWait || ct) with _ | _
    · simp only [hb, Bool.false_eq_true, if_false]
      rw [checkMilestones_inventory, checkMilestones_capacity]
      exact hok
    · simp only [hb, if_true]
      have hcap : (advanceTurn (checkMilestones s1).1 r k1).1.player.inventoryCapacity
          = s1.player.inventoryCapacity := by
        rw [(advanceTurn_frame ((checkMilestones s1).1) r k1).2.1,
          checkMilestones_capacity]
      have hmid : calculateInventoryUsed (checkMilestones s1).1.player.inventory
          = calculateInventoryUsed s1.player.inventory := by
        rw [checkMilestones_inventory]
      calc calculateInventoryUsed
            (advanceTurn (checkMilestones s1).1 r k1).1.player.inventory
          ≤ calculateInventoryUsed (checkMilestones s1).1.player.inventory :=
            invUsed_mono _ _ (fun g => advanceTurn_inv_le (checkMilestones s1).1 r k1 hr g)
        _ = calculateInventoryUsed s1.player.inventory := hmid
        _ ≤ s1.player.inventoryCapacity := hok
        _ = (advanceTurn (checkMilestones s1).1 r k1).1.player.inventoryCapacity :=
            hcap.symm
  cases a with
  | buy g q =>
    rcases doBuy_cases s g q k with ⟨e, st, hsw, _⟩ |
      ⟨s1, hsw, _, _, _, _, _, _, hcaple, _, _, _, _⟩
    · rw [processAction_early s _ r k _ hgo hgd hsw] at h
      simp [errResponse] at h
    · exact final s1 false k hsw hcaple
  | sell g q =>
    rcases doSell_cases s g q k with ⟨e, hsw⟩ |
      ⟨s1, hsw, _, _, _, _, hcapeq, _, hle, _, _, _, _⟩
    · rw [processAction_early s _ r k _ hgo hgd hsw] at h
      simp [errResponse] at h
    · refine final s1 false k hsw ?_
      rw [hcapeq]
      exact le_trans (invUsed_mono _ _ hle) hinv
  | travel d conf =>
    rcases doTravel_cases s d conf r k with ⟨e, hsw⟩ |
      ⟨ev, resp, hsw, hrs, hrt, hrst⟩ |
      ⟨s2, k2, hsw, _, _, _, hcapeq, _, _, _, hle, _⟩
    · rw [processAction_early s _ r k _ hgo hgd hsw] at h
      simp [errResponse] at h
    · rw [processAction_early s _ r k _ hgo hgd hsw, hrst]
      exact hinv
    · refine final s2 false k2 hsw ?_
      rw [hcapeq]
      exact le_trans (invUsed_mono _ _ (hle hr)) hinv
  | resolveChoice cid =>
    simp [Action.isResolve] at hres
  | wait =>
    exact final s false k rfl hinv
  | borrow x =>
    rcases doBorrow_cases s x k with ⟨e, hsw⟩ |
      ⟨s1, hsw, _, _, _, _, hinvEq, hcapEq, _, _, _, _⟩
    · rw [processAction_early s _ r k _ hgo hgd hsw] at h
      simp [errResponse] at h
    · refine final s1 false k hsw ?_
      rw [hinvEq, hcapEq]
      exact hinv
  | payDebt x =>
    rcases doPayDebt_cases s x k with ⟨e, hsw⟩ |
      ⟨s1, hsw, _, _, _, _, _, _, hinvEq, hcapEq, _, _, _⟩
    · rw [processAction_early s _ r k _ hgo hgd hsw] at h
      simp [errResponse] at h
    · refine final s1 false k hsw ?_
      rw [hinvEq, hcapEq]
      exact hinv
  | upgrade u =>
    rcases doUpgrade_cases s u k with ⟨e, hsw⟩ |
      ⟨s1, hsw, _, _, _, _, hinvEq, hcapGe, _, _, _, _⟩
    · rw [processAction_early s _ r k _ hgo hgd hsw] at h
      simp [errResponse] at h
    · refine final s1 false k hsw ?_
      rw [hinvEq]
      exact le_trans hinv hcapGe

/-- Witness for C2: buying one compute unit on the fresh state succeeds and
leaves the cargo within capacity. -/
theorem c2_capacity_invariant_witness :
    (processAction createInitialState (.buy .compute 1) (fun _ => 1/2) 0).success
      = true ∧
    calculateInventoryUsed (processAction createInitialState (.buy .compute 1)
        (fun _ => 1/2) 0).state.player.inventory
      ≤ (processAction createInitialState (.buy .compute 1)
          (fun _ => 1/2) 0).state.player.inventoryCapacity := by
  have hs : (processAction createInitialState (.buy .compute 1)
      (fun _ => 1/2) 0).success = true := by
    with_unfolding_all decide
  refine ⟨hs, c2_capacity_invariant createInitialState (.buy .compute 1)
    (fun _ => 1/2) 0 (fun n => ⟨by norm_num, by norm_num⟩) rfl
    (by with_unfolding_all decide) hs⟩

/-- Counterexample to C2 as stated: with a full cargo hold of 10/10 compute
units and a pending shady-deal offer of 5 more, accepting the deal succeeds
and leaves 15 units in a capacity-10 hold. -/
theorem c2_shady_deal_overflow_counterexample :
    (processAction overfullChoiceState (.resolveChoice "accept")
      (fun _ => 9/10) 0).success = true ∧
    calculateInventoryUsed overfullChoiceState.player.inventory = 10 ∧
    overfullChoiceState.player.inventoryCapacity = 10 ∧
    calculateInventoryUsed (processAction overfullChoiceState (.resolveChoice "accept")
      (fun _ => 9/10) 0).state.player.inventory = 15 ∧
    (processAction overfullChoiceState (.resolveChoice "accept")
      (fun _ => 9/10) 0).state.player.inventoryCapacity = 10 := by
  refine ⟨?_, ?_, ?_, ?_, ?_⟩ <;>
    (set_option maxRecDepth 100000 in with_unfolding_all decide)

/-- **C4** (corrected).  Inventory entries stay strictly positive through every
action — the engine removes a key whose quantity reaches zero from
`inventory` — but the "no dangling zero in costBasis" half of the claim is
false: a total customs seizure deletes the inventory key yet writes `0` into
`costBasis` (see the counterexample). -/
theorem c4_inventory_positive (s : GameState) (a : Action) (r : ℕ → ℚ) (k : ℕ)
    (hq : ∀ c, s.pendingChoice = some c → 0 < c.params.quantity)
    (hpos : InvPos s.player.inventory) :
    InvPos (processAction s a r k).state.player.inventory := by
  by_cases hgo : s.gameOver = true
  · rw [processAction_gameOver_fail s a r k hgo]
    exact hpos
  · have hgo' : s.gameOver = false := by
      rcases hb : s.gameOver
      · rfl
      · exact absurd hb hgo
    by_cases hguard : s.pendingChoice.isSome = true ∧ a.isResolve = false
    · rw [processAction_guard_fail s a r k hgo' hguard.1 hguard.2]
      exact hpos
    · have hg2 : s.pendingChoice = none ∨ a.isResolve = true := by
        by_cases hp : s.pendingChoice = none
        · exact Or.inl hp
        · right
          rcases hb : a.isResolve
          · exact absurd ⟨Option.ne_none_iff_isSome.mp hp, hb⟩ hguard
          · rfl
      have final : ∀ s1 ct k1, actionSwitch s a r k = .cont s1 ct k1 →
          InvPos s1.player.inventory →
          InvPos (processAction s a r k).state.player.inventory := by
        intro s1 ct k1 hsw hok
        obtain ⟨h1, h2, h3⟩ := processAction_cont s a r k s1 ct k1 hgo' hg2 hsw
        rw [h3]
        rcases hb : (a.isTravelOrWait || ct) with _ | _
        · simp only [hb, Bool.false_eq_true, if_false]
          rw [checkMilestones_inventory]
          exact hok
        · simp only [hb, if_true]
          refine advanceTurn_invpos _ r k1 ?_
          rw [checkMilestones_inventory]
          exact hok
      cases a with
      | buy g q =>
        rcases doBuy_cases s g q k with ⟨e, st, hsw, hst⟩ |
          ⟨s1, hsw, _, _, _, _, _, _, _, hinvp, _, _, _⟩
        · rw [processAction_early s _ r k _ hgo' hg2 hsw]
          rcases hst with h1 | h1 <;> rw [h1] <;> exact hpos
        · exact final s1 false k hsw (hinvp hpos)
      | sell g q =>
        rcases doSell_cases s g q k with ⟨e, hsw⟩ |
          ⟨s1, hsw, _, _, _, _, _, _, _, hinvp, _, _, _⟩
        · rw [processAction_early s _ r k _ hgo' hg2 hsw]
          exact hpos
        · exact final s1 false k hsw (hinvp hpos)
      | travel d conf =>
        rcases doTravel_cases s d conf r k with ⟨e, hsw⟩ |
          ⟨ev, resp, hsw, hrs, hrt, hrst⟩ |
          ⟨s2, k2, hsw, _, _, _, _, _, _, _, _, hinvp⟩
        · rw [processAction_early s _ r k _ hgo' hg2 hsw]
          exact hpos
        · rw [processAction_early s _ r k _ hgo' hg2 hsw, hrst]
          exact hpos
        · exact final s2 false k2 hsw (hinvp hpos)
      | resolveChoice cid =>
        rcases doResolveChoice_cases s cid r k with ⟨hpcn, hsw⟩ |
          ⟨c, hpcEq, hpdn, hsw⟩ | ⟨c, d, hpcEq, hpd, s2, k2, hsw, _, _, _, _, _, _, _, _, hinvp⟩
        · rw [processAction_early s _ r k _ hgo' hg2 hsw]
          exact hpos
        · refine final _ false _ hsw ?_
          exact resolveChoiceEvent_invpos s cid r k c hpcEq (hq c hpcEq) hpos
        · exact final s2 true k2 hsw (hinvp (hq c hpcEq) hpos)
      | wait =>
        exact final s false k rfl hpos
      | borrow x =>
        rcases doBorrow_cases s x k with ⟨e, hsw⟩ |
          ⟨s1, hsw, _, _, _, _, hinvEq, _, _, _, _, _⟩
        · rw [processAction_early s _ r k _ hgo' hg2 hsw]
          exact hpos
        · refine final s1 false k hsw ?_
          rw [hinvEq]
          exact hpos
      | payDebt x =>
        rcases doPayDebt_cases s x k with ⟨e, hsw⟩ |
          ⟨s1, hsw, _, _, _, _, _, _, hinvEq, _, _, _, _⟩
        · rw [processAction_early s _ r k _ hgo' hg2 hsw]
          exact hpos
        · refine final s1 false k hsw ?_
          rw [hinvEq]
          exact hpos
      | upgrade u =>
        rcases doUpgrade_cases s u k with ⟨e, hsw⟩ |
          ⟨s1, hsw, _, _, _, _, hinvEq, _, _, _, _, _⟩
        · rw [processAction_early s _ r k _ hgo' hg2 hsw]
          exact hpos
        · refine final s1 false k hsw ?_
          rw [hinvEq]
          exact hpos

/-- Witness for C4: accepting the overfull shady deal keeps every inventory
entry strictly positive. -/
theorem c4_inventory_positive_witness :
    InvPos (processAction overfullChoiceState (.resolveChoice "accept")
      (fun _ => 9/10) 0).state.player.inventory := by
  refine c4_inventory_positive overfullChoiceState (.resolveChoice "accept")
    (fun _ => 9/10) 0 ?_ ?_
  · intro c hc
    cases Option.some_inj.mp hc
    norm_num
  · intro g n hgn
    cases g with
    | h100 => exact Option.noConfusion hgn
    | h200 => exact Option.noConfusion hgn
    | b100 => exact Option.noConfusion hgn
    | compute =>
      cases Option.some_inj.mp hgn
      norm_num
    | datasets => exact Option.noConfusion hgn
    | talent => exact Option.noConfusion hgn

/-- Counterexample to C4 as stated: a total customs seizure on the way to
China East removes the H100 key from `inventory` but leaves
`costBasis.h100 = 0` — a dangling zero entry. -/
theorem c4_dangling_costbasis_counterexample :
    (processAction seizureState (.travel .chinaEast true) seizureRand 0).success
      = true ∧
    (processAction seizureState (.travel .chinaEast true)
      seizureRand 0).state.player.inventory .h100 = none ∧
    (processAction seizureState (.travel .chinaEast true)
      seizureRand 0).state.player.costBasis .h100 = some 0 := by
  refine ⟨?_, ?_, ?_⟩ <;>
    (set_option maxRecDepth 100000 in with_unfolding_all decide)

/-- **C6** (corrected).  Rolled events are never stamped with their creation
turn (`turn` stays `none`), and the end-of-turn pruning keeps every unstamped
event whatever the current turn: `state.turn - (e.turn || state.turn)` is `0`
for them, so the advertised 3-turn TTL never fires. -/
theorem c6_no_event_ttl (s : GameState) (travel : Bool) (dest : Option MarketId)
    (r : ℕ → ℚ) (k : ℕ) (curTurn : ℕ) (e : GEvent) (l : List GEvent) :
    (e ∈ (rollForEvents s travel dest r k).1 → e.turn = none) ∧
    (e.turn = none → pruneKeep curTurn e = true) ∧
    ((∀ e2 ∈ l, e2.turn = none) → l.filter (pruneKeep curTurn) = l) := by
  have key : ∀ e2 : GEvent, e2.turn = none → pruneKeep curTurn e2 = true := by
    intro e2 ht
    unfold pruneKeep
    rw [ht]
    dsimp only
    simp only [decide_eq_true_eq]
    omega
  refine ⟨?_, key e, ?_⟩
  · intro he
    exact rollEventsGo_turn_none s travel dest r eventEntries k e he
  · intro hl
    refine List.filter_eq_self.mpr ?_
    intro a ha
    exact key a (hl a ha)

/-- Witness for C6: the bulk-buyer discount event rolled by `eventRand` on the
fresh state is unstamped, survives pruning at turn 1000, and an
all-unstamped singleton list is left intact by the pruning filter. -/
theorem c6_no_event_ttl_witness :
    ({ effect := .discountBuy, good := some .h100, percent := 20 : GEvent }).turn
      = none ∧
    pruneKeep 1000 { effect := .discountBuy, good := some .h100, percent := 20 }
      = true ∧
    List.filter (pruneKeep 1000)
        [{ effect := .discountBuy, good := some .h100, percent := 20 : GEvent }]
      = [{ effect := .discountBuy, good := some .h100, percent := 20 }] := by
  have hm : ({ effect := .discountBuy, good := some .h100, percent := 20 : GEvent }) ∈
      (rollForEvents createInitialState false none eventRand 0).1 := by
    with_unfolding_all decide
  have hc := c6_no_event_ttl createInitialState false none eventRand 0 1000
    { effect := .discountBuy, good := some .h100, percent := 20 }
    [{ effect := .discountBuy, good := some .h100, percent := 20 }]
  refine ⟨hc.1 hm, hc.2.1 (hc.1 hm), hc.2.2 ?_⟩
  intro e2 he2
  rw [List.mem_singleton] at he2
  subst he2
  exact hc.1 hm

/-- Counterexample to C6 as stated: the discount offer rolled on turn 1 is
still in `pendingEvents` four turns later, unstamped — nothing is ever pruned
by age. -/
theorem c6_unstamped_event_counterexample :
    c6State1.pendingEvents
      = [{ effect := .discountBuy, good := some .h100, percent := 20 }] ∧
    c6State1.turn = 2 ∧
    c6State4.turn = 5 ∧
    c6State4.pendingEvents
      = [{ effect := .discountBuy, good := some .h100, percent := 20 }] := by
  refine ⟨?_, ?_, ?_, ?_⟩ <;>
    (set_option maxRecDepth 400000 in with_unfolding_all decide)

/-- **C7** (confirmed).  With no discount or premium offer matching `g`, a
successful buy of `q` units followed by a successful sell of `q` units at the
same location restores the balance exactly, and neither action changes any
market price. -/
theorem c7_roundtrip_balance (s : GameState) (g : Good) (q : ℤ) (r r2 : ℕ → ℚ)
    (k k2 : ℕ)
    (hd : s.pendingEvents.find? (isDiscountFor g) = none)
    (hp : s.pendingEvents.find? (isPremiumFor g) = none)
    (h1 : (processAction s (.buy g q) r k).success = true)
    (h2 : (processAction (processAction s (.buy g q) r k).state (.sell g q)
      r2 k2).success = true) :
    (processAction (processAction s (.buy g q) r k).state (.sell g q)
      r2 k2).state.player.balance = s.player.balance ∧
    (processAction (processAction s (.buy g q) r k).state (.sell g q)
      r2 k2).state.markets = s.markets := by
  have hgo1 := success_gameOver_false s _ r k h1
  have hgd1 := success_guard s _ r k h1
  rcases doBuy_cases s g q k with ⟨e, st, hsw, _⟩ | ⟨s1, hsw, _⟩
  · rw [processAction_early s _ r k _ hgo1 hgd1 hsw] at h1
    simp [errResponse] at h1
  · obtain ⟨_, _, h3⟩ := processAction_cont s _ r k s1 false k hgo1 hgd1 hsw
    obtain ⟨hbal1, hmk1, hpe1, hloc1⟩ := doBuy_succ_facts s g q k s1 false k hd hsw
    have hstate1 : (processAction s (.buy g q) r k).state = (checkMilestones s1).1 := by
      rw [h3]
      rfl
    set st1 := (processAction s (.buy g q) r k).state with hst1
    have hb1 : st1.player.balance
        = s.player.balance - (s.markets s.player.location).prices g * q := by
      rw [hstate1, checkMilestones_balance, hbal1]
    have hm1 : st1.markets = s.markets := by
      rw [hstate1, checkMilestones_markets, hmk1]
    have hl1 : st1.player.location = s.player.location := by
      rw [hstate1, checkMilestones_location, hloc1]
    have hpe1b : st1.pendingEvents = s.pendingEvents := by
      rw [hstate1, checkMilestones_pendingEvents, hpe1]
    have hp2 : st1.pendingEvents.find? (isPremiumFor g) = none := by
      rw [hpe1b]
      exact hp
    have hgo2 := success_gameOver_false st1 _ r2 k2 h2
    have hgd2 := success_guard st1 _ r2 k2 h2
    rcases doSell_cases st1 g q k2 with ⟨e, hsw2⟩ | ⟨s2, hsw2, _⟩
    · rw [processAction_early st1 _ r2 k2 _ hgo2 hgd2 hsw2] at h2
      simp [errResponse] at h2
    · obtain ⟨_, _, h3b⟩ := processAction_cont st1 _ r2 k2 s2 false k2 hgo2 hgd2 hsw2
      obtain ⟨hbal2, hmk2⟩ := doSell_succ_facts st1 g q k2 s2 false k2 hp2 hsw2
      have hstate2 : (processAction st1 (.sell g q) r2 k2).state
          = (checkMilestones s2).1 := by
        rw [h3b]
        rfl
      constructor
      · rw [hstate2, checkMilestones_balance, hbal2, hb1, hm1, hl1]
        ring
      · rw [hstate2, checkMilestones_markets, hmk2, hm1]

/-- Witness for C7: buying then selling two compute units on the fresh state
succeeds and restores the starting balance and prices. -/
theorem c7_roundtrip_balance_witness :
    (processAction (processAction createInitialState (.buy .compute 2)
        (fun _ => 1/2) 0).state (.sell .compute 2)
        (fun _ => 1/2) 0).state.player.balance
      = createInitialState.player.balance ∧
    (processAction (processAction createInitialState (.buy .compute 2)
        (fun _ => 1/2) 0).state (.sell .compute 2)
        (fun _ => 1/2) 0).state.markets = createInitialState.markets := by
  have hs1 : (processAction createInitialState (.buy .compute 2)
      (fun _ => 1/2) 0).success = true := by
    with_unfolding_all decide
  have hs2 : (processAction (processAction createInitialState (.buy .compute 2)
      (fun _ => 1/2) 0).state (.sell .compute 2) (fun _ => 1/2) 0).success = true := by
    set_option maxRecDepth 400000 in with_unfolding_all decide
  exact c7_roundtrip_balance createInitialState .compute 2 (fun _ => 1/2)
    (fun _ => 1/2) 0 0 rfl rfl hs1 hs2

/-- **C10** (confirmed).  With a pending choice set (and the game not over), a
`resolveChoice` with any id succeeds and clears `pendingChoice`; an id outside
the recognized set behaves exactly like a decline (only `pendingChoice` is
cleared by the choice itself), and a pending deferred travel is still
completed: the player arrives and the turn advances. -/
theorem c10_resolve_choice_tolerant (s : GameState) (cid : String) (r : ℕ → ℚ)
    (k : ℕ) (c : ChoiceEvent) (hpc : s.pendingChoice = some c)
    (hgo : s.gameOver = false) :
    (processAction s (.resolveChoice cid) r k).success = true ∧
    (processAction s (.resolveChoice cid) r k).state.pendingChoice = none ∧
    (cid ∉ ["accept", "gamble", "enter", "buy", "use_smuggler"] →
      resolveChoiceEvent s cid r k = (({ s with pendingChoice := none }, true), k)) ∧
    (∀ d, s.pendingDestination = some d →
      (processAction s (.resolveChoice cid) r k).state.player.location = d ∧
      (processAction s (.resolveChoice cid) r k).state.turn = s.turn + 1) := by
  have hgd : s.pendingChoice = none ∨ (Action.resolveChoice cid).isResolve = true :=
    Or.inr rfl
  have part3 : cid ∉ ["accept", "gamble", "enter", "buy", "use_smuggler"] →
      resolveChoiceEvent s cid r k = (({ s with pendingChoice := none }, true), k) := by
    intro hcid
    simp only [List.mem_cons, List.not_mem_nil, or_false, not_or] at hcid
    obtain ⟨hc1, hc2, hc3, hc4, hc5⟩ := hcid
    unfold resolveChoiceEvent
    rw [hpc]
    dsimp only
    rcases c with ⟨ctype, ids, params, dest⟩
    cases ctype <;> dsimp only
    · rw [if_neg hc1]
    · rw [if_neg hc2, if_neg hc3]
    · rw [if_neg hc4]
    · rw [if_neg hc5]
  rcases doResolveChoice_cases s cid r k with ⟨hpcn, _⟩ | ⟨c2, hpc2, hpdn, hsw⟩ |
    ⟨c2, d2, hpc2, hpd2, s2, k2, hsw, ht2, hloc2, _, hpcs2, _, _, _, _, _⟩
  · rw [hpcn] at hpc
    exact Option.noConfusion hpc
  · obtain ⟨h1, h2, h3⟩ := processAction_cont s _ r k _ false _ hgo hgd hsw
    have hstate : (processAction s (.resolveChoice cid) r k).state
        = (checkMilestones (resolveChoiceEvent s cid r k).1.1).1 := by
      rw [h3]
      rfl
    refine ⟨h1, ?_, part3, ?_⟩
    · rw [hstate, checkMilestones_pendingChoice]
      exact resolveChoiceEvent_pendingChoice s cid r k c hpc
    · intro d hd
      rw [hpdn] at hd
      exact Option.noConfusion hd
  · obtain ⟨h1, h2, h3⟩ := processAction_cont s _ r k s2 true k2 hgo hgd hsw
    have hstate : (processAction s (.resolveChoice cid) r k).state
        = (advanceTurn (checkMilestones s2).1 r k2).1 := by
      rw [h3]
      rfl
    refine ⟨h1, ?_, part3, ?_⟩
    · rw [hstate, (advanceTurn_frame _ r k2).2.2.2.1, checkMilestones_pendingChoice,
        hpcs2]
    · intro d hd
      rw [hpd2] at hd
      injection hd with hdd
      subst hdd
      constructor
      · rw [hstate, (advanceTurn_frame _ r k2).1, checkMilestones_location, hloc2]
      · rw [hstate, advanceTurn_turn, checkMilestones_turn, ht2]

/-- Witness for C10: resolving the pending shady deal with the unknown id
"xyzzy" succeeds, declines the deal, completes the deferred journey to
Singapore and advances the turn. -/
theorem c10_resolve_choice_tolerant_witness :
    (processAction overfullChoiceState (.resolveChoice "xyzzy")
      (fun _ => 1/2) 0).success = true ∧
    (processAction overfullChoiceState (.resolveChoice "xyzzy")
      (fun _ => 1/2) 0).state.pendingChoice = none ∧
    (processAction overfullChoiceState (.resolveChoice "xyzzy")
      (fun _ => 1/2) 0).state.player.location = .singapore ∧
    (processAction overfullChoiceState (.resolveChoice "xyzzy")
      (fun _ => 1/2) 0).state.turn = overfullChoiceState.turn + 1 ∧
    resolveChoiceEvent overfullChoiceState "xyzzy" (fun _ => 1/2) 0
      = (({ overfullChoiceState with pendingChoice := none }, true), 0) := by
  obtain ⟨w1, w2, w3, w4⟩ := c10_resolve_choice_tolerant overfullChoiceState "xyzzy"
    (fun _ => 1/2) 0
    { ctype := .shadyDeal,
      choiceIds := ["accept", "decline"],
      params := ⟨.compute, 5, 20, 15, 1000, 5000, 5000, 65, 70⟩,
      destination := .singapore } rfl rfl
  obtain ⟨wl, wt⟩ := w4 .singapore rfl
  exact ⟨w1, w2, wl, wt, w3 (by decide)⟩

/-- **C5** (confirmed).  A partial sell multiplies `costBasis[g]` by exactly
`(n-q)/n` and leaves `calculateAverageCost` unchanged; a customs seizure of
`sq` units multiplies `costBasis[g]` by `(n-sq)/n` within rounding (the
stored value is `Math.round` of the exact product, hence within one half). -/
theorem c5_proportional_cost_basis (s : GameState) (g : Good) (q : ℤ)
    (r : ℕ → ℚ) (k : ℕ) (ins : Bool) (risk : ℚ) (s2 : GameState)
    (lst : List (Good × ℤ)) (k2 : ℕ) (sq : ℤ) :
    ((processAction s (.sell g q) r k).success = true →
      q < (s.player.inventory g).getD 0 →
      (processAction s (.sell g q) r k).state.player.costBasis g
          = some ((s.player.costBasis g).getD 0 *
              (((s.player.inventory g).getD 0 - q : ℤ) : ℚ) /
              (((s.player.inventory g).getD 0 : ℤ) : ℚ)) ∧
      calculateAverageCost g (processAction s (.sell g q) r k).state.player
          = calculateAverageCost g s.player) ∧
    (seizeStep s ins g risk r k = ((s2, lst), k2) → lst = [(g, sq)] → 1 ≤ sq →
      (s.player.costBasis g).getD 0 ≠ 0 →
      ∃ cb2, s2.player.costBasis g = some cb2 ∧
        |cb2 - (s.player.costBasis g).getD 0 *
          (((s.player.inventory g).getD 0 - sq : ℤ) : ℚ) /
          (((s.player.inventory g).getD 0 : ℤ) : ℚ)| ≤ 1/2) := by
  constructor
  · intro h hqlt
    have hgo := success_gameOver_false s _ r k h
    have hgd := success_guard s _ r k h
    rcases doSell_cases s g q k with ⟨e, hsw⟩ | ⟨s1, hsw, _⟩
    · rw [processAction_early s _ r k _ hgo hgd hsw] at h
      simp [errResponse] at h
    · obtain ⟨hle, hq1, hinvg, hcbg⟩ := doSell_cb_facts s g q k s1 false k hsw
      obtain ⟨_, _, h3⟩ := processAction_cont s _ r k s1 false k hgo hgd hsw
      have hstate : (processAction s (.sell g q) r k).state = (checkMilestones s1).1 := by
        rw [h3]
        rfl
      have hne : ¬ ((s.player.inventory g).getD 0 - q = 0) := by omega
      have hown0 : ¬ ((s.player.inventory g).getD 0 = 0) := by omega
      have hoq : (((s.player.inventory g).getD 0 : ℤ) : ℚ) ≠ 0 := by
        exact_mod_cast hown0
      have hdq : (((s.player.inventory g).getD 0 - q : ℤ) : ℚ) ≠ 0 := by
        exact_mod_cast hne
      constructor
      · rw [hstate, checkMilestones_costBasis, hcbg, if_neg hne]
        congr 1
        field_simp
        ring
      · rw [hstate]
        unfold calculateAverageCost
        dsimp only
        rw [checkMilestones_inventory, checkMilestones_costBasis, hinvg, hcbg,
          if_neg hne, if_neg hne]
        simp only [Option.getD_some]
        rw [if_neg hne, if_neg hown0]
        congr 1
        push_cast at hdq hoq ⊢
        field_simp
        ring
  · intro hstep hlst hsq hcb
    subst hlst
    unfold seizeStep at hstep
    dsimp only at hstep
    by_cases hq0 : (s.player.inventory g).getD 0 ≤ 0
    · rw [if_pos hq0] at hstep
      injection hstep with ha hb
      injection ha with ha1 ha2
      exact absurd ha2.symm (by simp)
    · rw [if_neg hq0] at hstep
      try dsimp only at hstep
      split_ifs at hstep
      all_goals
        (injection hstep with ha hb
         injection ha with ha1 ha2
         first
           | exact List.noConfusion ha2
           | (injection ha2 with hpair htail
              injection hpair with hg2 h0
              omega)
           | (subst ha1
              injection ha2 with hpair htail
              injection hpair with hg2 hsqeq
              have hqpos : (0 : ℚ) < (((s.player.inventory g).getD 0 : ℤ) : ℚ) := by
                have hz : (0:ℤ) < (s.player.inventory g).getD 0 := by omega
                exact_mod_cast hz
              have hqne : (((s.player.inventory g).getD 0 : ℤ) : ℚ) ≠ 0 :=
                ne_of_gt hqpos
              have heq : (s.player.costBasis g).getD 0 *
                  (1 - ((sq : ℤ) : ℚ) / (((s.player.inventory g).getD 0 : ℤ) : ℚ))
                  = (s.player.costBasis g).getD 0 *
                    (((s.player.inventory g).getD 0 - sq : ℤ) : ℚ) /
                    (((s.player.inventory g).getD 0 : ℤ) : ℚ) := by
                push_cast
                field_simp
                try ring
              try dsimp only
              rw [if_pos ⟨rfl, hcb⟩]
              refine ⟨_, rfl, ?_⟩
              rw [hsqeq, ← heq]
              exact jround_near _))

/-- Witness for C5: selling one of four compute units multiplies the cost
basis by 3/4 and leaves the average cost unchanged. -/
theorem c5_proportional_cost_basis_witness :
    (processAction partialSellState (.sell .compute 1) (fun _ => 1/2) 0).success
      = true ∧
    ((processAction partialSellState (.sell .compute 1)
        (fun _ => 1/2) 0).state.player.costBasis .compute
      = some ((partialSellState.player.costBasis .compute).getD 0 *
          (((partialSellState.player.inventory .compute).getD 0 - 1 : ℤ) : ℚ) /
          (((partialSellState.player.inventory .compute).getD 0 : ℤ) : ℚ)) ∧
     calculateAverageCost .compute (processAction partialSellState (.sell .compute 1)
        (fun _ => 1/2) 0).state.player
      = calculateAverageCost .compute partialSellState.player) := by
  have hs : (processAction partialSellState (.sell .compute 1)
      (fun _ => 1/2) 0).success = true := by
    with_unfolding_all decide
  have hq : (1 : ℤ) < (partialSellState.player.inventory .compute).getD 0 := by
    with_unfolding_all decide
  exact ⟨hs, (c5_proportional_cost_basis partialSellState .compute 1 (fun _ => 1/2)
    0 false 0 partialSellState [] 0 0).1 hs hq⟩

/-- **C9** (confirmed).  From a well-formed state — non-negative balance and
debt, non-negative local prices, non-negative pending-offer percentages and
non-negative pending-choice stakes — every action under every random outcome
returns a state with non-negative balance and debt: losses and fines floor at
zero, gambling stakes and intel/smuggler costs are capped at the balance, and
`payDebt` rejects amounts exceeding either balance or debt. -/
theorem c9_balance_debt_nonneg (s : GameState) (a : Action) (r : ℕ → ℚ) (k : ℕ)
    (hr : Rand01 r) (hb : 0 ≤ s.player.balance) (hd : 0 ≤ s.player.debt)
    (hpr : ∀ g, 0 ≤ (s.markets s.player.location).prices g)
    (hpe : ∀ e ∈ s.pendingEvents, 0 ≤ e.percent)
    (hpc : ∀ c, s.pendingChoice = some c →
      0 ≤ c.params.amount ∧ 0 ≤ c.params.entryFee) :
    0 ≤ (processAction s a r k).state.player.balance ∧
    0 ≤ (processAction s a r k).state.player.debt := by
  by_cases hgo : s.gameOver = true
  · rw [processAction_gameOver_fail s a r k hgo]
    exact ⟨hb, hd⟩
  · have hgo' : s.gameOver = false := by
      rcases hb2 : s.gameOver
      · rfl
      · exact absurd hb2 hgo
    by_cases hguard : s.pendingChoice.isSome = true ∧ a.isResolve = false
    · rw [processAction_guard_fail s a r k hgo' hguard.1 hguard.2]
      exact ⟨hb, hd⟩
    · have hg2 : s.pendingChoice = none ∨ a.isResolve = true := by
        by_cases hp : s.pendingChoice = none
        · exact Or.inl hp
        · right
          rcases hb2 : a.isResolve
          · exact absurd ⟨Option.ne_none_iff_isSome.mp hp, hb2⟩ hguard
          · rfl
      have final : ∀ s1 ct k1, actionSwitch s a r k = .cont s1 ct k1 →
          0 ≤ s1.player.balance → 0 ≤ s1.player.debt →
          0 ≤ (processAction s a r k).state.player.balance ∧
          0 ≤ (processAction s a r k).state.player.debt := by
        intro s1 ct k1 hsw hob hod
        obtain ⟨h1, h2, h3⟩ := processAction_cont s a r k s1 ct k1 hgo' hg2 hsw
        rw [h3]
        rcases hbr : (a.isTravelOrWait || ct) with _ | _
        · simp only [hbr, Bool.false_eq_true, if_false]
          rw [checkMilestones_balance, checkMilestones_debt]
          exact ⟨hob, hod⟩
        · simp only [hbr, if_true]
          constructor
          · refine advanceTurn_balance_nonneg _ r k1 hr ?_
            rw [checkMilestones_balance]
            exact hob
          · refine advanceTurn_debt_nonneg _ r k1 ?_
            rw [checkMilestones_debt]
            exact hod
      cases a with
      | buy g q =>
        rcases doBuy_cases s g q k with ⟨e, st, hsw, hst⟩ |
          ⟨s1, hsw, _, _, hdebtEq, hbal, _, _, _, _, _, _, _⟩
        · rw [processAction_early s _ r k _ hgo' hg2 hsw]
          rcases hst with h1 | h1 <;> rw [h1] <;> exact ⟨hb, hd⟩
        · refine final s1 false k hsw hbal ?_
          rw [hdebtEq]
          exact hd
      | sell g q =>
        rcases doSell_cases s g q k with ⟨e, hsw⟩ |
          ⟨s1, hsw, _, _, hdebtEq, hbalCond, _, _, _, _, _, _, _⟩
        · rw [processAction_early s _ r k _ hgo' hg2 hsw]
          exact ⟨hb, hd⟩
        · refine final s1 false k hsw (hbalCond hb hpr hpe) ?_
          rw [hdebtEq]
          exact hd
      | travel d conf =>
        rcases doTravel_cases s d conf r k with ⟨e, hsw⟩ |
          ⟨ev, resp, hsw, hrs, hrt, hrst⟩ |
          ⟨s2, k2, hsw, _, _, hdebtEq, _, _, _, hbal, _, _⟩
        · rw [processAction_early s _ r k _ hgo' hg2 hsw]
          exact ⟨hb, hd⟩
        · rw [processAction_early s _ r k _ hgo' hg2 hsw, hrst]
          exact ⟨hb, hd⟩
        · refine final s2 false k2 hsw (hbal hr hb) ?_
          rw [hdebtEq]
          exact hd
      | resolveChoice cid =>
        rcases doResolveChoice_cases s cid r k with ⟨hpcn, hsw⟩ |
          ⟨c, hpc2, hpdn, hsw⟩ |
          ⟨c, d, hpc2, hpd2, s2, k2, hsw, _, _, hdebtEq, _, _, _, hbal, _, _⟩
        · rw [processAction_early s _ r k _ hgo' hg2 hsw]
          exact ⟨hb, hd⟩
        · obtain ⟨ham, hef⟩ := hpc c hpc2
          refine final _ false _ hsw
            (resolveChoiceEvent_balance_nonneg s cid r k c hpc2 hr hb ham hef) ?_
          rw [resolveChoiceEvent_debt s cid r k c hpc2]
          exact hd
        · obtain ⟨ham, hef⟩ := hpc c hpc2
          refine final s2 true k2 hsw (hbal hr hb ham hef) ?_
          rw [hdebtEq]
          exact hd
      | wait =>
        exact final s false k rfl hb hd
      | borrow x =>
        rcases doBorrow_cases s x k with ⟨e, hsw⟩ |
          ⟨s1, hsw, hpos, hbalEq, hdebtEq, _, _, _, _, _, _, _⟩
        · rw [processAction_early s _ r k _ hgo' hg2 hsw]
          exact ⟨hb, hd⟩
        · refine final s1 false k hsw ?_ ?_
          · rw [hbalEq]
            linarith
          · rw [hdebtEq]
            linarith
      | payDebt x =>
        rcases doPayDebt_cases s x k with ⟨e, hsw⟩ |
          ⟨s1, hsw, h1, h2, h3, hbalEq, hdebtEq, _, _, _, _, _, _⟩
        · rw [processAction_early s _ r k _ hgo' hg2 hsw]
          exact ⟨hb, hd⟩
        · refine final s1 false k hsw ?_ ?_
          · rw [hbalEq]
            linarith
          · rw [hdebtEq]
            linarith
      | upgrade u =>
        rcases doUpgrade_cases s u k with ⟨e, hsw⟩ |
          ⟨s1, hsw, hcost, hbalEq, hdebtEq, _, _, _, _, _, _, _⟩
        · rw [processAction_early s _ r k _ hgo' hg2 hsw]
          exact ⟨hb, hd⟩
        · refine final s1 false k hsw ?_ ?_
          · rw [hbalEq]
            linarith
          · rw [hdebtEq]
            exact hd

/-- Witness for C9: accepting the pending shady deal on the overfull-cargo
state leaves balance and debt non-negative. -/
theorem c9_balance_debt_nonneg_witness :
    0 ≤ (processAction overfullChoiceState (.resolveChoice "accept")
      (fun _ => 9/10) 0).state.player.balance ∧
    0 ≤ (processAction overfullChoiceState (.resolveChoice "accept")
      (fun _ => 9/10) 0).state.player.debt := by
  refine c9_balance_debt_nonneg overfullChoiceState (.resolveChoice "accept")
    (fun _ => 9/10) 0 (fun n => ⟨by norm_num, by norm_num⟩)
    (by with_unfolding_all decide) (by with_unfolding_all decide) ?_ ?_ ?_
  · intro g
    cases g <;> with_unfolding_all decide
  · intro e he
    exact absurd he (List.not_mem_nil e)
  · intro c hc
    cases Option.some_inj.mp hc
    constructor <;> norm_num

/-- A turn advance from a state that interest has left with debt 56000,
balance 1000, an empty inventory and net worth -55000 always ends bankrupt:
every random outcome can raise the balance by less than 3851 + 39999
(negative audit fine plus windfall), far below the debt. -/
theorem advanceTurn_bankrupt_of (s : GameState) (r : ℕ → ℚ) (k : ℕ)
    (hr : Rand01 r)
    (hdebt0 : s.player.debt = 50000)
    (hbal0 : s.player.balance = 1000)
    (hinv0 : ∀ g, s.player.inventory g = none) :
    (advanceTurn s r k).1.gameOver = true ∧
    (advanceTurn s r k).1.gameOverReason = some .bankruptcy ∧
    (advanceTurn s r k).1.player.debt = 56000 := by
  have hnw0 : calculateNetWorth s = -49000 := by
    unfold calculateNetWorth
    rw [hbal0, hdebt0, invValue_empty _ _ hinv0]
    norm_num
  have hrate : getDebtInterestRate s = debtHighInterestRate := by
    unfold getDebtInterestRate
    dsimp only
    rw [if_pos (by rw [hnw0]; norm_num)]
  have hint : jround ((50000 : ℚ) * debtHighInterestRate) = 6000 := by
    norm_num [jround, debtHighInterestRate]
  have happ : applyInterest s = { s with player := { s.player with
      debt := 56000, debtInterestRate := debtHighInterestRate } } := by
    unfold applyInterest
    rw [if_pos (by rw [hdebt0]; norm_num)]
    dsimp only
    rw [hrate, hdebt0, hint]
    norm_num
  have hdebtI : (applyInterest s).player.debt = 56000 := by
    rw [happ]
  have hbalI : (applyInterest s).player.balance = 1000 := by
    rw [happ]
    exact hbal0
  have hinvI : ∀ g, (applyInterest s).player.inventory g = none := by
    intro g
    rw [happ]
    exact hinv0 g
  have hnwI : calculateNetWorth (applyInterest s) = -55000 := by
    unfold calculateNetWorth
    rw [hbalI, hdebtI, invValue_empty _ _ hinvI]
    norm_num
  unfold advanceTurn
  dsimp only
  set s1e := applyInterest s with hs1
  set p1 := rollForEvents s1e false none r k with hp1
  set s2e := applyEvents s1e p1.1 with hs2
  set p2 := updatePrices s2e r p1.2 with hp2
  set p3 := rollForOracle p2.1 r p2.2 with hp3
  set s4e := applyOracle p2.1 p3.1 with hs4
  have hok : ∀ e ∈ p1.1, e.effect = .moneyGain → 0 ≤ e.amount := by
    intro e he heff
    rw [hp1] at he
    exact (rollForEvents_ok s1e false none r k hr e he).1 heff
  have hb1 : 0 ≤ s1e.player.balance := by
    rw [hs1, hbalI]
    norm_num
  obtain ⟨hge2, hle2⟩ := applyEvents_balance s1e p1.1 hb1 hok
  have hsum : sumPosContrib p1.1 ≤ 43850 := by
    have hboundper : ∀ entry ∈ eventEntries, ∀ k2,
        sumPosContrib (rollEntry s1e false none entry r k2).1 ≤
          (fun entry => (match entry.category with
           | .audit => max 0 (1 - calculateNetWorth s1e * 0.07)
           | .windfall => (39999 : ℚ)
           | _ => 0)) entry :=
      fun entry hm k2 => rollEntry_posContrib_bound s1e none entry r k2 hr hb1 hm
    have h := rollEventsGo_posContrib_le s1e false none r _ eventEntries hboundper k
    rw [hp1]
    refine le_trans h ?_
    rw [hs1, hnwI]
    have hmax : ((0 : ℚ) ⊔ (1 - (-55000 : ℚ) * 0.07)) = 3851 := by
      rw [max_eq_right] <;> norm_num
    simp only [eventEntries, List.map_cons, List.map_nil, List.sum_cons,
      List.sum_nil]
    try dsimp only
    rw [hmax]
    norm_num
  have hbal2 : s2e.player.balance ≤ 44850 := by
    rw [hs2]
    rw [hs1, hbalI] at hle2
    rw [← hs1] at hle2
    linarith
  have hdebt2 : s2e.player.debt = 56000 := by
    rw [hs2, applyEvents_debt, hs1, hdebtI]
  have hinv2 : ∀ g, s2e.player.inventory g = none := by
    intro g
    rw [hs2]
    refine applyEvents_inv_empty s1e p1.1 ?_ g
    rw [hs1]
    exact hinvI
  have hp4 : s4e.player = s2e.player := by
    rw [hs4, applyOracle_player, hp2, updatePrices_player]
  have hnw4 : calculateNetWorth s4e ≤ 0 := by
    unfold calculateNetWorth
    rw [hp4]
    rw [invValue_empty _ _ hinv2]
    rw [hdebt2]
    linarith
  have hcond : 0 < s4e.player.debt ∧ (calculateNetWorth s4e ≤ 0 ∨
      calculateNetWorth s4e * bankruptcyMultiplier < s4e.player.debt) := by
    refine ⟨?_, Or.inl hnw4⟩
    rw [hp4, hdebt2]
    norm_num
  refine ⟨?_, ?_, ?_⟩
  · unfold checkGameOver
    dsimp only
    rw [if_pos hcond]
  · unfold checkGameOver
    dsimp only
    rw [if_pos hcond]
  · rw [checkGameOver_player, hp4, hdebt2]

/-- **C8** (confirmed).  Non-turn-advancing successful actions never set
`gameOver`; `checkGameOver` declares bankruptcy exactly when `debt > 0` and
(`netWorth ≤ 0` or `debt > netWorth × bankruptcyMultiplier`), declares
destitution exactly when that fails, the balance is ≤ 0, the inventory is
empty and nothing can be borrowed, and otherwise changes nothing; and the
spec's scenario holds for every random stream: a `wait` on the fresh state
altered to debt 50000 / balance 1000 ends with `gameOver`, reason bankruptcy,
debt 56000 after interest, and the turn incremented after the check. -/
theorem c8_game_over_evaluation (s : GameState) (a : Action) (r : ℕ → ℚ)
    (k : ℕ) :
    (((∃ g q, a = .buy g q) ∨ (∃ g q, a = .sell g q) ∨ (∃ x, a = .borrow x) ∨
       (∃ x, a = .payDebt x) ∨ (∃ u, a = .upgrade u)) →
      (processAction s a r k).success = true →
      (processAction s a r k).state.gameOver = false) ∧
    (bankruptcyMultiplier = 3 ∧
     (0 < s.player.debt ∧ (calculateNetWorth s ≤ 0 ∨
        calculateNetWorth s * bankruptcyMultiplier < s.player.debt) →
      (checkGameOver s).gameOver = true ∧
      (checkGameOver s).gameOverReason = some .bankruptcy)) ∧
    (¬(0 < s.player.debt ∧ (calculateNetWorth s ≤ 0 ∨
        calculateNetWorth s * bankruptcyMultiplier < s.player.debt)) →
      (s.player.balance ≤ 0 ∧ calculateInventoryUsed s.player.inventory = 0 ∧
        getMaxBorrowable s ≤ 0) →
      (checkGameOver s).gameOver = true ∧
      (checkGameOver s).gameOverReason = some .destitution) ∧
    (¬(0 < s.player.debt ∧ (calculateNetWorth s ≤ 0 ∨
        calculateNetWorth s * bankruptcyMultiplier < s.player.debt)) →
      ¬(s.player.balance ≤ 0 ∧ calculateInventoryUsed s.player.inventory = 0 ∧
        getMaxBorrowable s ≤ 0) →
      checkGameOver s = s) ∧
    (Rand01 r →
      (processAction c8State .wait r k).state.gameOver = true ∧
      (processAction c8State .wait r k).state.gameOverReason
        = some .bankruptcy ∧
      (processAction c8State .wait r k).state.player.debt = 56000 ∧
      (processAction c8State .wait r k).state.turn = 2) := by
  refine ⟨?_, ⟨by norm_num [bankruptcyMultiplier], ?_⟩, ?_, ?_, ?_⟩
  · -- (i) non-advancing actions never set gameOver
    intro hkind hsucc
    have hgo := success_gameOver_false s a r k hsucc
    have hgd := success_guard s a r k hsucc
    have main : ∀ s1 k1, actionSwitch s a r k = .cont s1 false k1 →
        a.isTravelOrWait = false → s1.gameOver = s.gameOver →
        (processAction s a r k).state.gameOver = false := by
      intro s1 k1 hsw htw hgov
      obtain ⟨h1, h2, h3⟩ := processAction_cont s a r k s1 false k1 hgo hgd hsw
      rw [h3]
      simp only [htw, Bool.or_self, Bool.false_eq_true, if_false]
      rw [checkMilestones_gameOver, hgov, hgo]
    have early : ∀ st e, actionSwitch s a r k = .early (errResponse st e) → False := by
      intro st e hsw
      rw [processAction_early s a r k _ hgo hgd hsw] at hsucc
      simp [errResponse] at hsucc
    rcases hkind with ⟨g, q, ha⟩ | ⟨g, q, ha⟩ | ⟨x, ha⟩ | ⟨x, ha⟩ | ⟨u, ha⟩ <;> subst ha
    · rcases doBuy_cases s g q k with ⟨e, st, hsw, _⟩ |
        ⟨s1, hsw, _, _, _, _, _, _, _, _, _, _, hgov⟩
      · exact absurd (early st e hsw) id
      · exact main s1 k hsw rfl hgov
    · rcases doSell_cases s g q k with ⟨e, hsw⟩ |
        ⟨s1, hsw, _, _, _, _, _, _, _, _, _, _, hgov⟩
      · exact absurd (early s e hsw) id
      · exact main s1 k hsw rfl hgov
    · rcases doBorrow_cases s x k with ⟨e, hsw⟩ |
        ⟨s1, hsw, _, _, _, _, _, _, _, _, _, hgov⟩
      · exact absurd (early s e hsw) id
      · exact main s1 k hsw rfl hgov
    · rcases doPayDebt_cases s x k with ⟨e, hsw⟩ |
        ⟨s1, hsw, _, _, _, _, _, _, _, _, _, _, hgov⟩
      · exact absurd (early s e hsw) id
      · exact main s1 k hsw rfl hgov
    · rcases doUpgrade_cases s u k with ⟨e, hsw⟩ |
        ⟨s1, hsw, _, _, _, _, _, _, _, _, _, hgov⟩
      · exact absurd (early s e hsw) id
      · exact main s1 k hsw rfl hgov
  · -- (ii) bankruptcy characterization
    intro hc
    unfold checkGameOver
    dsimp only
    rw [if_pos hc]
    exact ⟨rfl, rfl⟩
  · -- (iii) destitution characterization
    intro hnc hc
    unfold checkGameOver
    dsimp only
    rw [if_neg hnc, if_pos hc]
    exact ⟨rfl, rfl⟩
  · -- (iv) neither: the state is untouched
    intro hnc hnd
    unfold checkGameOver
    try dsimp only
    rw [if_neg hnc, if_neg hnd]
  · -- (v) the spec scenario under every random stream
    intro hrand
    obtain ⟨h1, h2, h3⟩ := processAction_cont c8State .wait r k c8State false k
      rfl (Or.inl rfl) rfl
    rw [h3]
    simp only [Action.isTravelOrWait, Bool.true_or, if_true]
    have hAT := advanceTurn_bankrupt_of (checkMilestones c8State).1 r k hrand
      (by rw [checkMilestones_debt]; rfl)
      (by rw [checkMilestones_balance]; rfl)
      (by intro g
          rw [checkMilestones_inventory]
          rfl)
    refine ⟨hAT.1, hAT.2.1, hAT.2.2, ?_⟩
    rw [advanceTurn_turn, checkMilestones_turn]
    rfl

/-- Witness for C8: with the constant-1/2 stream, the debt-50000 scenario
ends in bankruptcy after one `wait`, with debt 56000 and the turn advanced. -/
theorem c8_game_over_evaluation_witness :
    (processAction c8State .wait (fun _ => 1/2) 0).state.gameOver = true ∧
    (processAction c8State .wait (fun _ => 1/2) 0).state.gameOverReason
      = some .bankruptcy ∧
    (processAction c8State .wait (fun _ => 1/2) 0).state.player.debt = 56000 ∧
    (processAction c8State .wait (fun _ => 1/2) 0).state.turn = 2 := by
  exact (c8_game_over_evaluation createInitialState .wait (fun _ => 1/2) 0).2.2.2.2
    (fun n => ⟨by norm_num, by norm_num⟩)

/-- Witness for C3: on the fresh state, a `wait` action under the constant-1/2
random stream succeeds and moves the turn from 1 to 2. -/
theorem c3_turn_advancement_witness :
    (processAction createInitialState .wait (fun _ => 1/2) 0).success = true ∧
    (processAction createInitialState .wait (fun _ => 1/2) 0).state.turn
      = createInitialState.turn + 1 := by
  have hs : (processAction createInitialState .wait (fun _ => 1/2) 0).success = true := by
    with_unfolding_all decide
  exact ⟨hs, (c3_turn_advancement createInitialState .wait (fun _ => 1/2) 0).2.1 rfl hs⟩

/-- Counterexample to C3 as stated: on the fresh state, travelling to
Singapore under the constant-0 random stream triggers a travel choice event;
the response is successful, yet the turn is not advanced. -/
theorem c3_travel_choice_counterexample :
    (processAction createInitialState (.travel .singapore false) (fun _ => 0) 0).success
      = true ∧
    (processAction createInitialState (.travel .singapore false)
        (fun _ => 0) 0).state.pendingChoice.isSome = true ∧
    (processAction createInitialState (.travel .singapore false) (fun _ => 0) 0).state.turn
      = createInitialState.turn ∧
    (processAction createInitialState (.travel .singapore false)
        (fun _ => 0) 0).turnAdvanced = false := by
  refine ⟨?_, ?_, ?_, ?_⟩ <;> with_unfolding_all decide

end ComputeWars
